import Mathlib

/-!
# GlassBlog reader: comment threading and the feed pipeline

A shallow embedding of `src/script.js`.  Identifiers are backend-assigned
keys and are modelled as natural numbers; creation timestamps are modelled
as integer instants (milliseconds since the epoch, the value `new Date(s)`
subtracts).  JavaScript truthiness is kept explicit where the script relies
on it (`x || d`, `!x`, `if (x)`).
-/

namespace GlassBlog

/-! ## Data model -/

/-- A row of the remote `comments` collection as fetched by
`loadDataFromSupabase` (nullable columns are `Option`). -/
structure CommentRow where
  id : Nat
  blog_id : Nat
  parent_id : Option Nat
  author : Option String
  text : String
  created_at : Int
  likes : Option Nat
deriving DecidableEq, Repr

/-- An in-memory comment, the object pushed onto `comments[c.blog_id]`. -/
structure Comment where
  id : Nat
  blog_id : Nat
  parent_id : Option Nat
  author : String
  text : String
  date : Int
  likes : Nat
deriving DecidableEq, Repr

/-- JavaScript truthiness of a nullable key: `null` and `0` are falsy. -/
def truthyId : Option Nat → Bool
  | some (_ + 1) => true
  | _ => false

/-- JavaScript truthiness of a nullable string: `null` and `""` are falsy. -/
def truthyStr : Option String → Bool
  | some s => !(s == "")
  | none => false

/-- The expression `s || d` on a nullable string. -/
def orStr (s : Option String) (d : String) : String :=
  match s with
  | some v => if truthyStr s then v else d
  | none => d

/-- The object literal built for one fetched comment (script.js 120-128):
`parent_id: c.parent_id || null`, `author: c.author || 'Anonymous'`,
`likes: c.likes || 0`. -/
def storeComment (c : CommentRow) : Comment :=
  { id := c.id
    blog_id := c.blog_id
    parent_id := if truthyId c.parent_id then c.parent_id else none
    author := orStr c.author "Anonymous"
    text := c.text
    date := c.created_at
    likes := c.likes.getD 0 }

/-- The global `comments` object: a map from post id to the flat comment
list of that post; an absent key is `none`. -/
abbrev CommentStore := Nat → Option (List Comment)

/-- One iteration of `commentsData.forEach` (script.js 118-129): create the
list for the post when absent, then push the comment at its end. -/
def pushComment (comments : CommentStore) (c : CommentRow) : CommentStore :=
  fun blogId =>
    if blogId = c.blog_id then
      some ((comments blogId).getD [] ++ [storeComment c])
    else comments blogId

/-- The comment part of `loadDataFromSupabase`: `comments = {}` followed by
the `forEach` over the fetched rows. -/
def loadComments (commentsData : List CommentRow) : CommentStore :=
  commentsData.foldl pushComment (fun _ => none)

/-- The receiver `comments[blogId]` of an optional chain whose result is
defaulted with `|| []`: the flat comment list of a post, empty when the key
is absent. -/
def commentsFor (comments : CommentStore) (blogId : Nat) : List Comment :=
  (comments blogId).getD []

/-- A rendered comment: the `<div class="comment">` of one comment together
with the nested `<div class="reply">` list (empty when no reply div is
emitted). -/
inductive CommentNode where
  | mk (comment : Comment) (replies : List CommentNode)
deriving Repr

/-- The comment shown by a node. -/
def CommentNode.comment : CommentNode → Comment
  | .mk c _ => c

/-- The nodes nested directly under a node. -/
def CommentNode.replies : CommentNode → List CommentNode
  | .mk _ rs => rs

/-- `Array.prototype.map` with a callback that may fail to return: the
result exists only when every call returns. -/
def mapOpt {α β : Type} (f : α → Option β) : List α → Option (List β)
  | [] => some []
  | a :: as =>
    match f a with
    | none => none
    | some b =>
      match mapOpt f as with
      | none => none
      | some bs => some (b :: bs)

/-- The replies looked up for one comment in `renderCommentsList`:
`comments[blogId]?.filter(c => c.parent_id === comment.id) || []`. -/
def repliesOf (comments : CommentStore) (blogId : Nat) (comment : Comment) : List Comment :=
  (commentsFor comments blogId).filter (fun c => c.parent_id == some comment.id)

/-- The recursive comment tree renderer (script.js 396-425).  The script
recurses without a bound, so the embedding carries the remaining call depth
`fuel`; `none` means the depth budget ran out before the call returned.  The
HTML string is abstracted to the forest of rendered comments (an empty list
stands for the "No comments yet" placeholder). -/
def renderCommentsList (comments : CommentStore) (blogId : Nat) :
    Nat → List Comment → Option (List CommentNode)
  | 0, _ => none
  | fuel + 1, commentList =>
    mapOpt (fun comment =>
      let replies := repliesOf comments blogId comment
      if replies.length > 0 then
        (renderCommentsList comments blogId fuel replies).map (CommentNode.mk comment)
      else some (CommentNode.mk comment [])) commentList

/-- The top-level list handed to the renderer by `openBlog`:
`comments[blog.id]?.filter(c => !c.parent_id) || []`. -/
def topLevel (comments : CommentStore) (blogId : Nat) : List Comment :=
  (commentsFor comments blogId).filter (fun c => !truthyId c.parent_id)

/-- The comment tree of the detail view (script.js 379). -/
def commentTree (comments : CommentStore) (blogId : Nat) (fuel : Nat) :
    Option (List CommentNode) :=
  renderCommentsList comments blogId fuel (topLevel comments blogId)

mutual
/-- All comments shown in a node, the node's own comment first. -/
def CommentNode.flatten : CommentNode → List Comment
  | .mk c rs => c :: flattenList rs
/-- All comments shown in a forest, across all depths, in document order. -/
def flattenList : List CommentNode → List Comment
  | [] => []
  | n :: ns => n.flatten ++ flattenList ns
end

mutual
/-- All nodes of a subtree, the root first. -/
def CommentNode.nodes : CommentNode → List CommentNode
  | .mk c rs => .mk c rs :: nodesList rs
/-- All nodes of a forest, across all depths. -/
def nodesList : List CommentNode → List CommentNode
  | [] => []
  | n :: ns => n.nodes ++ nodesList ns
end


/-- An ancestor chain of rendered comments, innermost first: every member is
a stored comment of the post, each one replies to the next, and the last one
is a top-level comment. -/
def IsChain (all : List Comment) : List Comment → Prop
  | [] => True
  | [c] => c ∈ all ∧ c.parent_id = none
  | c :: x :: rest => c ∈ all ∧ c.parent_id = some x.id ∧ IsChain all (x :: rest)

/-- Parent links of a comment list are acyclic: some rank on comment ids
strictly drops from every comment to the id it names as parent. -/
def Acyclic (all : List Comment) : Prop :=
  ∃ rank : Nat → Nat, ∀ c ∈ all, ∀ p ∈ c.parent_id, rank p < rank c.id

/-- Every non-null parent reference names a comment of the same list. -/
def ParentsResolve (all : List Comment) : Prop :=
  ∀ c ∈ all, ∀ p ∈ c.parent_id, ∃ d ∈ all, d.id = p

/-- A fetched comment row with the given id and parent on post 7. -/
def sampleRow (id : Nat) (parent : Option Nat) : CommentRow :=
  ⟨id, 7, parent, some "ann", "hello", 0, none⟩

/-- The stored form of `sampleRow`. -/
def sampleComment (id : Nat) (parent : Option Nat) : Comment :=
  ⟨id, 7, parent, "ann", "hello", 0, 0⟩

/-! ## Posts and the feed pipeline -/

/-- An in-memory post, the object built by `loadDataFromSupabase`
(script.js 93-107).  `likes` is the count derived from the like records; it is
an integer because `handleLike` increments and decrements it in place. -/
structure Blog where
  id : Nat
  title : String
  author : String
  type : String
  coverImage : String
  tags : List String
  content : String
  videoUrl : Option String
  fileName : Option String
  fileData : Option String
  views : Nat
  likes : Int
  date : Int
deriving DecidableEq, Repr

/-- The feed controls read by the pipeline: the globals `currentFilter`,
`searchTerm`, `currentPage` and the value of the `sortSelect` element
(`none` when the element is absent from the page). -/
structure FeedState where
  currentFilter : String
  searchTerm : String
  currentPage : Nat
  sortSelect : Option String
deriving DecidableEq, Repr

/-- The expression `b.likes || 0` on a numeric like count. -/
def likesOrZero (b : Blog) : Int :=
  if b.likes = 0 then 0 else b.likes

/-- `Array.prototype.sort(cmp)`: a stable sort (ECMAScript 2019) that places
`a` before `b` whenever `cmp(a, b) <= 0`. -/
def jsSort {α : Type} (cmp : α → α → Int) (l : List α) : List α :=
  l.insertionSort (fun a b => cmp a b ≤ 0)

/-- Whether the second sequence starts the first one. -/
def startsWith : List Char → List Char → Bool
  | _, [] => true
  | [], _ :: _ => false
  | a :: as, b :: bs => a == b && startsWith as bs

/-- Substring search on character sequences, position by position. -/
def includesChars : List Char → List Char → Bool
  | [], t => startsWith [] t
  | a :: as, t => startsWith (a :: as) t || includesChars as t

/-- `String.prototype.includes`. -/
def includes (s t : String) : Bool :=
  includesChars s.data t.data

/-- The search predicate of `filterBlogsArray` (script.js 232-236) for an
already lowercased term.  `toLowerCase` is `String.prototype.toLowerCase`,
left abstract. -/
def matchesSearch (toLowerCase : String → String) (term : String) (b : Blog) : Bool :=
  includes (toLowerCase b.title) term ||
  includes (toLowerCase b.author) term ||
  b.tags.any (fun tag => includes (toLowerCase tag) term)

/-- The function `sortBlogsArray` (script.js 249-255); dates are compared as instants. -/
def sortBlogsArray (arr : List Blog) (sortBy : String) : List Blog :=
  let sorted := arr
  if sortBy == "newest" then jsSort (fun a b => b.date - a.date) sorted
  else if sortBy == "oldest" then jsSort (fun a b => a.date - b.date) sorted
  else if sortBy == "popular" then jsSort (fun a b => likesOrZero b - likesOrZero a) sorted
  else sorted

/-- The expression `document.getElementById('sortSelect')?.value || 'newest'`. -/
def sortControl (st : FeedState) : String :=
  match st.sortSelect with
  | some v => if v == "" then "newest" else v
  | none => "newest"

/-- The function `filterBlogsArray` (script.js 221-247). -/
def filterBlogsArray (toLowerCase : String → String) (st : FeedState) (arr : List Blog) :
    List Blog :=
  let filtered := arr
  let filtered :=
    if st.currentFilter != "all" && st.currentFilter != "popular" then
      filtered.filter (fun b => b.type == st.currentFilter)
    else filtered
  let filtered :=
    if st.searchTerm != "" then
      let term := toLowerCase st.searchTerm
      filtered.filter (matchesSearch toLowerCase term)
    else filtered
  if st.currentFilter == "popular" then
    jsSort (fun a b => likesOrZero b - likesOrZero a) filtered
  else
    let sortBy := sortControl st
    sortBlogsArray filtered sortBy

/-- The predicate applied by the two filter steps of `filterBlogsArray`
together: the kind test (skipped under `all` and `popular`) and the search test
(skipped for an empty term). -/
def keptBy (toLowerCase : String → String) (st : FeedState) (b : Blog) : Bool :=
  (st.currentFilter == "all" || st.currentFilter == "popular" || b.type == st.currentFilter)
  && (st.searchTerm == "" || matchesSearch toLowerCase (toLowerCase st.searchTerm) b)

/-- Lowercasing of the ASCII letters, on which `toLowerCase` agrees with
`String.prototype.toLowerCase` for ASCII text. -/
def asciiLower (s : String) : String :=
  String.mk (s.data.map Char.toLower)

/-! ## The detail view -/

/-- The comment arrays alive during a call, by address: `filter` and array
literals create new arrays, and any write would go to an address. -/
abbrev CommentHeap := List (List Comment)

/-- The elements of the comment array at an address. -/
def CommentHeap.read (h : CommentHeap) (r : Nat) : List Comment :=
  (h[r]?).getD []

/-- A new comment array with the given elements, at a fresh address. -/
def CommentHeap.alloc (h : CommentHeap) (a : List Comment) : CommentHeap × Nat :=
  (h ++ [a], h.length)

/-- The global `comments` object as it lives in memory: a map from post id
to the address of that post's comment array; an absent key is `none`. -/
abbrev CommentRefs := Nat → Option Nat

/-- The store a `comments` object denotes on a heap: each key's array read
at its address. -/
def storeOf (refs : CommentRefs) (h : CommentHeap) : CommentStore :=
  fun blogId => (refs blogId).map h.read

/-- The expression `comments[blogId]?.filter(p) || []` on array objects: a
new array with the passing elements, or a new empty array for an absent
key. -/
def filterComments (refs : CommentRefs) (h : CommentHeap) (blogId : Nat)
    (p : Comment → Bool) : CommentHeap × Nat :=
  match refs blogId with
  | some a => h.alloc ((h.read a).filter p)
  | none => h.alloc []

/-- The loop of `commentList.map(callback)`: for each index `k` below the
length taken at the start, the element is read from the array as it is at
that moment and handed to the callback, which may change the heap and may fail
to return; `remaining` counts the indices still to visit. -/
def mapComments (callback : CommentHeap → Comment → Option (CommentHeap × CommentNode))
    (commentList : Nat) : Nat → Nat → CommentHeap → Option (CommentHeap × List CommentNode)
  | 0, _, h => some (h, [])
  | remaining + 1, k, h =>
    match (h.read commentList)[k]? with
    | none => mapComments callback commentList remaining (k + 1) h
    | some comment =>
      match callback h comment with
      | none => none
      | some (h1, node) =>
        match mapComments callback commentList remaining (k + 1) h1 with
        | none => none
        | some (h2, nodes) => some (h2, node :: nodes)

/-- The recursive comment tree renderer (script.js 396-425) on array
objects: `commentList` is the address of the array it is called with, and the
result carries the heap after the call.  `fuel` bounds the call depth as in
`renderCommentsList`. -/
def renderCommentsListHeap (refs : CommentRefs) (blogId : Nat) :
    Nat → CommentHeap → Nat → Option (CommentHeap × List CommentNode)
  | 0, _, _ => none
  | fuel + 1, h, commentList =>
    mapComments (fun h1 comment =>
      let replies := filterComments refs h1 blogId (fun c => c.parent_id == some comment.id)
      if (replies.1.read replies.2).length > 0 then
        match renderCommentsListHeap refs blogId fuel replies.1 replies.2 with
        | none => none
        | some (h2, nodes) => some (h2, CommentNode.mk comment nodes)
      else some (replies.1, CommentNode.mk comment []))
      commentList (h.read commentList).length 0 h

/-- The globals read and written when a post is opened: the posts, the
`comments` object and the comment arrays it points to. -/
structure AppState where
  blogs : List Blog
  comments : CommentRefs
  heap : CommentHeap

/-- The flat comment list of a post in a state:
`comments[blogId]`, empty for an absent key. -/
def AppState.commentList (s : AppState) (blogId : Nat) : List Comment :=
  commentsFor (storeOf s.comments s.heap) blogId

/-- Every key of the `comments` object points to an existing array. -/
def AppState.WellFormed (s : AppState) : Prop :=
  ∀ blogId a, s.comments blogId = some a → a < s.heap.length

/-- The statement `blog.views++` on the object found by `blogs.find`: the
first post with the given id gets its view counter incremented. -/
def incrementViews : List Blog → Nat → List Blog
  | [], _ => []
  | b :: bs, id =>
    if b.id = id then { b with views := b.views + 1 } :: bs
    else b :: incrementViews bs id

/-- Whether building `contentHtml` (script.js 299-327) throws: for a vlog
with a video URL that contains `youtu` but not `youtu.be`, the video id is
read with `new URL(blog.videoUrl)`, which throws when the text does not parse
as an absolute URL.  `urlParses` says whether `new URL` accepts a text; the
markup itself is left out. -/
def contentMarkupThrows (urlParses : String → Bool) (blog : Blog) : Bool :=
  blog.type == "vlog" &&
  match blog.videoUrl with
  | none => false
  | some videoUrl =>
    truthyStr (some videoUrl) && includes videoUrl "youtu" &&
      !(includes videoUrl "youtu.be") && !(urlParses videoUrl)

/-- How a call of `openBlog` ends: no post has the id and the function
returns at once; building the content markup throws and the modal is not
rendered; or the modal is rendered with the comment forest. -/
inductive OpenOutcome where
  | notFound
  | threw
  | shown (tree : List CommentNode)

/-- What `openBlog` leaves behind: the globals after the call and how the
call ended. -/
structure OpenResult where
  state : AppState
  outcome : OpenOutcome

/-- The function `openBlog` (script.js 282-388) on the globals, for a page
that has the `blogModal` element with its wrapper; `none` means the comment
renderer exhausted the call depth `fuel`.  The view counter is incremented
first, then the content markup is built, then the comment list. -/
def openBlog (urlParses : String → Bool) (fuel : Nat) (s : AppState) (id : Nat) :
    Option OpenResult :=
  match s.blogs.find? (fun b => b.id == id) with
  | none => some ⟨s, .notFound⟩
  | some blog =>
    let s1 : AppState := { s with blogs := incrementViews s.blogs id }
    if contentMarkupThrows urlParses blog then some ⟨s1, .threw⟩
    else
      let top := filterComments s1.comments s1.heap blog.id (fun c => !truthyId c.parent_id)
      match renderCommentsListHeap s1.comments blog.id fuel top.1 top.2 with
      | none => none
      | some (h2, tree) => some ⟨{ s1 with heap := h2 }, .shown tree⟩

/-- A stand-in for `new URL` on sample inputs: a text with the `https`
scheme parses, a text without a scheme does not. -/
def sampleUrlParses (s : String) : Bool :=
  startsWith s.data "https://".data

/-- A state with the given posts whose post 7 has the given comments, in one
array at address 0. -/
def sampleState (blogs : List Blog) (comments : List Comment) : AppState :=
  ⟨blogs, fun blogId => if blogId = 7 then some 0 else none, [comments]⟩

/-- A post with the given id, kind, like count, creation instant and tags. -/
def samplePost (id : Nat) (type : String) (likes : Int) (date : Int) (tags : List String) :
    Blog :=
  ⟨id, "Title", "Author", type, "cover.png", tags, "", none, none, none, 0, likes, date⟩

/-! ## Rendering the feed and the feed controls -/

/-- The constant `POSTS_PER_PAGE` (script.js 14). -/
def POSTS_PER_PAGE : Nat := 5

/-- The part of the page the feed functions touch: the cards inside the
`blogGrid` element (`none` when the element is absent), whether the
`emptyState` element carries the class `hidden` (`none` when absent), whether
the `loadMoreContainer` is shown (`none` when it does not exist yet), and the
text of the `modalLikeCount` span (`none` when absent). -/
structure FeedDom where
  blogGrid : Option (List Blog)
  emptyStateHidden : Option Bool
  loadMoreShown : Option Bool
  modalLikeCount : Option Int
deriving DecidableEq, Repr

/-- The function `renderBlogs` (script.js 147-179) as a transformer of the
page: `slice(0, k)` is `take k`. -/
def renderBlogs (toLowerCase : String → String) (st : FeedState) (blogs : List Blog)
    (dom : FeedDom) : FeedDom :=
  match dom.blogGrid with
  | none => dom
  | some _ =>
    let filtered := filterBlogsArray toLowerCase st blogs
    if filtered.length == 0 then
      { dom with
        blogGrid := some []
        emptyStateHidden := dom.emptyStateHidden.map (fun _ => false) }
    else
      let paginated := filtered.take (st.currentPage * POSTS_PER_PAGE)
      { dom with
        blogGrid := some paginated
        emptyStateHidden := dom.emptyStateHidden.map (fun _ => true)
        loadMoreShown := some (decide (filtered.length > st.currentPage * POSTS_PER_PAGE)) }

/-- A row of the remote `post_likes` collection. -/
structure LikeRecord where
  id : Nat
  blog_id : Nat
  user_identifier : String
deriving DecidableEq, Repr

/-- The reader application: the feed controls, the in-memory posts, the
page, the remote like-record collection and the local display name. -/
structure App where
  st : FeedState
  blogs : List Blog
  dom : FeedDom
  post_likes : List LikeRecord
  currentUser : String
deriving DecidableEq, Repr

/-- The function `filterBlogs` (script.js 257-268). -/
def filterBlogs (toLowerCase : String → String) (app : App) (filter : String) : App :=
  let st1 : FeedState := { app.st with currentFilter := filter, currentPage := 1 }
  let st2 : FeedState :=
    if filter == "popular" then
      { st1 with sortSelect := st1.sortSelect.map (fun _ => "popular") }
    else st1
  { app with st := st2, dom := renderBlogs toLowerCase st2 app.blogs app.dom }

/-- The function `sortBlogs` (script.js 270-274). -/
def sortBlogs (toLowerCase : String → String) (app : App) : App :=
  if app.st.currentFilter == "popular" then app
  else { app with dom := renderBlogs toLowerCase app.st app.blogs app.dom }

/-- The function `loadMoreBlogs` (script.js 276-279). -/
def loadMoreBlogs (toLowerCase : String → String) (app : App) : App :=
  let st1 : FeedState := { app.st with currentPage := app.st.currentPage + 1 }
  { app with st := st1, dom := renderBlogs toLowerCase st1 app.blogs app.dom }

/-- The search box handler (script.js 51-54), once the debounce delay has
passed: `searchTerm = e.target.value; filterBlogs(currentFilter)`. -/
def searchInput (toLowerCase : String → String) (app : App) (value : String) : App :=
  let app1 : App := { app with st := { app.st with searchTerm := value } }
  filterBlogs toLowerCase app1 app1.st.currentFilter

/-- The user picks a value in the sort dropdown (when it exists) and its
`change` listener runs `sortBlogs`. -/
def sortSelectChange (toLowerCase : String → String) (app : App) (value : String) : App :=
  let app1 : App :=
    { app with st := { app.st with sortSelect := app.st.sortSelect.map (fun _ => value) } }
  sortBlogs toLowerCase app1

/-! ## The like toggle -/

/-- The query `.eq('blog_id', blogId).eq('user_identifier', user)` on the
like records. -/
def selectLike (post_likes : List LikeRecord) (blogId : Nat) (user : String) :
    List LikeRecord :=
  post_likes.filter (fun r => r.blog_id == blogId && r.user_identifier == user)

/-- The modifier `.maybeSingle()`: no row gives `null`, one row gives the
row, several rows give an error (outer `none`). -/
def maybeSingle {α : Type} : List α → Option (Option α)
  | [] => some none
  | [r] => some (some r)
  | _ :: _ :: _ => none

/-- The statements `blog.likes++` and `blog.likes--` on the object found by
`blogs.find`: the first post with the id gets `delta` added to its count. -/
def adjustLikes : List Blog → Nat → Int → List Blog
  | [], _, _ => []
  | b :: bs, id, delta =>
    if b.id = id then { b with likes := b.likes + delta } :: bs
    else b :: adjustLikes bs id delta

/-- The in-memory like count of a post, read from the object `blogs.find`
returns. -/
def likesOf (blogs : List Blog) (blogId : Nat) : Option Int :=
  (blogs.find? (fun b => b.id == blogId)).map (fun b => b.likes)

/-- The tail of `handleLike` (script.js 509-514): write the count into the
modal span when it exists and render the feed again. -/
def afterLike (toLowerCase : String → String) (app : App) (blogId : Nat) : App :=
  let dom1 : FeedDom :=
    match likesOf app.blogs blogId with
    | some n => { app.dom with modalLikeCount := app.dom.modalLikeCount.map (fun _ => n) }
    | none => app.dom
  { app with dom := renderBlogs toLowerCase app.st app.blogs dom1 }

/-- The function `handleLike` (script.js 468-520) against a sequential
like-record collection whose delete and insert calls succeed; `newId` is the
key the backend assigns to an inserted record.  A select that finds several
rows fails, and the `catch` block leaves everything as it was. -/
def handleLike (toLowerCase : String → String) (app : App) (blogId : Nat) (newId : Nat) :
    App :=
  match app.blogs.find? (fun b => b.id == blogId) with
  | none => app
  | some _ =>
    match maybeSingle (selectLike app.post_likes blogId app.currentUser) with
    | none => app
    | some (some existing) =>
      afterLike toLowerCase
        { app with
          post_likes := app.post_likes.filter (fun r => !(r.id == existing.id))
          blogs := adjustLikes app.blogs blogId (-1) } blogId
    | some none =>
      afterLike toLowerCase
        { app with
          post_likes := app.post_likes ++ [⟨newId, blogId, app.currentUser⟩]
          blogs := adjustLikes app.blogs blogId 1 } blogId

/-- A run of like toggles, each given as the post id and the key the backend
would assign on insert. -/
def handleLikes (toLowerCase : String → String) (app : App) (calls : List (Nat × Nat)) : App :=
  calls.foldl (fun a c => handleLike toLowerCase a c.1 c.2) app

/-- The invariant of the like records: at most one record per (post, user)
pair. -/
def AtMostOnePerPair (post_likes : List LikeRecord) : Prop :=
  ∀ (blogId : Nat) (user : String), (selectLike post_likes blogId user).length ≤ 1

/-- What the user can do to the feed. -/
inductive FeedEvent where
  | filterClick (filter : String)
  | search (value : String)
  | sortChange (value : String)
  | loadMore
  | like (blogId : Nat) (newId : Nat)
  | refresh (blogs : List Blog)
deriving Repr

/-- One event handled by the reader; `refresh` is the periodic reload, which
replaces the posts and renders. -/
def App.step (toLowerCase : String → String) (app : App) : FeedEvent → App
  | .filterClick f => filterBlogs toLowerCase app f
  | .search v => searchInput toLowerCase app v
  | .sortChange v => sortSelectChange toLowerCase app v
  | .loadMore => loadMoreBlogs toLowerCase app
  | .like blogId newId => handleLike toLowerCase app blogId newId
  | .refresh blogs =>
    { app with blogs := blogs, dom := renderBlogs toLowerCase app.st blogs app.dom }

/-- The states the reader can be in: it starts with filter `all`, an empty
search term and page 1 (script.js 10-13), and then handles events. -/
inductive Reachable (toLowerCase : String → String) : App → Prop where
  | init (app : App) (hf : app.st.currentFilter = "all") (hs : app.st.searchTerm = "")
      (hp : app.st.currentPage = 1) : Reachable toLowerCase app
  | step (app : App) (e : FeedEvent) (h : Reachable toLowerCase app) :
      Reachable toLowerCase (app.step toLowerCase e)

/-- A reader showing the given posts on page `page` with an empty page. -/
def sampleApp (filter term : String) (page : Nat) (blogs : List Blog)
    (post_likes : List LikeRecord) : App :=
  ⟨⟨filter, term, page, some "newest"⟩, blogs, ⟨some [], some true, none, some 0⟩,
    post_likes, "ann"⟩

/-- Posts numbered `1 .. n`, all articles without likes, newest first. -/
def samplePosts : Nat → List Blog
  | 0 => []
  | n + 1 => samplePost (n + 1) "article" 0 (Int.ofNat (n + 1)) [] :: samplePosts n

/-! ## Loading the posts -/

/-- A row of the remote `blogs` collection as fetched by
`loadDataFromSupabase`; `likes` is the denormalised counter stored on the
row. -/
structure BlogRow where
  id : Nat
  title : Option String
  author : Option String
  type : Option String
  cover_image : Option String
  tags : Option (List String)
  content : Option String
  video_url : Option String
  file_name : Option String
  file_data : Option String
  views : Option Nat
  likes : Option Int
  created_at : Int
deriving DecidableEq, Repr

/-- A row of the query `from('post_likes').select('blog_id')`. -/
structure LikeRow where
  blog_id : Nat
deriving DecidableEq, Repr

/-- The function `getDefaultImage` (script.js 137-144) on a nullable kind
(kinds that name an inherited object property are outside the model). -/
def getDefaultImage (type : Option String) : String :=
  match type with
  | some "article" => "https://images.unsplash.com/photo-1499750310107-5fef28a66643?w=800"
  | some "vlog" => "https://images.unsplash.com/photo-1574717024653-61fd2cf4d44d?w=800"
  | some "docs" => "https://images.unsplash.com/photo-1569336415962-a4bd9f69cdc5?w=800"
  | _ => "https://images.unsplash.com/photo-1499750310107-5fef28a66643?w=800"

/-- The object `likeCounts`: a map from post id to a count, absent keys
being `none`. -/
abbrev LikeCounts := Nat → Option Nat

/-- One iteration of `likesData?.forEach` (script.js 89-91):
`likeCounts[like.blog_id] = (likeCounts[like.blog_id] || 0) + 1`. -/
def countLike (likeCounts : LikeCounts) (like : LikeRow) : LikeCounts :=
  fun blogId =>
    if blogId = like.blog_id then some ((likeCounts blogId).getD 0 + 1)
    else likeCounts blogId

/-- The like count map built from the fetched like rows (`likesData` may be
null, in which case the optional chain skips the loop). -/
def buildLikeCounts (likesData : Option (List LikeRow)) : LikeCounts :=
  match likesData with
  | none => fun _ => none
  | some rows => rows.foldl countLike (fun _ => none)

/-- The object literal built for one fetched post (script.js 93-107). -/
def toBlog (likeCounts : LikeCounts) (blog : BlogRow) : Blog :=
  { id := blog.id
    title := orStr blog.title "Untitled"
    author := orStr blog.author "Anonymous"
    type := orStr blog.type "article"
    coverImage := orStr blog.cover_image (getDefaultImage blog.type)
    tags := blog.tags.getD []
    content := orStr blog.content ""
    videoUrl := blog.video_url
    fileName := blog.file_name
    fileData := blog.file_data
    views := blog.views.getD 0
    likes := Int.ofNat ((likeCounts blog.id).getD 0)
    date := blog.created_at }

/-- The post part of `loadDataFromSupabase` (script.js 74-107) after both
fetches succeeded: `blogs = (blogsData || []).map(...)`. -/
def loadBlogs (blogsData : Option (List BlogRow)) (likesData : Option (List LikeRow)) :
    List Blog :=
  (blogsData.getD []).map (toBlog (buildLikeCounts likesData))

/-! ## The admin console: publishing a post -/

/-- A file picked in the browser. -/
structure File where
  name : String
  size : Nat
deriving DecidableEq, Repr

/-- The values of the publish form read by `createBlog`: the checked
`blogType` radio (`none` when none is checked) and the text inputs. -/
structure BlogForm where
  blogType : Option String
  blogTitle : String
  blogAuthor : String
  coverImage : String
  blogTags : String
  blogContent : String
  videoUrl : String
deriving DecidableEq, Repr

/-- The file globals of admin.js (lines 7-9). -/
structure AdminState where
  currentFile : Option File
  currentCoverFile : Option File
  currentVideoFile : Option File
deriving DecidableEq, Repr

/-- The record `blogData` handed to `saveBlogToSupabase`. -/
structure BlogData where
  title : String
  author : String
  type : Option String
  cover_image : String
  tags : List String
  content : Option String
  video_url : Option String
  file_name : Option String
  file_data : Option String
  views : Nat
  likes : Nat
  created_at : String
deriving DecidableEq, Repr

/-- What the surroundings answer during one publish attempt: the outcome of
`uploadFile(file, bucket)` (an error message or the public URL), the result of
reading a file as a data URL (`none` when the reader fails), the error of the
insert (`none` when it succeeds), and the clock. -/
structure AdminEnv where
  upload : File → String → Except String String
  readAsDataURL : File → Option String
  insertError : Option String
  now : String

/-- What a publish attempt does, in order: remote calls and notices. -/
inductive Effect where
  | upload (bucket : String) (file : File)
  | insert (blogData : BlogData)
  | reload
  | toast (message : String) (type : String)
deriving DecidableEq, Repr

/-- The function `getDefaultCover` (admin.js 511-518). -/
def getDefaultCover (type : Option String) : String :=
  getDefaultImage type

/-- `String.prototype.split(',')` on a character sequence. -/
def splitComma : List Char → List (List Char)
  | [] => [[]]
  | c :: cs =>
    if c = ',' then [] :: splitComma cs
    else
      match splitComma cs with
      | [] => [[c]]
      | seg :: rest => (c :: seg) :: rest

/-- The characters `String.prototype.trim` strips: ECMAScript white space
and line terminators. -/
def isJsSpace (c : Char) : Bool :=
  let n := c.toNat
  n == 9 || n == 10 || n == 11 || n == 12 || n == 13 || n == 32 || n == 160 ||
  n == 5760 || (8192 ≤ n && n ≤ 8202) || n == 8232 || n == 8233 || n == 8239 ||
  n == 8287 || n == 12288 || n == 65279

/-- `String.prototype.trim` on a character sequence. -/
def jsTrim (s : List Char) : List Char :=
  ((s.dropWhile isJsSpace).reverse.dropWhile isJsSpace).reverse

/-- The `tags` entry of `blogData` (admin.js 164-166): an empty input gives
no tags, otherwise the comma separated segments, trimmed, without the empty
ones. -/
def parseTags (value : String) : List String :=
  if value == "" then []
  else (((splitComma value.data).map jsTrim).filter (fun t => !t.isEmpty)).map String.mk

/-- The function `saveBlogToSupabase` (admin.js 222-251): the insert, then
either the success notice and a reload or the failure notice. -/
def saveBlogToSupabase (env : AdminEnv) (blogData : BlogData) : List Effect :=
  match env.insertError with
  | none => [.insert blogData, .toast "Post published successfully!" "success", .reload]
  | some message => [.insert blogData, .toast ("Failed to publish: " ++ message) "error"]

/-- The function `createBlog` (admin.js 138-220): the sequence of remote
calls and notices of one publish attempt. -/
def createBlog (env : AdminEnv) (adm : AdminState) (form : BlogForm) : List Effect :=
  let type := form.blogType
  let title := form.blogTitle
  let author := form.blogAuthor
  if title == "" || author == "" then
    [.toast "Title and Author are required!" "error"]
  else
    let cover : List Effect × Option String :=
      match adm.currentCoverFile with
      | none => ([], some form.coverImage)
      | some file =>
        match env.upload file "covers" with
        | .ok url => ([.upload "covers" file], some url)
        | .error message =>
          ([.upload "covers" file,
            .toast ("Cover image upload failed: " ++ message) "error"], none)
    match cover with
    | (done, none) => done
    | (done, some coverImage) =>
      let blogData : BlogData :=
        { title := title
          author := author
          type := type
          cover_image := if coverImage == "" then getDefaultCover type else coverImage
          tags := parseTags form.blogTags
          content := none
          video_url := none
          file_name := none
          file_data := none
          views := 0
          likes := 0
          created_at := env.now }
      if type == some "article" then
        let content := form.blogContent
        if content == "" then
          done ++ [.toast "Content is required for articles!" "error"]
        else
          done ++ saveBlogToSupabase env { blogData with content := some content }
      else if type == some "vlog" then
        let video : List Effect × Option String :=
          match adm.currentVideoFile with
          | none => ([], some form.videoUrl)
          | some file =>
            match env.upload file "videos" with
            | .ok url => ([.upload "videos" file], some url)
            | .error message =>
              ([.upload "videos" file,
                .toast ("Video upload failed: " ++ message) "error"], none)
        match video with
        | (done2, none) => done ++ done2
        | (done2, some videoUrl) =>
          if videoUrl == "" then
            done ++ done2 ++
              [.toast "Either a video URL or a video file is required for vlogs!" "error"]
          else
            done ++ done2 ++ saveBlogToSupabase env { blogData with video_url := some videoUrl }
      else if type == some "docs" then
        match adm.currentFile with
        | none => done ++ [.toast "Please select a file to upload!" "error"]
        | some file =>
          match env.readAsDataURL file with
          | some result =>
            done ++ saveBlogToSupabase env
              { blogData with file_name := some file.name, file_data := some result }
          | none => done ++ [.toast "Error reading file" "error"]
      else
        done ++ saveBlogToSupabase env blogData

/-- Whether an effect is a remote call (a storage upload, a record insert
or a reload of the posts). -/
def Effect.isRemote : Effect → Bool
  | .upload _ _ => true
  | .insert _ => true
  | .reload => true
  | .toast _ _ => false

/-- Surroundings in which every upload succeeds with the URL `"https://cdn/"
++ name`, every file can be read and the insert succeeds. -/
def sampleEnv : AdminEnv :=
  ⟨fun file _ => .ok ("https://cdn/" ++ file.name), fun file => some ("data:" ++ file.name),
    none, "2024-01-01T00:00:00.000Z"⟩

/-! ## Arrays as mutable objects -/

/-- The array objects alive during a call, by address; `sort` mutates its
receiver in place while `[...a]` and `filter` create new arrays. -/
abbrev Heap := List (List Blog)

/-- The elements of the array at an address. -/
def Heap.read (h : Heap) (r : Nat) : List Blog :=
  (h[r]?).getD []

/-- A new array object with the given elements, at a fresh address. -/
def Heap.alloc (h : Heap) (a : List Blog) : Heap × Nat :=
  (h ++ [a], h.length)

/-- Overwrite the elements of the array at an address. -/
def Heap.write (h : Heap) (r : Nat) (a : List Blog) : Heap :=
  h.set r a

/-- The expression `[...arr]`: a new array with the same elements. -/
def arraySpread (h : Heap) (arr : Nat) : Heap × Nat :=
  h.alloc (h.read arr)

/-- The call `arr.filter(p)`: a new array with the elements passing `p`. -/
def arrayFilter (h : Heap) (arr : Nat) (p : Blog → Bool) : Heap × Nat :=
  h.alloc ((h.read arr).filter p)

/-- The call `arr.sort(cmp)`: sorts the receiver in place and returns it. -/
def arraySort (h : Heap) (arr : Nat) (cmp : Blog → Blog → Int) : Heap × Nat :=
  (h.write arr (jsSort cmp (h.read arr)), arr)

/-- The function `sortBlogsArray` (script.js 249-255) on array objects. -/
def sortBlogsArrayHeap (h : Heap) (arr : Nat) (sortBy : String) : Heap × Nat :=
  let copy := arraySpread h arr
  let h1 := copy.1
  let sorted := copy.2
  if sortBy == "newest" then arraySort h1 sorted (fun a b => b.date - a.date)
  else if sortBy == "oldest" then arraySort h1 sorted (fun a b => a.date - b.date)
  else if sortBy == "popular" then
    arraySort h1 sorted (fun a b => likesOrZero b - likesOrZero a)
  else (h1, sorted)

/-- The function `filterBlogsArray` (script.js 221-247) on array objects. -/
def filterBlogsArrayHeap (toLowerCase : String → String) (st : FeedState) (h : Heap)
    (arr : Nat) : Heap × Nat :=
  let s0 := arraySpread h arr
  let s1 :=
    if st.currentFilter != "all" && st.currentFilter != "popular" then
      arrayFilter s0.1 s0.2 (fun b => b.type == st.currentFilter)
    else s0
  let s2 :=
    if st.searchTerm != "" then
      let term := toLowerCase st.searchTerm
      arrayFilter s1.1 s1.2 (matchesSearch toLowerCase term)
    else s1
  if st.currentFilter == "popular" then
    arraySort s2.1 s2.2 (fun a b => likesOrZero b - likesOrZero a)
  else
    let sortBy := sortControl st
    sortBlogsArrayHeap s2.1 s2.2 sortBy

/-- A call result `res` on heap `h` that returns an array with elements
`content` at an address not below `base`, and leaves every array of `h`
below `base` as it was. -/
def FreshResult (base : Nat) (h : Heap) (res : Heap × Nat) (content : List Blog) : Prop :=
  base ≤ res.2 ∧ res.2 < res.1.length ∧ res.1.read res.2 = content ∧
  h.length ≤ res.1.length ∧ ∀ i, i < base → res.1.read i = h.read i

/-! ## The admin console: picking a document -/

/-- The part of the admin page `handleFile` touches: the text of the
`fileName` element and whether `filePreview` and `dropZone` carry the class
`hidden` (each `none` when the element is absent). -/
structure AdminDom where
  fileName : Option String
  filePreviewHidden : Option Bool
  dropZoneHidden : Option Bool
deriving DecidableEq, Repr

/-- The function `handleFile` (admin.js 425-437): the file globals, the page
and the notices after the call. -/
def handleFile (adm : AdminState) (dom : AdminDom) (file : File) :
    AdminState × AdminDom × List Effect :=
  if file.size > 10 * 1024 * 1024 then
    (adm, dom, [.toast "File size exceeds 10MB limit" "error"])
  else
    ({ adm with currentFile := some file },
     { fileName := dom.fileName.map (fun _ => file.name)
       filePreviewHidden := dom.filePreviewHidden.map (fun _ => false)
       dropZoneHidden := dom.dropZoneHidden.map (fun _ => true) },
     [])

/-- Seven posts of mixed kinds with like counts 3, 7, 1, 5, 2, 6, 4. -/
def sampleLikedPosts : List Blog :=
  [samplePost 1 "article" 3 10 [], samplePost 2 "vlog" 7 20 [],
    samplePost 3 "docs" 1 30 [], samplePost 4 "article" 5 40 [],
    samplePost 5 "vlog" 2 50 [], samplePost 6 "docs" 6 60 [],
    samplePost 7 "article" 4 70 []]

/-- In the spec's words, `t` is `s` "trimmed of surrounding whitespace": `s`
is `t` between two runs of white space, and `t` neither starts nor ends with
white space. -/
def IsTrimOf (s t : List Char) : Prop :=
  ∃ l r, s = l ++ t ++ r ∧
    (∀ c ∈ l, isJsSpace c = true) ∧ (∀ c ∈ r, isJsSpace c = true) ∧
    (∀ c, t.head? = some c → isJsSpace c = false) ∧
    (∀ c, t.getLast? = some c → isJsSpace c = false)

/-! ## Lemmas: loading the comment store -/

theorem commentsFor_foldl (rows : List CommentRow) (s : CommentStore) (b : Nat) :
    commentsFor (rows.foldl pushComment s) b
      = commentsFor s b ++ (rows.filter (fun r => r.blog_id == b)).map storeComment := by
  induction rows generalizing s with
  | nil => simp
  | cons r rs ih =>
    rw [List.foldl_cons, ih]
    by_cases h : b = r.blog_id
    · subst h
      simp [commentsFor, pushComment]
    · have h2 : ¬ r.blog_id = b := fun e => h e.symm
      simp [commentsFor, pushComment, h, h2]

theorem commentsFor_loadComments (rows : List CommentRow) (b : Nat) :
    commentsFor (loadComments rows) b
      = (rows.filter (fun r => r.blog_id == b)).map storeComment := by
  unfold loadComments
  rw [commentsFor_foldl]
  simp [commentsFor]

theorem storeComment_parent_ne_zero (r : CommentRow) : (storeComment r).parent_id ≠ some 0 := by
  unfold storeComment
  rcases h : r.parent_id with _ | n
  · simp [truthyId]
  · cases n <;> simp [truthyId]

theorem stored_parent_ne_zero (rows : List CommentRow) (b : Nat) (c : Comment)
    (hc : c ∈ commentsFor (loadComments rows) b) : c.parent_id ≠ some 0 := by
  rw [commentsFor_loadComments] at hc
  obtain ⟨r, -, rfl⟩ := List.mem_map.1 hc
  exact storeComment_parent_ne_zero r

theorem stored_blog_id (rows : List CommentRow) (b : Nat) (c : Comment)
    (hc : c ∈ commentsFor (loadComments rows) b) : c.blog_id = b := by
  rw [commentsFor_loadComments] at hc
  obtain ⟨r, hr, rfl⟩ := List.mem_map.1 hc
  simpa [storeComment] using (List.mem_filter.1 hr).2

/-- In a loaded store a parent reference is falsy exactly when it is null. -/
theorem stored_truthy_iff (rows : List CommentRow) (b : Nat) (c : Comment)
    (hc : c ∈ commentsFor (loadComments rows) b) :
    truthyId c.parent_id = false ↔ c.parent_id = none := by
  have h0 := stored_parent_ne_zero rows b c hc
  rcases h : c.parent_id with _ | n
  · simp [truthyId]
  · cases n with
    | zero => exact absurd h h0
    | succ k => simp [truthyId]

theorem topLevel_loadComments (rows : List CommentRow) (b : Nat) :
    topLevel (loadComments rows) b
      = (commentsFor (loadComments rows) b).filter (fun c => c.parent_id == none) := by
  unfold topLevel
  apply List.filter_congr
  intro c hc
  have h := stored_truthy_iff rows b c hc
  rcases hp : c.parent_id with _ | n
  · simp [truthyId]
  · have : truthyId c.parent_id ≠ false := fun e => by simpa [hp] using h.1 e
    rw [hp] at this
    simpa using this

/-! ## Lemmas: `mapOpt` -/

theorem mapOpt_cons {α β : Type} (f : α → Option β) (a : α) (as : List α) :
    mapOpt f (a :: as) =
      match f a with
      | none => none
      | some b =>
        match mapOpt f as with
        | none => none
        | some bs => some (b :: bs) := rfl

theorem mapOpt_cons_eq_some {α β : Type} (f : α → Option β) (a : α) (as : List α)
    (r : List β) :
    mapOpt f (a :: as) = some r ↔
      ∃ b bs, f a = some b ∧ mapOpt f as = some bs ∧ r = b :: bs := by
  rw [mapOpt_cons]
  cases h1 : f a with
  | none => simp
  | some b =>
    cases h2 : mapOpt f as with
    | none => simp
    | some bs =>
      simp only [Option.some.injEq]
      constructor
      · intro h; exact ⟨b, bs, rfl, rfl, h.symm⟩
      · rintro ⟨b2, bs2, hb, hbs, rfl⟩
        rw [hb, hbs]

theorem mapOpt_nil_eq_some {α β : Type} (f : α → Option β) (r : List β) :
    mapOpt f [] = some r ↔ r = [] := by
  unfold mapOpt
  simp [eq_comm]

theorem mapOpt_total {α β : Type} (f : α → Option β) (l : List α)
    (h : ∀ a ∈ l, ∃ b, f a = some b) : ∃ bs, mapOpt f l = some bs := by
  induction l with
  | nil => exact ⟨[], rfl⟩
  | cons a as ih =>
    obtain ⟨b, hb⟩ := h a (List.mem_cons_self _ _)
    obtain ⟨bs, hbs⟩ := ih (fun x hx => h x (List.mem_cons_of_mem _ hx))
    exact ⟨b :: bs, (mapOpt_cons_eq_some f a as _).2 ⟨b, bs, hb, hbs, rfl⟩⟩

/-! ## Lemmas: the recursive renderer -/

theorem render_nil (comments : CommentStore) (blogId fuel : Nat) :
    renderCommentsList comments blogId (fuel + 1) [] = some [] := rfl

theorem render_succ (comments : CommentStore) (blogId fuel : Nat) (l : List Comment) :
    renderCommentsList comments blogId (fuel + 1) l =
      mapOpt (fun comment =>
        if (repliesOf comments blogId comment).length > 0 then
          (renderCommentsList comments blogId fuel (repliesOf comments blogId comment)).map
            (CommentNode.mk comment)
        else some (CommentNode.mk comment [])) l := by
  rw [renderCommentsList]

theorem renderNode_eq_some (comments : CommentStore) (blogId fuel : Nat) (a : Comment)
    (b : CommentNode) :
    (if (repliesOf comments blogId a).length > 0 then
        (renderCommentsList comments blogId fuel (repliesOf comments blogId a)).map
          (CommentNode.mk a)
      else some (CommentNode.mk a [])) = some b ↔
      ∃ rs,
        ((repliesOf comments blogId a = [] ∧ rs = []) ∨
          (repliesOf comments blogId a ≠ [] ∧
            renderCommentsList comments blogId fuel (repliesOf comments blogId a) = some rs)) ∧
        b = CommentNode.mk a rs := by
  by_cases hne : repliesOf comments blogId a = []
  · have hlen : ¬ (repliesOf comments blogId a).length > 0 := by simp [hne]
    rw [if_neg hlen]
    simp only [Option.some.injEq]
    constructor
    · intro h; exact ⟨[], Or.inl ⟨hne, rfl⟩, h.symm⟩
    · rintro ⟨rs, h | h, rfl⟩
      · rw [h.2]
      · exact absurd hne h.1
  · have hlen : (repliesOf comments blogId a).length > 0 := List.length_pos.2 hne
    rw [if_pos hlen]
    cases h1 : renderCommentsList comments blogId fuel (repliesOf comments blogId a) with
    | none =>
      simp only [Option.map_none']
      constructor
      · intro h; cases h
      · rintro ⟨rs, h | h, -⟩
        · exact absurd h.1 hne
        · exact absurd h.2 (by simp)
    | some rs =>
      simp only [Option.map_some', Option.some.injEq]
      constructor
      · intro h; exact ⟨rs, Or.inr ⟨hne, rfl⟩, h.symm⟩
      · rintro ⟨rs2, h | h, rfl⟩
        · exact absurd h.1 hne
        · rw [h.2]

/-- What the renderer emits for one comment: a leaf when the comment has no
reply, otherwise the rendered reply list nested under it. -/
theorem render_cons_eq_some (comments : CommentStore) (blogId fuel : Nat) (a : Comment)
    (as : List Comment) (r : List CommentNode) :
    renderCommentsList comments blogId (fuel + 1) (a :: as) = some r ↔
      ∃ rs bs,
        ((repliesOf comments blogId a = [] ∧ rs = []) ∨
          (repliesOf comments blogId a ≠ [] ∧
            renderCommentsList comments blogId fuel (repliesOf comments blogId a) = some rs)) ∧
        renderCommentsList comments blogId (fuel + 1) as = some bs ∧
        r = CommentNode.mk a rs :: bs := by
  rw [render_succ, mapOpt_cons_eq_some]
  constructor
  · rintro ⟨b, bs, hb, hbs, rfl⟩
    obtain ⟨rs, hrs, rfl⟩ := (renderNode_eq_some comments blogId fuel a b).1 hb
    exact ⟨rs, bs, hrs, hbs, rfl⟩
  · rintro ⟨rs, bs, hrs, hbs, rfl⟩
    exact ⟨_, bs, (renderNode_eq_some comments blogId fuel a _).2 ⟨rs, hrs, rfl⟩, hbs, rfl⟩

/-- More call depth never changes a result that was already produced. -/
theorem render_fuel_succ (comments : CommentStore) (blogId : Nat) :
    ∀ (fuel : Nat) (l : List Comment) (t : List CommentNode),
      renderCommentsList comments blogId fuel l = some t →
      renderCommentsList comments blogId (fuel + 1) l = some t := by
  intro fuel
  induction fuel with
  | zero => intro l t h; simp [renderCommentsList] at h
  | succ n ih =>
    intro l
    induction l with
    | nil => intro t h; rw [render_nil] at h ⊢; exact h
    | cons a as ihl =>
      intro t h
      obtain ⟨rs, bs, hrs, hbs, rfl⟩ := (render_cons_eq_some comments blogId n a as t).1 h
      refine (render_cons_eq_some comments blogId (n + 1) a as _).2 ⟨rs, bs, ?_, ihl bs hbs, rfl⟩
      rcases hrs with h1 | h1
      · exact Or.inl h1
      · exact Or.inr ⟨h1.1, ih _ _ h1.2⟩

theorem render_fuel_le (comments : CommentStore) (blogId : Nat) (fuel fuel2 : Nat)
    (hle : fuel ≤ fuel2) (l : List Comment) (t : List CommentNode)
    (h : renderCommentsList comments blogId fuel l = some t) :
    renderCommentsList comments blogId fuel2 l = some t := by
  induction hle with
  | refl => exact h
  | step _ ih => exact render_fuel_succ comments blogId _ l t ih


/-! ## Lemmas: termination on lists with pairwise distinct ids -/

theorem isChain_mem (all : List Comment) :
    ∀ (path : List Comment), IsChain all path → ∀ y ∈ path,
      y ∈ all ∧ (y.parent_id = none ∨ ∃ x ∈ path, y.parent_id = some x.id) := by
  intro path
  induction path with
  | nil => intro _ y hy; cases hy
  | cons c rest ih =>
    intro h y hy
    cases rest with
    | nil =>
      have hy2 : y = c := by simpa using hy
      subst hy2
      exact ⟨h.1, Or.inl h.2⟩
    | cons x rest2 =>
      obtain ⟨hc, hp, hrest⟩ := h
      rcases List.mem_cons.1 hy with rfl | hy2
      · exact ⟨hc, Or.inr ⟨x, by simp, hp⟩⟩
      · obtain ⟨h1, h2⟩ := ih hrest y hy2
        refine ⟨h1, ?_⟩
        rcases h2 with h2 | ⟨z, hz, hz2⟩
        · exact Or.inl h2
        · exact Or.inr ⟨z, List.mem_cons_of_mem _ hz, hz2⟩

theorem isChain_extend (all : List Comment)
    (hid : ∀ a ∈ all, ∀ b ∈ all, a.id = b.id → a = b)
    (c : Comment) (path : List Comment) (hch : IsChain all (c :: path))
    (hnd : (c :: path).Nodup) (y : Comment) (hy : y ∈ all)
    (hp : y.parent_id = some c.id) :
    IsChain all (y :: c :: path) ∧ (y :: c :: path).Nodup := by
  refine ⟨⟨hy, hp, hch⟩, List.nodup_cons.2 ⟨?_, hnd⟩⟩
  intro hmem
  obtain ⟨-, hpar⟩ := isChain_mem all (c :: path) hch y hmem
  rcases hpar with hnone | ⟨x, hx, hx2⟩
  · rw [hnone] at hp; cases hp
  · have hxid : x.id = c.id := by
      rw [hp] at hx2
      exact (Option.some.inj hx2).symm
    have hxall : x ∈ all := (isChain_mem all (c :: path) hch x hx).1
    have hcall : c ∈ all := (isChain_mem all (c :: path) hch c (List.mem_cons_self _ _)).1
    have hxc : x = c := hid x hxall c hcall hxid
    subst hxc
    -- the parent of `y` is the head of the chain, so `y` sits strictly above it
    rcases List.mem_cons.1 hmem with hyx | hyp
    · subst hyx
      -- `y` would be its own parent
      obtain ⟨-, hpar2⟩ := isChain_mem all (y :: path) hch y (List.mem_cons_self _ _)
      cases path with
      | nil => rw [hch.2] at hp; cases hp
      | cons z rest =>
        have hz : y.parent_id = some z.id := hch.2.1
        have hzy : z.id = y.id := by
          rw [hp] at hz
          exact (Option.some.inj hz).symm
        have hzall : z ∈ all := hch.2.2 |> fun h => (isChain_mem all (z :: rest) h z
          (List.mem_cons_self _ _)).1
        have : z = y := hid z hzall y hy hzy
        subst this
        exact (List.nodup_cons.1 hnd).1 (List.mem_cons_self _ _)
    · -- `y` lies in the tail: its parent is a later member of the tail, not the head
      have hchp : IsChain all path := by
        cases path with
        | nil => trivial
        | cons z rest => exact hch.2.2
      obtain ⟨-, hpar3⟩ := isChain_mem all path hchp y hyp
      rcases hpar3 with hnone | ⟨w, hw, hw2⟩
      · rw [hnone] at hp; cases hp
      · have hwid : w.id = x.id := by
          rw [hp] at hw2
          exact (Option.some.inj hw2).symm
        have hwall : w ∈ all := (isChain_mem all path hchp w hw).1
        have : w = x := hid w hwall x hcall hwid
        subst this
        exact (List.nodup_cons.1 hnd).1 hw

theorem nodup_chain_length (all : List Comment) (path : List Comment)
    (hch : IsChain all path) (hnd : path.Nodup) : path.length ≤ all.length := by
  have hsub : path ⊆ all := fun y hy => (isChain_mem all path hch y hy).1
  exact (List.Nodup.subperm hnd hsub).length_le

theorem render_total_aux (comments : CommentStore) (blogId : Nat)
    (hid : ∀ a ∈ commentsFor comments blogId, ∀ b ∈ commentsFor comments blogId,
      a.id = b.id → a = b) :
    ∀ (fuel : Nat) (path l : List Comment), 0 < fuel →
      (commentsFor comments blogId).length + 1 ≤ fuel + path.length →
      (∀ c ∈ l, IsChain (commentsFor comments blogId) (c :: path) ∧ (c :: path).Nodup) →
      ∃ t, renderCommentsList comments blogId fuel l = some t := by
  intro fuel
  induction fuel with
  | zero => intro _ _ h; exact absurd h (by decide)
  | succ n ih =>
    intro path l _ hfuel hl
    rw [render_succ]
    apply mapOpt_total
    intro c hc
    obtain ⟨hch, hnd⟩ := hl c hc
    by_cases hne : repliesOf comments blogId c = []
    · have hlen : ¬ (repliesOf comments blogId c).length > 0 := by simp [hne]
      rw [if_neg hlen]
      exact ⟨_, rfl⟩
    · have hlen : (repliesOf comments blogId c).length > 0 := List.length_pos.2 hne
      rw [if_pos hlen]
      have hbound := nodup_chain_length _ (c :: path) hch hnd
      simp only [List.length_cons] at hbound
      obtain ⟨t, ht⟩ := ih (c :: path) (repliesOf comments blogId c) (by omega)
        (by simp only [List.length_cons]; omega)
        (fun y hy => by
          have hy2 := List.mem_filter.1 hy
          have hp : y.parent_id = some c.id := by simpa using hy2.2
          exact isChain_extend _ hid c path hch hnd y hy2.1 hp)
      exact ⟨_, by rw [ht]; rfl⟩

theorem id_inj_of_nodup (all : List Comment) (h : (all.map (fun c => c.id)).Nodup) :
    ∀ a ∈ all, ∀ b ∈ all, a.id = b.id → a = b :=
  fun _ ha _ hb hab => List.inj_on_of_nodup_map h ha hb hab

/-- With pairwise distinct ids and no falsy non-null parent reference, the
recursion started from the top-level comments returns within call depth
`length + 1`. -/
theorem commentTree_total (comments : CommentStore) (blogId : Nat)
    (hnd : ((commentsFor comments blogId).map (fun c => c.id)).Nodup)
    (hz : ∀ c ∈ commentsFor comments blogId, c.parent_id ≠ some 0) :
    ∃ t, commentTree comments blogId ((commentsFor comments blogId).length + 1) = some t := by
  unfold commentTree
  apply render_total_aux comments blogId (id_inj_of_nodup _ hnd) _ [] _ (by omega) (by simp)
  intro c hc
  have hc2 := List.mem_filter.1 hc
  refine ⟨⟨hc2.1, ?_⟩, by simp⟩
  have h0 := hz c hc2.1
  rcases hp : c.parent_id with _ | k
  · rfl
  · cases k with
    | zero => exact absurd hp h0
    | succ j =>
      have := hc2.2
      rw [hp] at this
      simp [truthyId] at this


/-! ## Lemmas: shape and content of the rendered forest -/

theorem flattenList_nil : flattenList [] = [] := by rw [flattenList]

theorem flattenList_cons (c : Comment) (rs ns : List CommentNode) :
    flattenList (CommentNode.mk c rs :: ns) = c :: (flattenList rs ++ flattenList ns) := by
  rw [flattenList, CommentNode.flatten]; rfl

theorem nodesList_nil : nodesList [] = [] := by rw [nodesList]

theorem nodesList_cons (c : Comment) (rs ns : List CommentNode) :
    nodesList (CommentNode.mk c rs :: ns)
      = CommentNode.mk c rs :: (nodesList rs ++ nodesList ns) := by
  rw [nodesList, CommentNode.nodes]; rfl

/-- The forest returned for a list shows that list, in order, at its roots,
and under every node exactly the replies looked up for that node's comment,
in store order. -/
theorem render_shape (comments : CommentStore) (blogId : Nat) :
    ∀ (fuel : Nat) (l : List Comment) (t : List CommentNode),
      renderCommentsList comments blogId fuel l = some t →
      t.map CommentNode.comment = l ∧
      ∀ n ∈ nodesList t,
        n.replies.map CommentNode.comment = repliesOf comments blogId n.comment := by
  intro fuel
  induction fuel with
  | zero => intro l t h; simp [renderCommentsList] at h
  | succ k ih =>
    intro l
    induction l with
    | nil =>
      intro t h
      rw [render_nil] at h
      cases h
      exact ⟨rfl, fun n hn => by rw [nodesList_nil] at hn; cases hn⟩
    | cons a as ihl =>
      intro t h
      obtain ⟨rs, bs, hrs, hbs, rfl⟩ := (render_cons_eq_some comments blogId k a as t).1 h
      obtain ⟨hb1, hb2⟩ := ihl bs hbs
      refine ⟨by simp [CommentNode.comment, hb1], ?_⟩
      intro n hn
      rw [nodesList_cons] at hn
      rcases List.mem_cons.1 hn with rfl | hn2
      · rcases hrs with ⟨h1, h2⟩ | ⟨_, h2⟩
        · simp [CommentNode.replies, CommentNode.comment, h1, h2]
        · exact (ih _ _ h2).1
      · rcases List.mem_append.1 hn2 with hn3 | hn3
        · rcases hrs with ⟨_, h2⟩ | ⟨_, h2⟩
          · rw [h2, nodesList_nil] at hn3; cases hn3
          · exact (ih _ _ h2).2 n hn3
        · exact hb2 n hn3

/-- Counting law of the forest: a comment occurs as often as it occurs among
the roots plus once for every occurrence in the reply list of a shown
comment. -/
theorem render_count (comments : CommentStore) (blogId : Nat) (c : Comment) :
    ∀ (fuel : Nat) (l : List Comment) (t : List CommentNode),
      renderCommentsList comments blogId fuel l = some t →
      (flattenList t).count c
        = l.count c + ((flattenList t).map
            (fun y => (repliesOf comments blogId y).count c)).sum := by
  intro fuel
  induction fuel with
  | zero => intro l t h; simp [renderCommentsList] at h
  | succ k ih =>
    intro l
    induction l with
    | nil =>
      intro t h
      rw [render_nil] at h
      cases h
      simp [flattenList_nil]
    | cons a as ihl =>
      intro t h
      obtain ⟨rs, bs, hrs, hbs, rfl⟩ := (render_cons_eq_some comments blogId k a as t).1 h
      have hb := ihl bs hbs
      have hr : (flattenList rs).count c
          = (repliesOf comments blogId a).count c + ((flattenList rs).map
              (fun y => (repliesOf comments blogId y).count c)).sum := by
        rcases hrs with ⟨h1, h2⟩ | ⟨_, h2⟩
        · simp [h1, h2, flattenList_nil]
        · exact ih _ _ h2
      rw [flattenList_cons]
      simp only [List.count_cons, List.count_append, List.map_cons, List.map_append,
        List.sum_cons, List.sum_append]
      rw [hr, hb]
      omega

theorem sum_map_indicator {α : Type} [DecidableEq α] (g : α → Nat) (d : α) :
    ∀ (l : List α), (∀ y ∈ l, g y = if y = d then 1 else 0) →
      (l.map g).sum = l.count d := by
  intro l
  induction l with
  | nil => intro _; rfl
  | cons a as ih =>
    intro h
    have ha := h a (List.mem_cons_self _ _)
    have := ih (fun y hy => h y (List.mem_cons_of_mem _ hy))
    simp only [List.map_cons, List.sum_cons, List.count_cons, this, ha]
    by_cases e : a = d
    · simp [e]; omega
    · simp [e]

/-- Every shown comment is a root or a looked-up reply of a shown comment. -/
theorem render_mem (comments : CommentStore) (blogId : Nat) (fuel : Nat)
    (l : List Comment) (t : List CommentNode)
    (h : renderCommentsList comments blogId fuel l = some t) (c : Comment)
    (hc : c ∈ flattenList t) :
    c ∈ l ∨ ∃ y ∈ flattenList t, c ∈ repliesOf comments blogId y := by
  by_contra hno
  push_neg at hno
  have hcount := render_count comments blogId c fuel l t h
  have h1 : l.count c = 0 := List.count_eq_zero.2 hno.1
  have h2 : ((flattenList t).map (fun y => (repliesOf comments blogId y).count c)).sum = 0 := by
    apply List.sum_eq_zero
    intro x hx
    obtain ⟨y, hy, rfl⟩ := List.mem_map.1 hx
    exact List.count_eq_zero.2 (hno.2 y hy)
  have h3 : 0 < (flattenList t).count c := List.count_pos_iff.2 hc
  omega

theorem render_subset (comments : CommentStore) (blogId : Nat) (fuel : Nat)
    (l : List Comment) (t : List CommentNode)
    (h : renderCommentsList comments blogId fuel l = some t)
    (hl : l ⊆ commentsFor comments blogId) :
    flattenList t ⊆ commentsFor comments blogId := by
  intro c hc
  rcases render_mem comments blogId fuel l t h c hc with h1 | ⟨y, -, hy⟩
  · exact hl h1
  · exact (List.mem_filter.1 hy).1


theorem render_fuel_unique (comments : CommentStore) (blogId : Nat) (f1 f2 : Nat)
    (l : List Comment) (t1 t2 : List CommentNode)
    (h1 : renderCommentsList comments blogId f1 l = some t1)
    (h2 : renderCommentsList comments blogId f2 l = some t2) : t1 = t2 := by
  rcases Nat.le_total f1 f2 with h | h
  · have := render_fuel_le comments blogId f1 f2 h l t1 h1
    rw [h2] at this
    exact (Option.some.inj this).symm
  · have := render_fuel_le comments blogId f2 f1 h l t2 h2
    rw [h1] at this
    exact Option.some.inj this

theorem topLevel_subset (comments : CommentStore) (blogId : Nat) :
    topLevel comments blogId ⊆ commentsFor comments blogId :=
  fun _ h => (List.mem_filter.1 h).1

/-- A comment with a non-null stored parent reference is not a root, and a
comment whose parent reference names no stored comment is shown nowhere. -/
theorem orphan_not_shown (comments : CommentStore) (blogId : Nat)
    (hz : ∀ c ∈ commentsFor comments blogId, c.parent_id ≠ some 0)
    (c : Comment) (hc : c ∈ commentsFor comments blogId) (p : Nat)
    (hp : c.parent_id = some p) :
    c ∉ topLevel comments blogId ∧
    ((∀ d ∈ commentsFor comments blogId, d.id ≠ p) →
      ∀ fuel t, commentTree comments blogId fuel = some t → c ∉ flattenList t) := by
  have htop : c ∉ topLevel comments blogId := by
    intro h
    have h2 := (List.mem_filter.1 h).2
    rw [hp] at h2
    cases p with
    | zero => exact hz c hc hp
    | succ k => simp [truthyId] at h2
  refine ⟨htop, ?_⟩
  intro hno fuel t ht hmem
  rcases render_mem comments blogId fuel _ t ht c hmem with h1 | ⟨y, hy, hy2⟩
  · exact htop h1
  · have hyall := render_subset comments blogId fuel _ t ht (topLevel_subset comments blogId) hy
    have h3 : c.parent_id = some y.id := by simpa using (List.mem_filter.1 hy2).2
    rw [hp] at h3
    exact hno y hyall (Option.some.inj h3).symm

/-- On a list with distinct ids, resolving and acyclic parent links, every
stored comment is shown exactly once. -/
theorem render_count_one (comments : CommentStore) (blogId : Nat)
    (hnd : ((commentsFor comments blogId).map (fun c => c.id)).Nodup)
    (hz : ∀ c ∈ commentsFor comments blogId, c.parent_id ≠ some 0)
    (hres : ParentsResolve (commentsFor comments blogId))
    (rank : Nat → Nat)
    (hrank : ∀ c ∈ commentsFor comments blogId, ∀ p ∈ c.parent_id, rank p < rank c.id)
    (fuel : Nat) (t : List CommentNode) (ht : commentTree comments blogId fuel = some t) :
    ∀ (k : Nat) (c : Comment), c ∈ commentsFor comments blogId → rank c.id < k →
      (flattenList t).count c = 1 := by
  have hid := id_inj_of_nodup _ hnd
  have hall : (commentsFor comments blogId).Nodup := List.Nodup.of_map _ hnd
  have hsub := render_subset comments blogId fuel _ t ht (topLevel_subset comments blogId)
  intro k
  induction k with
  | zero => intro c _ h; exact absurd h (Nat.not_lt_zero _)
  | succ k ih =>
    intro c hc hk
    have hcount := render_count comments blogId c fuel _ t ht
    rcases hp : c.parent_id with _ | p
    · have hctop : c ∈ topLevel comments blogId :=
        List.mem_filter.2 ⟨hc, by rw [hp]; rfl⟩
      have h1 : (topLevel comments blogId).count c = 1 :=
        List.count_eq_one_of_mem (hall.filter _) hctop
      have h2 : ((flattenList t).map
          (fun y => (repliesOf comments blogId y).count c)).sum = 0 := by
        apply List.sum_eq_zero
        intro x hx
        obtain ⟨y, -, rfl⟩ := List.mem_map.1 hx
        apply List.count_eq_zero.2
        intro hmem
        have h3 := (List.mem_filter.1 hmem).2
        rw [hp] at h3
        simp at h3
      rw [hcount, h1, h2]
    · have hctop := (orphan_not_shown comments blogId hz c hc p hp).1
      have h1 : (topLevel comments blogId).count c = 0 := List.count_eq_zero.2 hctop
      obtain ⟨d, hd, hdp⟩ := hres c hc p (Option.mem_def.2 hp)
      have h2 : ((flattenList t).map
          (fun y => (repliesOf comments blogId y).count c)).sum = (flattenList t).count d := by
        apply sum_map_indicator
        intro y hy
        by_cases hyd : y = d
        · rw [if_pos hyd]
          subst hyd
          apply List.count_eq_one_of_mem (hall.filter _)
          exact List.mem_filter.2 ⟨hc, by rw [hp, hdp]; simp⟩
        · rw [if_neg hyd]
          apply List.count_eq_zero.2
          intro hmem
          have h3 : c.parent_id = some y.id := by simpa using (List.mem_filter.1 hmem).2
          rw [hp] at h3
          have : y.id = d.id := by rw [hdp]; exact (Option.some.inj h3).symm
          exact hyd (hid y (hsub hy) d hd this)
      have hlt : rank d.id < k := by
        have := hrank c hc p (Option.mem_def.2 hp)
        rw [hdp]
        omega
      rw [hcount, h1, h2, ih d hd hlt]


/-! ## Claims on the comment tree -/

/-- C1 (as stated, refuted): the one-comment list `[{id:3, parent:99}]` has
distinct ids and acyclic parent links, yet the tree built for the detail view
is empty, so comment 3 is lost. -/
theorem C1_counterexample :
    ((commentsFor (loadComments [sampleRow 3 (some 99)]) 7).map (fun c => c.id)).Nodup ∧
    Acyclic (commentsFor (loadComments [sampleRow 3 (some 99)]) 7) ∧
    sampleComment 3 (some 99) ∈ commentsFor (loadComments [sampleRow 3 (some 99)]) 7 ∧
    commentTree (loadComments [sampleRow 3 (some 99)]) 7 2 = some [] ∧
    ∀ fuel t, commentTree (loadComments [sampleRow 3 (some 99)]) 7 fuel = some t →
      ¬ (flattenList t).Perm (commentsFor (loadComments [sampleRow 3 (some 99)]) 7) := by
  have h2 : commentTree (loadComments [sampleRow 3 (some 99)]) 7 2 = some [] := by rfl
  refine ⟨by decide, ⟨fun i => 100 - i, by decide⟩, by decide, h2, ?_⟩
  intro fuel t ht hperm
  have ht2 : t = [] := render_fuel_unique _ _ _ _ _ _ _ ht h2
  subst ht2
  have hlen := hperm.length_eq
  revert hlen
  decide

/-- C1 (amended): for every loaded comment list of one post whose ids are
pairwise distinct, whose non-null parent references all name a comment of the
list and whose parent links are acyclic, the detail-view tree is produced (call
depth `length + 1` suffices) and shows every comment of the list exactly once
across all depths. -/
theorem C1_tree_shows_each_comment_once (rows : List CommentRow) (blogId : Nat)
    (hnd : ((commentsFor (loadComments rows) blogId).map (fun c => c.id)).Nodup)
    (hres : ParentsResolve (commentsFor (loadComments rows) blogId))
    (hacy : Acyclic (commentsFor (loadComments rows) blogId)) :
    (∃ t, commentTree (loadComments rows) blogId
        ((commentsFor (loadComments rows) blogId).length + 1) = some t) ∧
    ∀ fuel t, commentTree (loadComments rows) blogId fuel = some t →
      (flattenList t).Perm (commentsFor (loadComments rows) blogId) := by
  have hz := stored_parent_ne_zero rows blogId
  refine ⟨commentTree_total _ _ hnd hz, ?_⟩
  intro fuel t ht
  obtain ⟨rank, hrank⟩ := hacy
  have hall : (commentsFor (loadComments rows) blogId).Nodup := List.Nodup.of_map _ hnd
  have hsub := render_subset _ blogId fuel _ t ht (topLevel_subset _ blogId)
  rw [List.perm_iff_count]
  intro c
  by_cases hc : c ∈ commentsFor (loadComments rows) blogId
  · rw [render_count_one _ blogId hnd hz hres rank hrank fuel t ht (rank c.id + 1) c hc
      (Nat.lt_succ_self _), List.count_eq_one_of_mem hall hc]
  · rw [List.count_eq_zero.2 hc, List.count_eq_zero.2 (fun h => hc (hsub h))]

/-- C1 witness: a thread with a reply to a reply. -/
theorem C1_tree_shows_each_comment_once_witness :
    (∃ t, commentTree
        (loadComments [sampleRow 1 none, sampleRow 2 (some 1), sampleRow 3 (some 2),
          sampleRow 4 (some 1)]) 7
        ((commentsFor (loadComments [sampleRow 1 none, sampleRow 2 (some 1),
          sampleRow 3 (some 2), sampleRow 4 (some 1)]) 7).length + 1) = some t) ∧
    ∀ fuel t, commentTree
        (loadComments [sampleRow 1 none, sampleRow 2 (some 1), sampleRow 3 (some 2),
          sampleRow 4 (some 1)]) 7 fuel = some t →
      (flattenList t).Perm (commentsFor (loadComments [sampleRow 1 none,
        sampleRow 2 (some 1), sampleRow 3 (some 2), sampleRow 4 (some 1)]) 7) :=
  C1_tree_shows_each_comment_once
    [sampleRow 1 none, sampleRow 2 (some 1), sampleRow 3 (some 2), sampleRow 4 (some 1)] 7
    (by decide) (by unfold ParentsResolve; decide) ⟨fun i => i, by decide⟩

/-- C2 (as stated, refuted): for comments `[{1,null},{2,1},{3,99}]` the
tree is `[{1,children:[2]}]`; comment 3, whose parent 99 is no id of the list,
is neither at depth 0 nor anywhere else, and the tree differs from the one the
claim gives. -/
theorem C2_counterexample :
    commentTree (loadComments [sampleRow 1 none, sampleRow 2 (some 1), sampleRow 3 (some 99)]) 7 4
      = some [CommentNode.mk (sampleComment 1 none)
          [CommentNode.mk (sampleComment 2 (some 1)) []]] ∧
    sampleComment 3 (some 99) ∈
      commentsFor (loadComments [sampleRow 1 none, sampleRow 2 (some 1),
        sampleRow 3 (some 99)]) 7 ∧
    (∀ d ∈ commentsFor (loadComments [sampleRow 1 none, sampleRow 2 (some 1),
        sampleRow 3 (some 99)]) 7, d.id ≠ 99) ∧
    sampleComment 3 (some 99) ∉
      List.map CommentNode.comment [CommentNode.mk (sampleComment 1 none)
          [CommentNode.mk (sampleComment 2 (some 1)) []]] ∧
    sampleComment 3 (some 99) ∉
      flattenList [CommentNode.mk (sampleComment 1 none)
          [CommentNode.mk (sampleComment 2 (some 1)) []]] := by
  refine ⟨by rfl, by decide, by decide, by decide, by decide⟩


/-- C2 (amended): in every loaded comment list, a comment whose non-null
parent reference equals the id of no comment of the list is shown nowhere in
the detail-view tree, in particular not at depth 0 (and the tree is produced
whenever the ids are pairwise distinct). -/
theorem C2_unresolved_parent_is_not_shown (rows : List CommentRow) (blogId : Nat)
    (c : Comment) (p : Nat)
    (hc : c ∈ commentsFor (loadComments rows) blogId)
    (hp : c.parent_id = some p)
    (hno : ∀ d ∈ commentsFor (loadComments rows) blogId, d.id ≠ p) :
    (∀ fuel t, commentTree (loadComments rows) blogId fuel = some t →
      c ∉ t.map CommentNode.comment ∧ c ∉ flattenList t) ∧
    (((commentsFor (loadComments rows) blogId).map (fun c => c.id)).Nodup →
      ∃ t, commentTree (loadComments rows) blogId
        ((commentsFor (loadComments rows) blogId).length + 1) = some t) := by
  have hz := stored_parent_ne_zero rows blogId
  obtain ⟨htop, hflat⟩ := orphan_not_shown _ blogId hz c hc p hp
  refine ⟨fun fuel t ht => ⟨?_, hflat hno fuel t ht⟩, fun hnd => commentTree_total _ _ hnd hz⟩
  rw [(render_shape _ blogId fuel _ t ht).1]
  exact htop

/-- C2 witness: the scenario list, comment 3 naming the absent parent 99. -/
theorem C2_unresolved_parent_is_not_shown_witness :
    (∀ fuel t,
      commentTree (loadComments [sampleRow 1 none, sampleRow 2 (some 1),
        sampleRow 3 (some 99)]) 7 fuel = some t →
      sampleComment 3 (some 99) ∉ t.map CommentNode.comment ∧
      sampleComment 3 (some 99) ∉ flattenList t) ∧
    (((commentsFor (loadComments [sampleRow 1 none, sampleRow 2 (some 1),
        sampleRow 3 (some 99)]) 7).map (fun c => c.id)).Nodup →
      ∃ t, commentTree (loadComments [sampleRow 1 none, sampleRow 2 (some 1),
        sampleRow 3 (some 99)]) 7
        ((commentsFor (loadComments [sampleRow 1 none, sampleRow 2 (some 1),
          sampleRow 3 (some 99)]) 7).length + 1) = some t) :=
  C2_unresolved_parent_is_not_shown
    [sampleRow 1 none, sampleRow 2 (some 1), sampleRow 3 (some 99)] 7
    (sampleComment 3 (some 99)) 99 (by decide) rfl (by decide)

/-- C3: for every loaded comment list, the roots of the detail-view tree are
exactly the comments with null parent, in the list's order, and under every
node of the tree, at every depth, the children are exactly the comments whose
parent_id equals the node's id, in the list's order (and the tree is produced
whenever the ids are pairwise distinct). -/
theorem C3_tree_keeps_list_order (rows : List CommentRow) (blogId : Nat) :
    (((commentsFor (loadComments rows) blogId).map (fun c => c.id)).Nodup →
      ∃ t, commentTree (loadComments rows) blogId
        ((commentsFor (loadComments rows) blogId).length + 1) = some t) ∧
    ∀ fuel t, commentTree (loadComments rows) blogId fuel = some t →
      t.map CommentNode.comment
        = (commentsFor (loadComments rows) blogId).filter (fun c => c.parent_id == none) ∧
      ∀ n ∈ nodesList t,
        n.replies.map CommentNode.comment
          = (commentsFor (loadComments rows) blogId).filter
              (fun c => c.parent_id == some n.comment.id) := by
  refine ⟨fun hnd => commentTree_total _ _ hnd (stored_parent_ne_zero rows blogId), ?_⟩
  intro fuel t ht
  obtain ⟨h1, h2⟩ := render_shape _ blogId fuel _ t ht
  refine ⟨?_, h2⟩
  rw [h1, topLevel_loadComments]

/-- C3 witness: two threads with interleaved replies; the tree keeps the
fetch order at the roots and under every node. -/
theorem C3_tree_keeps_list_order_witness :
    (∃ t, commentTree (loadComments [sampleRow 1 none, sampleRow 2 none, sampleRow 3 (some 2),
        sampleRow 4 (some 1), sampleRow 5 (some 2), sampleRow 6 (some 3)]) 7
        ((commentsFor (loadComments [sampleRow 1 none, sampleRow 2 none, sampleRow 3 (some 2),
          sampleRow 4 (some 1), sampleRow 5 (some 2), sampleRow 6 (some 3)]) 7).length + 1)
        = some t) ∧
    (List.map CommentNode.comment
        [CommentNode.mk (sampleComment 1 none) [CommentNode.mk (sampleComment 4 (some 1)) []],
         CommentNode.mk (sampleComment 2 none)
          [CommentNode.mk (sampleComment 3 (some 2))
              [CommentNode.mk (sampleComment 6 (some 3)) []],
           CommentNode.mk (sampleComment 5 (some 2)) []]]
      = (commentsFor (loadComments [sampleRow 1 none, sampleRow 2 none, sampleRow 3 (some 2),
          sampleRow 4 (some 1), sampleRow 5 (some 2), sampleRow 6 (some 3)]) 7).filter
          (fun c => c.parent_id == none) ∧
      ∀ n ∈ nodesList
        [CommentNode.mk (sampleComment 1 none) [CommentNode.mk (sampleComment 4 (some 1)) []],
         CommentNode.mk (sampleComment 2 none)
          [CommentNode.mk (sampleComment 3 (some 2))
              [CommentNode.mk (sampleComment 6 (some 3)) []],
           CommentNode.mk (sampleComment 5 (some 2)) []]],
        n.replies.map CommentNode.comment
          = (commentsFor (loadComments [sampleRow 1 none, sampleRow 2 none,
              sampleRow 3 (some 2), sampleRow 4 (some 1), sampleRow 5 (some 2),
              sampleRow 6 (some 3)]) 7).filter
              (fun c => c.parent_id == some n.comment.id)) :=
  ⟨(C3_tree_keeps_list_order [sampleRow 1 none, sampleRow 2 none, sampleRow 3 (some 2),
      sampleRow 4 (some 1), sampleRow 5 (some 2), sampleRow 6 (some 3)] 7).1 (by decide),
   (C3_tree_keeps_list_order [sampleRow 1 none, sampleRow 2 none, sampleRow 3 (some 2),
      sampleRow 4 (some 1), sampleRow 5 (some 2), sampleRow 6 (some 3)] 7).2 4 _ (by rfl)⟩

/-- C4: for every loaded comment list with pairwise distinct ids, cyclic or
self-referencing parent links included, the recursion started from the
top-level comments returns: one tree is the result at every call depth of at
least `length + 1`. -/
theorem C4_tree_construction_terminates (rows : List CommentRow) (blogId : Nat)
    (hnd : ((commentsFor (loadComments rows) blogId).map (fun c => c.id)).Nodup) :
    ∃ t, ∀ fuel, (commentsFor (loadComments rows) blogId).length + 1 ≤ fuel →
      commentTree (loadComments rows) blogId fuel = some t := by
  obtain ⟨t, ht⟩ := commentTree_total _ _ hnd (stored_parent_ne_zero rows blogId)
  exact ⟨t, fun fuel hle => render_fuel_le _ blogId _ fuel hle _ t ht⟩

/-- C4 witness: comment 2 names itself as parent, comments 3 and 4 name each
other; the recursion returns the tree of comment 1 and its reply 5. -/
theorem C4_tree_construction_terminates_witness :
    ((commentsFor (loadComments [sampleRow 1 none, sampleRow 2 (some 2), sampleRow 3 (some 4),
        sampleRow 4 (some 3), sampleRow 5 (some 1)]) 7).map (fun c => c.id)).Nodup ∧
    (∃ t, ∀ fuel,
      (commentsFor (loadComments [sampleRow 1 none, sampleRow 2 (some 2), sampleRow 3 (some 4),
        sampleRow 4 (some 3), sampleRow 5 (some 1)]) 7).length + 1 ≤ fuel →
      commentTree (loadComments [sampleRow 1 none, sampleRow 2 (some 2), sampleRow 3 (some 4),
        sampleRow 4 (some 3), sampleRow 5 (some 1)]) 7 fuel = some t) ∧
    commentTree (loadComments [sampleRow 1 none, sampleRow 2 (some 2), sampleRow 3 (some 4),
        sampleRow 4 (some 3), sampleRow 5 (some 1)]) 7 6
      = some [CommentNode.mk (sampleComment 1 none)
          [CommentNode.mk (sampleComment 5 (some 1)) []]] :=
  ⟨by decide,
   C4_tree_construction_terminates [sampleRow 1 none, sampleRow 2 (some 2),
     sampleRow 3 (some 4), sampleRow 4 (some 3), sampleRow 5 (some 1)] 7 (by decide),
   by rfl⟩

/-! ## Lemmas: the renderer on array objects -/

theorem cheap_read_extends (h h1 : CommentHeap) (hpre : h <+: h1) (i : Nat)
    (hi : i < h.length) : h1.read i = h.read i := by
  obtain ⟨t, rfl⟩ := hpre
  unfold CommentHeap.read
  rw [List.getElem?_append_left hi]

theorem cheap_alloc_extends (h : CommentHeap) (a : List Comment) : h <+: (h.alloc a).1 :=
  ⟨[a], rfl⟩

theorem cheap_alloc_read (h : CommentHeap) (a : List Comment) :
    (h.alloc a).1.read (h.alloc a).2 = a := by
  simp [CommentHeap.alloc, CommentHeap.read]

theorem cheap_alloc_lt (h : CommentHeap) (a : List Comment) :
    (h.alloc a).2 < (h.alloc a).1.length := by
  simp [CommentHeap.alloc]

/-- The store denoted by a well-formed `comments` object does not change
when the heap is extended. -/
theorem storeOf_extends (refs : CommentRefs) (h h1 : CommentHeap)
    (hwf : ∀ blogId a, refs blogId = some a → a < h.length) (hpre : h <+: h1) :
    storeOf refs h1 = storeOf refs h := by
  funext blogId
  unfold storeOf
  cases hr : refs blogId with
  | none => rfl
  | some a =>
    simp only [Option.map_some']
    rw [cheap_read_extends h h1 hpre a (hwf blogId a hr)]

theorem filterComments_spec (refs : CommentRefs) (h : CommentHeap) (blogId : Nat)
    (p : Comment → Bool) :
    h <+: (filterComments refs h blogId p).1 ∧
    (filterComments refs h blogId p).2 < (filterComments refs h blogId p).1.length ∧
    (filterComments refs h blogId p).1.read (filterComments refs h blogId p).2
      = (commentsFor (storeOf refs h) blogId).filter p := by
  unfold filterComments commentsFor storeOf
  cases hr : refs blogId with
  | none =>
    exact ⟨cheap_alloc_extends _ _, cheap_alloc_lt _ _, by rw [cheap_alloc_read]; rfl⟩
  | some a =>
    exact ⟨cheap_alloc_extends _ _, cheap_alloc_lt _ _, by rw [cheap_alloc_read]; rfl⟩

theorem mapComments_zero (cb : CommentHeap → Comment → Option (CommentHeap × CommentNode))
    (list k : Nat) (h : CommentHeap) : mapComments cb list 0 k h = some (h, []) := by
  rw [mapComments]

theorem mapComments_succ (cb : CommentHeap → Comment → Option (CommentHeap × CommentNode))
    (list n k : Nat) (h : CommentHeap) (c : Comment)
    (hc : (h.read list)[k]? = some c) (r : CommentHeap × List CommentNode) :
    mapComments cb list (n + 1) k h = some r ↔
      ∃ h1 node h2 nodes, cb h c = some (h1, node) ∧
        mapComments cb list n (k + 1) h1 = some (h2, nodes) ∧ r = (h2, node :: nodes) := by
  rw [mapComments]
  simp only [hc]
  cases h1 : cb h c with
  | none => simp
  | some x =>
    obtain ⟨hx, node⟩ := x
    simp only
    cases h2 : mapComments cb list n (k + 1) hx with
    | none => simp [h2]
    | some y =>
      obtain ⟨hy, nodes⟩ := y
      simp only [Option.some.injEq, Prod.mk.injEq]
      constructor
      · intro h; exact ⟨hx, node, hy, nodes, ⟨rfl, rfl⟩, h2, h.symm⟩
      · rintro ⟨a, b, c2, d, ⟨rfl, rfl⟩, h3, rfl⟩
        rw [h2] at h3
        simp only [Option.some.injEq, Prod.mk.injEq] at h3
        obtain ⟨rfl, rfl⟩ := h3
        rfl

/-- The loop of `map` against a callback that only extends the heap and
computes what a heap-free function `f` computes: the loop only extends the
heap, and it returns exactly when `mapOpt f` does, with the same nodes. -/
theorem mapComments_spec (h0 : CommentHeap) (list : Nat) (L : List Comment)
    (cb : CommentHeap → Comment → Option (CommentHeap × CommentNode))
    (f : Comment → Option CommentNode)
    (hread : ∀ h1 : CommentHeap, h0 <+: h1 → h1.read list = L)
    (hcb1 : ∀ (h1 : CommentHeap) c (h2 : CommentHeap) node, h0 <+: h1 →
      cb h1 c = some (h2, node) → h1 <+: h2 ∧ f c = some node)
    (hcb2 : ∀ (h1 : CommentHeap) c node, h0 <+: h1 → f c = some node →
      ∃ h2, cb h1 c = some (h2, node)) :
    ∀ (n k : Nat) (h1 : CommentHeap), h0 <+: h1 → n + k = L.length →
      (∀ h2 nodes, mapComments cb list n k h1 = some (h2, nodes) →
        h1 <+: h2 ∧ mapOpt f (L.drop k) = some nodes) ∧
      (∀ nodes, mapOpt f (L.drop k) = some nodes →
        ∃ h2, mapComments cb list n k h1 = some (h2, nodes)) := by
  intro n
  induction n with
  | zero =>
    intro k h1 _ hk
    have hdrop : L.drop k = [] := List.drop_eq_nil_of_le (by omega)
    rw [hdrop]
    constructor
    · intro h2 nodes hm
      rw [mapComments_zero] at hm
      simp only [Option.some.injEq, Prod.mk.injEq] at hm
      obtain ⟨rfl, rfl⟩ := hm
      exact ⟨List.prefix_refl _, rfl⟩
    · intro nodes hm
      rw [mapOpt_nil_eq_some] at hm
      subst hm
      exact ⟨h1, mapComments_zero _ _ _ _⟩
  | succ n ih =>
    intro k h1 hpre hk
    have hklt : k < L.length := by omega
    have hc : (h1.read list)[k]? = some L[k] := by
      rw [hread h1 hpre]
      exact List.getElem?_eq_getElem hklt
    have hdrop : L.drop k = L[k] :: L.drop (k + 1) := List.drop_eq_getElem_cons hklt
    rw [hdrop]
    constructor
    · intro h2 nodes hm
      obtain ⟨hx, node, hy, rest, hcb, hrest, heq⟩ :=
        (mapComments_succ cb list n k h1 L[k] hc _).1 hm
      simp only [Prod.mk.injEq] at heq
      obtain ⟨rfl, rfl⟩ := heq
      obtain ⟨hp1, hf⟩ := hcb1 h1 L[k] hx node hpre hcb
      obtain ⟨hp2, hmo⟩ := (ih (k + 1) hx (hpre.trans hp1) (by omega)).1 h2 rest hrest
      exact ⟨hp1.trans hp2, (mapOpt_cons_eq_some f _ _ _).2 ⟨node, rest, hf, hmo, rfl⟩⟩
    · intro nodes hm
      obtain ⟨node, rest, hf, hmo, rfl⟩ := (mapOpt_cons_eq_some f _ _ _).1 hm
      obtain ⟨hx, hcb⟩ := hcb2 h1 L[k] node hpre hf
      have hp1 := (hcb1 h1 L[k] hx node hpre hcb).1
      obtain ⟨hy, hrest⟩ := (ih (k + 1) hx (hpre.trans hp1) (by omega)).2 rest hmo
      exact ⟨hy, (mapComments_succ cb list n k h1 L[k] hc _).2
        ⟨hx, node, hy, rest, hcb, hrest, rfl⟩⟩

theorem renderHeap_succ (refs : CommentRefs) (blogId fuel : Nat) (h : CommentHeap)
    (list : Nat) :
    renderCommentsListHeap refs blogId (fuel + 1) h list =
      mapComments (fun h1 comment =>
        if ((filterComments refs h1 blogId (fun c => c.parent_id == some comment.id)).1.read
            (filterComments refs h1 blogId (fun c => c.parent_id == some comment.id)).2).length
            > 0 then
          match renderCommentsListHeap refs blogId fuel
              (filterComments refs h1 blogId (fun c => c.parent_id == some comment.id)).1
              (filterComments refs h1 blogId (fun c => c.parent_id == some comment.id)).2 with
          | none => none
          | some (h2, nodes) => some (h2, CommentNode.mk comment nodes)
        else some ((filterComments refs h1 blogId
            (fun c => c.parent_id == some comment.id)).1, CommentNode.mk comment []))
        list (h.read list).length 0 h := by
  rw [renderCommentsListHeap]

/-- The renderer on array objects only extends the heap, and it returns
exactly when the renderer on lists does, with the same forest. -/
theorem renderHeap_spec (refs : CommentRefs) (blogId : Nat) :
    ∀ (fuel : Nat) (h : CommentHeap) (list : Nat),
      (∀ b a, refs b = some a → a < h.length) → list < h.length →
      (∀ (h2 : CommentHeap) nodes,
        renderCommentsListHeap refs blogId fuel h list = some (h2, nodes) →
        h <+: h2 ∧
        renderCommentsList (storeOf refs h) blogId fuel (h.read list) = some nodes) ∧
      (∀ nodes, renderCommentsList (storeOf refs h) blogId fuel (h.read list) = some nodes →
        ∃ h2, renderCommentsListHeap refs blogId fuel h list = some (h2, nodes)) := by
  intro fuel
  induction fuel with
  | zero =>
    intro h list _ _
    constructor
    · intro h2 nodes hm
      rw [renderCommentsListHeap] at hm
      cases hm
    · intro nodes hm
      rw [renderCommentsList] at hm
      cases hm
  | succ n ih =>
    intro h list hwf hlist
    rw [renderHeap_succ, render_succ]
    have key := mapComments_spec h list (h.read list)
      (fun h1 comment =>
        if ((filterComments refs h1 blogId (fun c => c.parent_id == some comment.id)).1.read
            (filterComments refs h1 blogId (fun c => c.parent_id == some comment.id)).2).length
            > 0 then
          match renderCommentsListHeap refs blogId n
              (filterComments refs h1 blogId (fun c => c.parent_id == some comment.id)).1
              (filterComments refs h1 blogId (fun c => c.parent_id == some comment.id)).2 with
          | none => none
          | some (h2, nodes) => some (h2, CommentNode.mk comment nodes)
        else some ((filterComments refs h1 blogId
            (fun c => c.parent_id == some comment.id)).1, CommentNode.mk comment []))
      (fun comment =>
        if (repliesOf (storeOf refs h) blogId comment).length > 0 then
          (renderCommentsList (storeOf refs h) blogId n
            (repliesOf (storeOf refs h) blogId comment)).map (CommentNode.mk comment)
        else some (CommentNode.mk comment []))
      (fun h1 hpre => cheap_read_extends h h1 hpre list hlist)
      ?_ ?_ (h.read list).length 0 h (List.prefix_refl _) (by omega)
    · simpa using key
    · -- the callback extends the heap and agrees with the list renderer
      intro h1 c h2 node hpre hcb
      beta_reduce at hcb ⊢
      obtain ⟨hp, hlt, hrd⟩ := filterComments_spec refs h1 blogId
        (fun x => x.parent_id == some c.id)
      have hstore1 : storeOf refs h1 = storeOf refs h := storeOf_extends refs h h1 hwf hpre
      rw [hstore1] at hrd
      have hrd2 : (filterComments refs h1 blogId (fun x => x.parent_id == some c.id)).1.read
          (filterComments refs h1 blogId (fun x => x.parent_id == some c.id)).2
          = repliesOf (storeOf refs h) blogId c := hrd
      simp only [hrd2] at hcb
      have hwf1 : ∀ b a, refs b = some a →
          a < (filterComments refs h1 blogId (fun x => x.parent_id == some c.id)).1.length :=
        fun b a hba => Nat.lt_of_lt_of_le (hwf b a hba) (hpre.trans hp).length_le
      have hstore2 : storeOf refs
          (filterComments refs h1 blogId (fun x => x.parent_id == some c.id)).1
          = storeOf refs h := storeOf_extends refs h _ hwf (hpre.trans hp)
      split at hcb
      · next hpos =>
        rw [if_pos hpos]
        split at hcb
        · cases hcb
        · next hx nodes hrec =>
          simp only [Option.some.injEq, Prod.mk.injEq] at hcb
          obtain ⟨rfl, rfl⟩ := hcb
          obtain ⟨hp2, hpure⟩ := (ih _ _ hwf1 hlt).1 _ _ hrec
          rw [hstore2, hrd2] at hpure
          exact ⟨hp.trans hp2, by rw [hpure]; rfl⟩
      · next hneg =>
        rw [if_neg hneg]
        simp only [Option.some.injEq, Prod.mk.injEq] at hcb
        obtain ⟨rfl, rfl⟩ := hcb
        exact ⟨hp, rfl⟩
    · -- whenever the list renderer returns a node, so does the callback
      intro h1 c node hpre hf
      beta_reduce at hf ⊢
      obtain ⟨hp, hlt, hrd⟩ := filterComments_spec refs h1 blogId
        (fun x => x.parent_id == some c.id)
      have hstore1 : storeOf refs h1 = storeOf refs h := storeOf_extends refs h h1 hwf hpre
      rw [hstore1] at hrd
      have hrd2 : (filterComments refs h1 blogId (fun x => x.parent_id == some c.id)).1.read
          (filterComments refs h1 blogId (fun x => x.parent_id == some c.id)).2
          = repliesOf (storeOf refs h) blogId c := hrd
      have hwf1 : ∀ b a, refs b = some a →
          a < (filterComments refs h1 blogId (fun x => x.parent_id == some c.id)).1.length :=
        fun b a hba => Nat.lt_of_lt_of_le (hwf b a hba) (hpre.trans hp).length_le
      have hstore2 : storeOf refs
          (filterComments refs h1 blogId (fun x => x.parent_id == some c.id)).1
          = storeOf refs h := storeOf_extends refs h _ hwf (hpre.trans hp)
      simp only [hrd2]
      split at hf
      · next hpos =>
        rw [if_pos hpos]
        cases hpure : renderCommentsList (storeOf refs h) blogId n
            (repliesOf (storeOf refs h) blogId c) with
        | none => rw [hpure] at hf; cases hf
        | some nodes =>
          rw [hpure] at hf
          simp only [Option.map_some', Option.some.injEq] at hf
          subst hf
          have hpure2 : renderCommentsList (storeOf refs
              (filterComments refs h1 blogId (fun x => x.parent_id == some c.id)).1) blogId n
              ((filterComments refs h1 blogId (fun x => x.parent_id == some c.id)).1.read
                (filterComments refs h1 blogId (fun x => x.parent_id == some c.id)).2)
              = some nodes := by rw [hstore2, hrd2]; exact hpure
          obtain ⟨h2, hrec⟩ := (ih _ _ hwf1 hlt).2 nodes hpure2
          exact ⟨h2, by rw [hrec]⟩
      · next hneg =>
        rw [if_neg hneg]
        simp only [Option.some.injEq] at hf
        subst hf
        exact ⟨_, rfl⟩

/-! ## Claim on the comment store -/

/-- C5: opening a post, which selects the top-level comments and runs the
recursive renderer on array objects, leaves the comment store unchanged: the
`comments` object has the same keys and addresses, every comment array that
existed before the call reads the same comments in the same order afterwards
(the call only creates new arrays), so the flat comment list of every post is
the same; the forest shown is the one the list renderer computes, and the call
returns whenever that renderer does. -/
theorem C5_openBlog_leaves_comment_store_unchanged (urlParses : String → Bool) (fuel : Nat)
    (s : AppState) (id : Nat) (hwf : s.WellFormed) :
    (∀ r, openBlog urlParses fuel s id = some r →
      r.state.comments = s.comments ∧
      s.heap <+: r.state.heap ∧
      (∀ a, a < s.heap.length → r.state.heap.read a = s.heap.read a) ∧
      (∀ blogId, r.state.commentList blogId = s.commentList blogId) ∧
      ∀ tree, r.outcome = OpenOutcome.shown tree →
        commentTree (storeOf s.comments s.heap) id fuel = some tree) ∧
    (∀ tree, commentTree (storeOf s.comments s.heap) id fuel = some tree →
      ∃ r, openBlog urlParses fuel s id = some r) := by
  have frame : ∀ h2 : CommentHeap, s.heap <+: h2 →
      (∀ a, a < s.heap.length → h2.read a = s.heap.read a) ∧
      ∀ blogId, commentsFor (storeOf s.comments h2) blogId
        = commentsFor (storeOf s.comments s.heap) blogId := by
    intro h2 hpre
    refine ⟨fun a ha => cheap_read_extends _ _ hpre a ha, fun blogId => ?_⟩
    rw [storeOf_extends s.comments s.heap h2 hwf hpre]
  obtain ⟨hp, hlt, hrd⟩ := filterComments_spec s.comments s.heap id
    (fun c => !truthyId c.parent_id)
  have hwf1 : ∀ b a, s.comments b = some a →
      a < (filterComments s.comments s.heap id (fun c => !truthyId c.parent_id)).1.length :=
    fun b a hba => Nat.lt_of_lt_of_le (hwf b a hba) hp.length_le
  have hstore : storeOf s.comments
      (filterComments s.comments s.heap id (fun c => !truthyId c.parent_id)).1
      = storeOf s.comments s.heap := storeOf_extends _ _ _ hwf hp
  have hspec := renderHeap_spec s.comments id fuel _ _ hwf1 hlt
  rw [hstore, hrd] at hspec
  constructor
  · intro r h
    unfold openBlog at h
    cases hf : s.blogs.find? (fun b => b.id == id) with
    | none =>
      rw [hf] at h
      cases h
      exact ⟨rfl, List.prefix_refl _, fun _ _ => rfl, fun _ => rfl, fun t ht => by cases ht⟩
    | some blog =>
      rw [hf] at h
      have hid : blog.id = id := by simpa using List.find?_some hf
      subst hid
      simp only at h
      split at h
      · cases h
        exact ⟨rfl, List.prefix_refl _, fun _ _ => rfl, fun _ => rfl, fun t ht => by cases ht⟩
      · split at h
        · cases h
        · next h2 tree hrec =>
          cases h
          obtain ⟨hp2, hpure⟩ := hspec.1 h2 tree hrec
          have hpre : s.heap <+: h2 := hp.trans hp2
          refine ⟨rfl, hpre, (frame h2 hpre).1, (frame h2 hpre).2, ?_⟩
          intro t ht
          cases ht
          exact hpure
  · intro tree htree
    unfold openBlog
    cases hf : s.blogs.find? (fun b => b.id == id) with
    | none => exact ⟨_, rfl⟩
    | some blog =>
      have hid : blog.id = id := by simpa using List.find?_some hf
      subst hid
      simp only
      split
      · exact ⟨_, rfl⟩
      · obtain ⟨h2, hrec⟩ := hspec.2 tree htree
        rw [hrec]
        exact ⟨_, rfl⟩

theorem sampleState_wellFormed (blogs : List Blog) (comments : List Comment) :
    (sampleState blogs comments).WellFormed := by
  intro blogId a h
  unfold sampleState at h
  simp only at h
  split at h
  · cases h
    simp [sampleState]
  · cases h

/-- C5 witness: opening post 7 with a two-comment thread counts one view,
creates three new arrays behind the stored one and leaves the stored array as
it was; for a vlog whose video text is no absolute URL the call throws before
the tree is built, and the store is untouched as well. -/
theorem C5_openBlog_leaves_comment_store_unchanged_witness :
    ((∀ r, openBlog sampleUrlParses 3
          (sampleState [samplePost 7 "article" 0 0 []]
            [sampleComment 1 none, sampleComment 2 (some 1)]) 7 = some r →
        r.state.comments
          = (sampleState [samplePost 7 "article" 0 0 []]
              [sampleComment 1 none, sampleComment 2 (some 1)]).comments ∧
        (sampleState [samplePost 7 "article" 0 0 []]
            [sampleComment 1 none, sampleComment 2 (some 1)]).heap <+: r.state.heap ∧
        (∀ a, a < (sampleState [samplePost 7 "article" 0 0 []]
            [sampleComment 1 none, sampleComment 2 (some 1)]).heap.length →
          r.state.heap.read a
            = (sampleState [samplePost 7 "article" 0 0 []]
                [sampleComment 1 none, sampleComment 2 (some 1)]).heap.read a) ∧
        (∀ blogId, r.state.commentList blogId
          = (sampleState [samplePost 7 "article" 0 0 []]
              [sampleComment 1 none, sampleComment 2 (some 1)]).commentList blogId) ∧
        ∀ tree, r.outcome = OpenOutcome.shown tree →
          commentTree (storeOf
              (sampleState [samplePost 7 "article" 0 0 []]
                [sampleComment 1 none, sampleComment 2 (some 1)]).comments
              (sampleState [samplePost 7 "article" 0 0 []]
                [sampleComment 1 none, sampleComment 2 (some 1)]).heap) 7 3 = some tree) ∧
      (∀ tree, commentTree (storeOf
            (sampleState [samplePost 7 "article" 0 0 []]
              [sampleComment 1 none, sampleComment 2 (some 1)]).comments
            (sampleState [samplePost 7 "article" 0 0 []]
              [sampleComment 1 none, sampleComment 2 (some 1)]).heap) 7 3 = some tree →
        ∃ r, openBlog sampleUrlParses 3
          (sampleState [samplePost 7 "article" 0 0 []]
            [sampleComment 1 none, sampleComment 2 (some 1)]) 7 = some r)) ∧
    (openBlog sampleUrlParses 3
        (sampleState [samplePost 7 "article" 0 0 []]
          [sampleComment 1 none, sampleComment 2 (some 1)]) 7).map
        (fun r => (r.state.heap, r.state.blogs.map (fun b => b.views),
          match r.outcome with
          | .shown tree => some (flattenList tree)
          | _ => none))
      = some ([[sampleComment 1 none, sampleComment 2 (some 1)], [sampleComment 1 none],
          [sampleComment 2 (some 1)], []], [1],
          some [sampleComment 1 none, sampleComment 2 (some 1)]) ∧
    (openBlog sampleUrlParses 3
        (sampleState
          [{ samplePost 7 "vlog" 0 0 [] with videoUrl := some "www.youtube.com/watch?v=abc" }]
          [sampleComment 1 none, sampleComment 2 (some 1)]) 7).map
        (fun r => (r.state.heap, r.state.blogs.map (fun b => b.views),
          match r.outcome with
          | .threw => true
          | _ => false))
      = some ([[sampleComment 1 none, sampleComment 2 (some 1)]], [1], true) ∧
    (openBlog sampleUrlParses 3
        (sampleState
          [{ samplePost 7 "vlog" 0 0 [] with
              videoUrl := some "https://www.youtube.com/watch?v=abc" }]
          [sampleComment 1 none, sampleComment 2 (some 1)]) 7).map
        (fun r => match r.outcome with
          | .shown tree => some (flattenList tree)
          | _ => none)
      = some (some [sampleComment 1 none, sampleComment 2 (some 1)]) :=
  ⟨C5_openBlog_leaves_comment_store_unchanged sampleUrlParses 3
      (sampleState [samplePost 7 "article" 0 0 []]
        [sampleComment 1 none, sampleComment 2 (some 1)]) 7 (sampleState_wellFormed _ _),
   by decide, by decide, by decide⟩

/-! ## Lemmas: sorting and substring search -/

theorem likesOrZero_eq (b : Blog) : likesOrZero b = b.likes := by
  unfold likesOrZero
  split
  · next h => exact h.symm
  · rfl

theorem jsSort_perm {α : Type} (cmp : α → α → Int) (l : List α) : (jsSort cmp l).Perm l :=
  List.perm_insertionSort _ l

/-- For a comparator that is total and transitive, `sort` returns a list in
which no element is placed before one it compares greater than. -/
theorem jsSort_pairwise {α : Type} (cmp : α → α → Int)
    (htotal : ∀ a b, cmp a b ≤ 0 ∨ cmp b a ≤ 0)
    (htrans : ∀ a b c, cmp a b ≤ 0 → cmp b c ≤ 0 → cmp a c ≤ 0) (l : List α) :
    (jsSort cmp l).Pairwise (fun a b => cmp a b ≤ 0) := by
  haveI : IsTotal α (fun a b => cmp a b ≤ 0) := ⟨htotal⟩
  haveI : IsTrans α (fun a b => cmp a b ≤ 0) := ⟨htrans⟩
  exact List.sorted_insertionSort (fun a b => cmp a b ≤ 0) l

theorem jsSort_desc {α : Type} (key : α → Int) (l : List α) :
    (jsSort (fun a b => key b - key a) l).Pairwise (fun a b => key b ≤ key a) := by
  have h := jsSort_pairwise (fun a b => key b - key a)
    (fun a b => show key b - key a ≤ 0 ∨ key a - key b ≤ 0 by omega)
    (fun a b c (h1 : key b - key a ≤ 0) (h2 : key c - key b ≤ 0) =>
      show key c - key a ≤ 0 by omega) l
  exact h.imp (fun {a b} (hab : key b - key a ≤ 0) => show key b ≤ key a by omega)

theorem jsSort_asc {α : Type} (key : α → Int) (l : List α) :
    (jsSort (fun a b => key a - key b) l).Pairwise (fun a b => key a ≤ key b) := by
  have h := jsSort_pairwise (fun a b => key a - key b)
    (fun a b => show key a - key b ≤ 0 ∨ key b - key a ≤ 0 by omega)
    (fun a b c (h1 : key a - key b ≤ 0) (h2 : key b - key c ≤ 0) =>
      show key a - key c ≤ 0 by omega) l
  exact h.imp (fun {a b} (hab : key a - key b ≤ 0) => show key a ≤ key b by omega)

theorem startsWith_iff (s t : List Char) : startsWith s t = true ↔ t <+: s := by
  induction s generalizing t with
  | nil =>
    cases t with
    | nil => simp [startsWith]
    | cons b bs => simp [startsWith]
  | cons a as ih =>
    cases t with
    | nil => simp [startsWith]
    | cons b bs =>
      simp only [startsWith, Bool.and_eq_true, beq_iff_eq, ih, List.cons_prefix_cons]
      constructor
      · rintro ⟨h1, h2⟩; exact ⟨h1.symm, h2⟩
      · rintro ⟨h1, h2⟩; exact ⟨h1.symm, h2⟩

/-- The position-by-position search decides the substring relation. -/
theorem includesChars_iff (s t : List Char) : includesChars s t = true ↔ t <:+: s := by
  induction s with
  | nil =>
    rw [includesChars, startsWith_iff, List.prefix_nil, List.infix_nil]
  | cons a as ih =>
    rw [includesChars, Bool.or_eq_true, startsWith_iff, ih, List.infix_cons_iff]

theorem includes_iff (s t : String) : includes s t = true ↔ t.data <:+: s.data :=
  includesChars_iff s.data t.data

theorem matchesSearch_iff (toLowerCase : String → String) (term : String) (b : Blog) :
    matchesSearch toLowerCase term b = true ↔
      term.data <:+: (toLowerCase b.title).data ∨
      term.data <:+: (toLowerCase b.author).data ∨
      ∃ tag ∈ b.tags, term.data <:+: (toLowerCase tag).data := by
  unfold matchesSearch
  simp only [Bool.or_eq_true, includes_iff, List.any_eq_true, or_assoc]

/-- The kind predicate of the pipeline: every post passes under `all` and
`popular`, otherwise the post's type must equal the filter. -/
theorem kind_step (st : FeedState) (arr : List Blog) :
    (if st.currentFilter != "all" && st.currentFilter != "popular" then
        arr.filter (fun b => b.type == st.currentFilter)
      else arr)
      = arr.filter (fun b => st.currentFilter == "all" || st.currentFilter == "popular"
          || b.type == st.currentFilter) := by
  by_cases h1 : st.currentFilter = "all"
  · simp [h1]
  · by_cases h2 : st.currentFilter = "popular"
    · simp [h2]
    · have e1 : (st.currentFilter == "all") = false := by simpa using h1
      have e2 : (st.currentFilter == "popular") = false := by simpa using h2
      simp [e1, e2, h1, h2]

theorem search_step (toLowerCase : String → String) (st : FeedState) (arr : List Blog) :
    (if st.searchTerm != "" then
        arr.filter (matchesSearch toLowerCase (toLowerCase st.searchTerm))
      else arr)
      = arr.filter (fun b => st.searchTerm == ""
          || matchesSearch toLowerCase (toLowerCase st.searchTerm) b) := by
  by_cases h1 : st.searchTerm = ""
  · simp [h1]
  · have e1 : (st.searchTerm == "") = false := by simpa using h1
    simp [e1, h1]

theorem sortBlogsArray_perm (arr : List Blog) (sortBy : String) :
    (sortBlogsArray arr sortBy).Perm arr := by
  unfold sortBlogsArray
  simp only
  split
  · exact jsSort_perm _ _
  · split
    · exact jsSort_perm _ _
    · split
      · exact jsSort_perm _ _
      · exact List.Perm.refl _

theorem filterBlogsArray_eq (toLowerCase : String → String) (st : FeedState)
    (arr : List Blog) :
    filterBlogsArray toLowerCase st arr =
      if st.currentFilter == "popular" then
        jsSort (fun a b => likesOrZero b - likesOrZero a) (arr.filter (keptBy toLowerCase st))
      else sortBlogsArray (arr.filter (keptBy toLowerCase st)) (sortControl st) := by
  unfold filterBlogsArray
  simp only
  rw [kind_step, search_step toLowerCase st, List.filter_filter]
  have : (fun a => (st.searchTerm == "" || matchesSearch toLowerCase (toLowerCase st.searchTerm) a)
      && (st.currentFilter == "all" || st.currentFilter == "popular" || a.type == st.currentFilter))
      = keptBy toLowerCase st := by
    funext a
    unfold keptBy
    rw [Bool.and_comm]
  rw [this]

theorem filterBlogsArray_perm (toLowerCase : String → String) (st : FeedState)
    (arr : List Blog) :
    (filterBlogsArray toLowerCase st arr).Perm (arr.filter (keptBy toLowerCase st)) := by
  rw [filterBlogsArray_eq]
  split
  · exact jsSort_perm _ _
  · exact sortBlogsArray_perm _ _


/-! ## Claims on the feed pipeline -/

/-- C6: for every post list, filter mode and search term, the result of
`filterBlogsArray` holds exactly the posts passing the active predicate, with
multiplicity: it is a rearrangement of the sublist of posts for which (the
filter is `all` or `popular`, or the type equals the filter) and (the search
term is empty or the post matches it); so a post is in the result if and only
if it is a post of the list that passes. -/
theorem C6_filter_keeps_exactly_passing_posts (toLowerCase : String → String)
    (st : FeedState) (posts : List Blog) :
    (filterBlogsArray toLowerCase st posts).Perm
      (posts.filter (fun p =>
        (st.currentFilter == "all" || st.currentFilter == "popular"
          || p.type == st.currentFilter)
        && (st.searchTerm == ""
          || matchesSearch toLowerCase (toLowerCase st.searchTerm) p))) ∧
    ∀ p, p ∈ filterBlogsArray toLowerCase st posts ↔
      p ∈ posts ∧
      (st.currentFilter = "all" ∨ st.currentFilter = "popular" ∨ p.type = st.currentFilter) ∧
      (st.searchTerm = "" ∨ matchesSearch toLowerCase (toLowerCase st.searchTerm) p = true) := by
  have hperm := filterBlogsArray_perm toLowerCase st posts
  refine ⟨hperm, fun p => ?_⟩
  rw [hperm.mem_iff, List.mem_filter]
  simp [keptBy, or_assoc]

/-- C7: under filter `popular` the kind filter is skipped: with an empty
search term the result is a rearrangement of all posts, whatever their kinds,
and with a non-empty term a rearrangement of the posts of every kind that
match the search. -/
theorem C7_popular_bypasses_kind_filter (toLowerCase : String → String)
    (st : FeedState) (posts : List Blog) (hpop : st.currentFilter = "popular") :
    (st.searchTerm = "" → (filterBlogsArray toLowerCase st posts).Perm posts) ∧
    (st.searchTerm ≠ "" →
      (filterBlogsArray toLowerCase st posts).Perm
        (posts.filter (matchesSearch toLowerCase (toLowerCase st.searchTerm)))) := by
  have hperm := filterBlogsArray_perm toLowerCase st posts
  constructor
  · intro hs
    have : posts.filter (keptBy toLowerCase st) = posts := by
      apply List.filter_eq_self.2
      intro a _
      simp [keptBy, hpop, hs]
    rw [this] at hperm
    exact hperm
  · intro hs
    have : posts.filter (keptBy toLowerCase st)
        = posts.filter (matchesSearch toLowerCase (toLowerCase st.searchTerm)) := by
      apply List.filter_congr
      intro a _
      simp [keptBy, hpop, hs]
    rw [this] at hperm
    exact hperm

/-- C7 witness: an article, a vlog and a document are all kept under
`popular`, and the search for "vid" keeps the vlog tagged "Video". -/
theorem C7_popular_bypasses_kind_filter_witness :
    (filterBlogsArray asciiLower ⟨"popular", "", 1, some "newest"⟩
        [samplePost 1 "article" 2 10 [], samplePost 2 "vlog" 5 20 ["Video"],
          samplePost 3 "docs" 0 30 []]).Perm
      [samplePost 1 "article" 2 10 [], samplePost 2 "vlog" 5 20 ["Video"],
        samplePost 3 "docs" 0 30 []] ∧
    (filterBlogsArray asciiLower ⟨"popular", "vid", 1, some "newest"⟩
        [samplePost 1 "article" 2 10 [], samplePost 2 "vlog" 5 20 ["Video"],
          samplePost 3 "docs" 0 30 []]).Perm
      (List.filter (matchesSearch asciiLower (asciiLower "vid"))
        [samplePost 1 "article" 2 10 [], samplePost 2 "vlog" 5 20 ["Video"],
          samplePost 3 "docs" 0 30 []]) :=
  ⟨(C7_popular_bypasses_kind_filter asciiLower ⟨"popular", "", 1, some "newest"⟩
      [samplePost 1 "article" 2 10 [], samplePost 2 "vlog" 5 20 ["Video"],
        samplePost 3 "docs" 0 30 []] rfl).1 rfl,
   (C7_popular_bypasses_kind_filter asciiLower ⟨"popular", "vid", 1, some "newest"⟩
      [samplePost 1 "article" 2 10 [], samplePost 2 "vlog" 5 20 ["Video"],
        samplePost 3 "docs" 0 30 []] rfl).2 (by decide)⟩

/-- C8: for every non-empty search term, a post is in the result exactly when
it is a post of the list that passes the kind filter and the lowercased term
is a substring of the lowercased title, of the lowercased author, or of some
lowercased tag; hence two non-empty terms with the same lowercase form select
the same posts; and, with ASCII lowercasing, the term "cat" keeps a post
tagged "Category". -/
theorem C8_search_is_case_insensitive_substring (toLowerCase : String → String) :
    (∀ (st : FeedState) (posts : List Blog) (p : Blog), st.searchTerm ≠ "" →
      (p ∈ filterBlogsArray toLowerCase st posts ↔
        p ∈ posts ∧
        (st.currentFilter = "all" ∨ st.currentFilter = "popular"
          ∨ p.type = st.currentFilter) ∧
        ((toLowerCase st.searchTerm).data <:+: (toLowerCase p.title).data ∨
          (toLowerCase st.searchTerm).data <:+: (toLowerCase p.author).data ∨
          ∃ tag ∈ p.tags, (toLowerCase st.searchTerm).data <:+: (toLowerCase tag).data))) ∧
    (∀ (st : FeedState) (t1 t2 : String) (posts : List Blog),
      t1 ≠ "" → t2 ≠ "" → toLowerCase t1 = toLowerCase t2 →
      filterBlogsArray toLowerCase { st with searchTerm := t1 } posts
        = filterBlogsArray toLowerCase { st with searchTerm := t2 } posts) ∧
    filterBlogsArray asciiLower ⟨"all", "cat", 1, none⟩
        [samplePost 1 "article" 0 10 ["Category"], samplePost 2 "article" 0 20 ["Dogs"]]
      = [samplePost 1 "article" 0 10 ["Category"]] := by
  refine ⟨?_, ?_, by decide⟩
  · intro st posts p hs
    rw [(filterBlogsArray_perm toLowerCase st posts).mem_iff, List.mem_filter]
    have hk : keptBy toLowerCase st p = true ↔
        (st.currentFilter = "all" ∨ st.currentFilter = "popular"
          ∨ p.type = st.currentFilter) ∧
        matchesSearch toLowerCase (toLowerCase st.searchTerm) p = true := by
      simp [keptBy, hs, or_assoc]
    rw [hk, matchesSearch_iff]
  · intro st t1 t2 posts h1 h2 heq
    rw [filterBlogsArray_eq, filterBlogsArray_eq]
    have hk : keptBy toLowerCase { st with searchTerm := t1 }
        = keptBy toLowerCase { st with searchTerm := t2 } := by
      funext b
      have e1 : (t1 == "") = false := by simpa using h1
      have e2 : (t2 == "") = false := by simpa using h2
      simp only [keptBy, e1, e2, heq]
    rw [hk]
    rfl

/-- C8 witness: with ASCII lowercasing, the terms "CAT" and "cat" select the
same posts, and a post is found by a substring of a tag. -/
theorem C8_search_is_case_insensitive_substring_witness :
    (samplePost 1 "article" 0 10 ["Category"] ∈
        filterBlogsArray asciiLower ⟨"all", "CAT", 1, none⟩
          [samplePost 1 "article" 0 10 ["Category"], samplePost 2 "article" 0 20 ["Dogs"]] ↔
      samplePost 1 "article" 0 10 ["Category"] ∈
          [samplePost 1 "article" 0 10 ["Category"], samplePost 2 "article" 0 20 ["Dogs"]] ∧
        (("all" : String) = "all" ∨ ("all" : String) = "popular" ∨ "article" = "all") ∧
        ((asciiLower "CAT").data <:+: (asciiLower "Title").data ∨
          (asciiLower "CAT").data <:+: (asciiLower "Author").data ∨
          ∃ tag ∈ ["Category"], (asciiLower "CAT").data <:+: (asciiLower tag).data)) ∧
    filterBlogsArray asciiLower ⟨"all", "CAT", 1, none⟩
        [samplePost 1 "article" 0 10 ["Category"], samplePost 2 "article" 0 20 ["Dogs"]]
      = filterBlogsArray asciiLower ⟨"all", "cat", 1, none⟩
        [samplePost 1 "article" 0 10 ["Category"], samplePost 2 "article" 0 20 ["Dogs"]] :=
  ⟨(C8_search_is_case_insensitive_substring asciiLower).1 ⟨"all", "CAT", 1, none⟩
      [samplePost 1 "article" 0 10 ["Category"], samplePost 2 "article" 0 20 ["Dogs"]]
      (samplePost 1 "article" 0 10 ["Category"]) (by decide),
   (C8_search_is_case_insensitive_substring asciiLower).2.1 ⟨"all", "", 1, none⟩ "CAT" "cat"
      [samplePost 1 "article" 0 10 ["Category"], samplePost 2 "article" 0 20 ["Dogs"]]
      (by decide) (by decide) (by decide)⟩


/-- C9: under filter `popular` the result of `filterBlogsArray` is ordered by
like count, non-increasing, and is the same sequence whatever the sort control
holds (a value or no control at all). -/
theorem C9_popular_filter_forces_like_order (toLowerCase : String → String)
    (st : FeedState) (posts : List Blog) (hpop : st.currentFilter = "popular") :
    (filterBlogsArray toLowerCase st posts).Pairwise (fun a b => b.likes ≤ a.likes) ∧
    ∀ sel : Option String,
      filterBlogsArray toLowerCase { st with sortSelect := sel } posts
        = filterBlogsArray toLowerCase st posts := by
  have hb : (st.currentFilter == "popular") = true := by simp [hpop]
  constructor
  · rw [filterBlogsArray_eq, if_pos hb]
    have h := jsSort_desc likesOrZero (posts.filter (keptBy toLowerCase st))
    exact h.imp (fun {a b} hab => by rwa [likesOrZero_eq, likesOrZero_eq] at hab)
  · intro sel
    rw [filterBlogsArray_eq, filterBlogsArray_eq, if_pos hb, if_pos hb]
    rfl

/-- C9 witness: the scenario posts (article with 2 likes, vlog with 5 likes)
come out as `[2, 1]` under `popular` for every sort control and as `[1]` under
`article`. -/
theorem C9_popular_filter_forces_like_order_witness :
    ((filterBlogsArray asciiLower ⟨"popular", "", 1, some "oldest"⟩
        [samplePost 1 "article" 2 1704067200000 [],
          samplePost 2 "vlog" 5 1717200000000 []]).Pairwise (fun a b => b.likes ≤ a.likes) ∧
      ∀ sel : Option String,
        filterBlogsArray asciiLower
            { (⟨"popular", "", 1, some "oldest"⟩ : FeedState) with sortSelect := sel }
            [samplePost 1 "article" 2 1704067200000 [], samplePost 2 "vlog" 5 1717200000000 []]
          = filterBlogsArray asciiLower ⟨"popular", "", 1, some "oldest"⟩
            [samplePost 1 "article" 2 1704067200000 [],
              samplePost 2 "vlog" 5 1717200000000 []]) ∧
    (filterBlogsArray asciiLower ⟨"popular", "", 1, some "oldest"⟩
        [samplePost 1 "article" 2 1704067200000 [],
          samplePost 2 "vlog" 5 1717200000000 []]).map (fun b => b.id) = [2, 1] ∧
    (filterBlogsArray asciiLower ⟨"popular", "", 1, none⟩
        [samplePost 1 "article" 2 1704067200000 [],
          samplePost 2 "vlog" 5 1717200000000 []]).map (fun b => b.id) = [2, 1] ∧
    (filterBlogsArray asciiLower ⟨"article", "", 1, some "newest"⟩
        [samplePost 1 "article" 2 1704067200000 [],
          samplePost 2 "vlog" 5 1717200000000 []]).map (fun b => b.id) = [1] :=
  ⟨C9_popular_filter_forces_like_order asciiLower ⟨"popular", "", 1, some "oldest"⟩
      [samplePost 1 "article" 2 1704067200000 [], samplePost 2 "vlog" 5 1717200000000 []] rfl,
   by decide, by decide, by decide⟩

/-- C10: for every post list, `sortBlogsArray` returns a rearrangement of the
list that is ordered by creation instant non-increasing for `newest`, by
creation instant non-decreasing for `oldest`, and by like count non-increasing
for `popular`; for every other mode it returns the posts in their given
order. -/
theorem C10_sortBlogsArray_orders_by_mode (arr : List Blog) (mode : String) :
    (sortBlogsArray arr mode).Perm arr ∧
    (mode = "newest" → (sortBlogsArray arr mode).Pairwise (fun a b => b.date ≤ a.date)) ∧
    (mode = "oldest" → (sortBlogsArray arr mode).Pairwise (fun a b => a.date ≤ b.date)) ∧
    (mode = "popular" → (sortBlogsArray arr mode).Pairwise (fun a b => b.likes ≤ a.likes)) ∧
    (mode ≠ "newest" → mode ≠ "oldest" → mode ≠ "popular" → sortBlogsArray arr mode = arr) := by
  refine ⟨sortBlogsArray_perm arr mode, ?_, ?_, ?_, ?_⟩
  · intro h
    subst h
    exact jsSort_desc (fun b => b.date) arr
  · intro h
    subst h
    exact jsSort_asc (fun b => b.date) arr
  · intro h
    subst h
    have h2 := jsSort_desc likesOrZero arr
    exact h2.imp (fun {a b} hab => by rwa [likesOrZero_eq, likesOrZero_eq] at hab)
  · intro h1 h2 h3
    simp [sortBlogsArray, h1, h2, h3]

/-- C10 witness: three posts sorted in each mode, and left as they are for an
unknown mode. -/
theorem C10_sortBlogsArray_orders_by_mode_witness :
    (sortBlogsArray [samplePost 1 "article" 2 20 [], samplePost 2 "vlog" 5 10 [],
        samplePost 3 "docs" 0 30 []] "newest").map (fun b => b.id) = [3, 1, 2] ∧
    (sortBlogsArray [samplePost 1 "article" 2 20 [], samplePost 2 "vlog" 5 10 [],
        samplePost 3 "docs" 0 30 []] "newest").Pairwise (fun a b => b.date ≤ a.date) ∧
    (sortBlogsArray [samplePost 1 "article" 2 20 [], samplePost 2 "vlog" 5 10 [],
        samplePost 3 "docs" 0 30 []] "oldest").map (fun b => b.id) = [2, 1, 3] ∧
    (sortBlogsArray [samplePost 1 "article" 2 20 [], samplePost 2 "vlog" 5 10 [],
        samplePost 3 "docs" 0 30 []] "oldest").Pairwise (fun a b => a.date ≤ b.date) ∧
    (sortBlogsArray [samplePost 1 "article" 2 20 [], samplePost 2 "vlog" 5 10 [],
        samplePost 3 "docs" 0 30 []] "popular").map (fun b => b.id) = [2, 1, 3] ∧
    (sortBlogsArray [samplePost 1 "article" 2 20 [], samplePost 2 "vlog" 5 10 [],
        samplePost 3 "docs" 0 30 []] "popular").Pairwise (fun a b => b.likes ≤ a.likes) ∧
    sortBlogsArray [samplePost 1 "article" 2 20 [], samplePost 2 "vlog" 5 10 [],
        samplePost 3 "docs" 0 30 []] "views"
      = [samplePost 1 "article" 2 20 [], samplePost 2 "vlog" 5 10 [],
          samplePost 3 "docs" 0 30 []] :=
  ⟨by decide,
   (C10_sortBlogsArray_orders_by_mode [samplePost 1 "article" 2 20 [],
      samplePost 2 "vlog" 5 10 [], samplePost 3 "docs" 0 30 []] "newest").2.1 rfl,
   by decide,
   (C10_sortBlogsArray_orders_by_mode [samplePost 1 "article" 2 20 [],
      samplePost 2 "vlog" 5 10 [], samplePost 3 "docs" 0 30 []] "oldest").2.2.1 rfl,
   by decide,
   (C10_sortBlogsArray_orders_by_mode [samplePost 1 "article" 2 20 [],
      samplePost 2 "vlog" 5 10 [], samplePost 3 "docs" 0 30 []] "popular").2.2.2.1 rfl,
   (C10_sortBlogsArray_orders_by_mode [samplePost 1 "article" 2 20 [],
      samplePost 2 "vlog" 5 10 [], samplePost 3 "docs" 0 30 []] "views").2.2.2.2
      (by decide) (by decide) (by decide)⟩

/-! ## Lemmas: rendering and the feed controls -/

theorem renderBlogs_grid (toLowerCase : String → String) (st : FeedState)
    (blogs : List Blog) (dom : FeedDom) (h : dom.blogGrid.isSome = true) :
    (renderBlogs toLowerCase st blogs dom).blogGrid
      = some ((filterBlogsArray toLowerCase st blogs).take (st.currentPage * POSTS_PER_PAGE)) := by
  unfold renderBlogs
  cases hg : dom.blogGrid with
  | none => rw [hg] at h; cases h
  | some w =>
    simp only
    by_cases he : (filterBlogsArray toLowerCase st blogs).length = 0
    · have : filterBlogsArray toLowerCase st blogs = [] := List.length_eq_zero.1 he
      simp [this]
    · have hb : ((filterBlogsArray toLowerCase st blogs).length == 0) = false := by
        simpa using he
      simp [hb]

theorem handleLike_st (toLowerCase : String → String) (app : App) (blogId newId : Nat) :
    (handleLike toLowerCase app blogId newId).st = app.st := by
  unfold handleLike
  split
  · rfl
  · split <;> rfl

theorem sortSelectChange_st (toLowerCase : String → String) (app : App) (value : String) :
    (sortSelectChange toLowerCase app value).st.currentPage = app.st.currentPage := by
  unfold sortSelectChange sortBlogs
  simp only
  split <;> rfl

theorem filterBlogs_page (toLowerCase : String → String) (app : App) (filter : String) :
    (filterBlogs toLowerCase app filter).st.currentPage = 1 ∧
    (filterBlogs toLowerCase app filter).st.currentFilter = filter ∧
    (filterBlogs toLowerCase app filter).st.searchTerm = app.st.searchTerm := by
  unfold filterBlogs
  simp only
  split <;> exact ⟨rfl, rfl, rfl⟩

theorem reachable_page (toLowerCase : String → String) (app : App)
    (h : Reachable toLowerCase app) : 1 ≤ app.st.currentPage := by
  induction h with
  | init app _ _ hp => rw [hp]
  | step app e _ ih =>
    cases e with
    | filterClick f =>
      show 1 ≤ (filterBlogs toLowerCase app f).st.currentPage
      rw [(filterBlogs_page toLowerCase app f).1]
    | search v =>
      show 1 ≤ (searchInput toLowerCase app v).st.currentPage
      unfold searchInput
      rw [(filterBlogs_page toLowerCase _ _).1]
    | sortChange v =>
      show 1 ≤ (sortSelectChange toLowerCase app v).st.currentPage
      rw [sortSelectChange_st]
      exact ih
    | loadMore =>
      show 1 ≤ app.st.currentPage + 1
      omega
    | like blogId newId =>
      show 1 ≤ (handleLike toLowerCase app blogId newId).st.currentPage
      rw [handleLike_st]
      exact ih
    | refresh blogs => exact ih

/-! ## Claims on pagination and the feed controls -/

/-- C11: when the feed grid exists, the rendered cards are the first
`currentPage * POSTS_PER_PAGE` posts of the filtered and sorted sequence, that
is its prefix of length `min |F| (5 * n)`. -/
theorem C11_window_is_first_page_items (toLowerCase : String → String) (st : FeedState)
    (blogs : List Blog) (dom : FeedDom) (hgrid : dom.blogGrid.isSome = true) :
    ∃ cards, (renderBlogs toLowerCase st blogs dom).blogGrid = some cards ∧
      cards = (filterBlogsArray toLowerCase st blogs).take (5 * st.currentPage) ∧
      cards <+: filterBlogsArray toLowerCase st blogs ∧
      cards.length = min (filterBlogsArray toLowerCase st blogs).length (5 * st.currentPage) := by
  refine ⟨_, renderBlogs_grid toLowerCase st blogs dom hgrid, ?_, ?_, ?_⟩
  · rw [Nat.mul_comm]; rfl
  · exact List.take_prefix _ _
  · rw [List.length_take, Nat.min_comm, Nat.mul_comm]; rfl

/-- C11 witness: with 12 matching posts, page 1 shows exactly 5 cards and
page 2 exactly 10. -/
theorem C11_window_is_first_page_items_witness :
    (filterBlogsArray asciiLower ⟨"all", "", 1, some "newest"⟩ (samplePosts 12)).length = 12 ∧
    (∃ cards,
      (renderBlogs asciiLower ⟨"all", "", 1, some "newest"⟩ (samplePosts 12)
          ⟨some [], some true, none, none⟩).blogGrid = some cards ∧
      cards = (filterBlogsArray asciiLower ⟨"all", "", 1, some "newest"⟩
          (samplePosts 12)).take (5 * 1) ∧
      cards <+: filterBlogsArray asciiLower ⟨"all", "", 1, some "newest"⟩ (samplePosts 12) ∧
      cards.length
        = min (filterBlogsArray asciiLower ⟨"all", "", 1, some "newest"⟩
            (samplePosts 12)).length (5 * 1)) ∧
    ((renderBlogs asciiLower ⟨"all", "", 1, some "newest"⟩ (samplePosts 12)
        ⟨some [], some true, none, none⟩).blogGrid.map List.length) = some 5 ∧
    ((renderBlogs asciiLower ⟨"all", "", 2, some "newest"⟩ (samplePosts 12)
        ⟨some [], some true, none, none⟩).blogGrid.map List.length) = some 10 :=
  ⟨by decide,
   C11_window_is_first_page_items asciiLower ⟨"all", "", 1, some "newest"⟩ (samplePosts 12)
     ⟨some [], some true, none, none⟩ rfl,
   by decide, by decide⟩

/-- C12: for fixed posts, filter, search term and sort mode, the cards shown
for the current page are a prefix of the cards shown after `loadMoreBlogs`:
every visible post stays visible at the same position. -/
theorem C12_load_more_never_shrinks_window (toLowerCase : String → String) (app : App)
    (hgrid : app.dom.blogGrid.isSome = true) :
    ∃ before after,
      (renderBlogs toLowerCase app.st app.blogs app.dom).blogGrid = some before ∧
      (loadMoreBlogs toLowerCase app).dom.blogGrid = some after ∧
      before <+: after ∧
      ∀ i, i < before.length → after[i]? = before[i]? := by
  have hpre : (filterBlogsArray toLowerCase app.st app.blogs).take
        (app.st.currentPage * POSTS_PER_PAGE) <+:
      (filterBlogsArray toLowerCase app.st app.blogs).take
        ((app.st.currentPage + 1) * POSTS_PER_PAGE) :=
    List.take_prefix_take_left _ (Nat.mul_le_mul_right _ (Nat.le_succ _))
  refine ⟨_, _, renderBlogs_grid toLowerCase app.st app.blogs app.dom hgrid,
    renderBlogs_grid toLowerCase _ app.blogs app.dom hgrid, hpre, ?_⟩
  intro i hi
  obtain ⟨t, ht⟩ := hpre
  show (List.take ((app.st.currentPage + 1) * POSTS_PER_PAGE)
    (filterBlogsArray toLowerCase app.st app.blogs))[i]? = _
  rw [← ht, List.getElem?_append_left hi]

/-- C12 witness: 12 posts, page 1 to page 2. -/
theorem C12_load_more_never_shrinks_window_witness :
    ∃ before after,
      (renderBlogs asciiLower (sampleApp "all" "" 1 (samplePosts 12) []).st
        (sampleApp "all" "" 1 (samplePosts 12) []).blogs
        (sampleApp "all" "" 1 (samplePosts 12) []).dom).blogGrid = some before ∧
      (loadMoreBlogs asciiLower (sampleApp "all" "" 1 (samplePosts 12) [])).dom.blogGrid
        = some after ∧
      before <+: after ∧
      ∀ i, i < before.length → after[i]? = before[i]? :=
  C12_load_more_never_shrinks_window asciiLower (sampleApp "all" "" 1 (samplePosts 12) []) rfl

/-- C13: `loadMoreBlogs` adds exactly 1 to `currentPage` and keeps filter
and search term; `filterBlogs(f)` sets the filter to `f` and the page to 1; a
search-term change sets the term, resets the page to 1 and keeps the filter;
hence `currentPage >= 1` in every state reachable from the initial one. -/
theorem C13_page_counter_transitions (toLowerCase : String → String) :
    (∀ app, (loadMoreBlogs toLowerCase app).st.currentPage = app.st.currentPage + 1 ∧
      (loadMoreBlogs toLowerCase app).st.currentFilter = app.st.currentFilter ∧
      (loadMoreBlogs toLowerCase app).st.searchTerm = app.st.searchTerm) ∧
    (∀ app f, (filterBlogs toLowerCase app f).st.currentFilter = f ∧
      (filterBlogs toLowerCase app f).st.currentPage = 1) ∧
    (∀ app v, (searchInput toLowerCase app v).st.searchTerm = v ∧
      (searchInput toLowerCase app v).st.currentPage = 1 ∧
      (searchInput toLowerCase app v).st.currentFilter = app.st.currentFilter) ∧
    (∀ app, Reachable toLowerCase app → 1 ≤ app.st.currentPage) := by
  refine ⟨fun app => ⟨rfl, rfl, rfl⟩, fun app f => ?_, fun app v => ?_,
    fun app h => reachable_page toLowerCase app h⟩
  · exact ⟨(filterBlogs_page toLowerCase app f).2.1, (filterBlogs_page toLowerCase app f).1⟩
  · unfold searchInput
    obtain ⟨h1, h2, h3⟩ := filterBlogs_page toLowerCase
      { app with st := { app.st with searchTerm := v } } app.st.currentFilter
    exact ⟨h3, h1, h2⟩

/-- C13 witness: two "load more" clicks followed by a search bring the page
from 1 to 3 and back to 1. -/
theorem C13_page_counter_transitions_witness :
    1 ≤ ((((sampleApp "all" "" 1 (samplePosts 12) []).step asciiLower .loadMore).step
        asciiLower .loadMore).step asciiLower (.search "x")).st.currentPage ∧
    (((sampleApp "all" "" 1 (samplePosts 12) []).step asciiLower .loadMore).step
        asciiLower .loadMore).st.currentPage = 3 ∧
    ((((sampleApp "all" "" 1 (samplePosts 12) []).step asciiLower .loadMore).step
        asciiLower .loadMore).step asciiLower (.search "x")).st.currentPage = 1 :=
  ⟨(C13_page_counter_transitions asciiLower).2.2.2 _
      (Reachable.step _ _ (Reachable.step _ _ (Reachable.step _ _
        (Reachable.init (sampleApp "all" "" 1 (samplePosts 12) []) rfl rfl rfl)))),
   by decide, by decide⟩

/-! ## Lemmas: stable sorting -/

theorem jsSort_stable {α : Type} (cmp : α → α → Int) (c l : List α)
    (hc : c.Pairwise (fun a b => cmp a b ≤ 0)) (hsub : List.Sublist c l) :
    List.Sublist c (jsSort cmp l) :=
  List.sublist_insertionSort hc hsub

theorem jsSort_pair {α : Type} (cmp : α → α → Int) (a b : α) (l : List α)
    (hab : cmp a b ≤ 0) (hsub : List.Sublist [a, b] l) : List.Sublist [a, b] (jsSort cmp l) :=
  jsSort_stable cmp [a, b] l (List.pairwise_pair.2 hab) hsub

/-! ## Lemmas: the like toggle -/

theorem adjustLikes_find_isSome (blogs : List Blog) (id : Nat) (delta : Int) :
    ((adjustLikes blogs id delta).find? (fun b => b.id == id)).isSome
      = (blogs.find? (fun b => b.id == id)).isSome := by
  induction blogs with
  | nil => rfl
  | cons b bs ih =>
    unfold adjustLikes
    by_cases h : b.id = id
    · simp [h, List.find?_cons]
    · simp [h, List.find?_cons, ih]

theorem adjustLikes_twice (blogs : List Blog) (id : Nat) (d e : Int) (hde : d + e = 0) :
    adjustLikes (adjustLikes blogs id d) id e = blogs := by
  induction blogs with
  | nil => rfl
  | cons b bs ih =>
    by_cases h : b.id = id
    · have hb : b.likes + d + e = b.likes := by omega
      subst h
      cases b
      simp only [adjustLikes, if_true] at hb ⊢
      simp only [hb]
    · simp [adjustLikes, h, ih]

theorem likesOf_adjustLikes (blogs : List Blog) (id : Nat) (delta : Int) :
    likesOf (adjustLikes blogs id delta) id = (likesOf blogs id).map (fun n => n + delta) := by
  unfold likesOf
  induction blogs with
  | nil => rfl
  | cons b bs ih =>
    by_cases h : b.id = id
    · simp [adjustLikes, h, List.find?_cons]
    · simp [adjustLikes, h, List.find?_cons, ih]

theorem afterLike_fields (toLowerCase : String → String) (app : App) (blogId : Nat) :
    (afterLike toLowerCase app blogId).post_likes = app.post_likes ∧
    (afterLike toLowerCase app blogId).blogs = app.blogs ∧
    (afterLike toLowerCase app blogId).currentUser = app.currentUser ∧
    (afterLike toLowerCase app blogId).st = app.st :=
  ⟨rfl, rfl, rfl, rfl⟩

theorem handleLike_absent (toLowerCase : String → String) (app : App) (blogId newId : Nat)
    (h : app.blogs.find? (fun b => b.id == blogId) = none) :
    handleLike toLowerCase app blogId newId = app := by
  unfold handleLike
  rw [h]

theorem handleLike_error (toLowerCase : String → String) (app : App) (blogId newId : Nat)
    (h : maybeSingle (selectLike app.post_likes blogId app.currentUser) = none) :
    handleLike toLowerCase app blogId newId = app := by
  unfold handleLike
  split
  · rfl
  · rw [h]

theorem handleLike_insert (toLowerCase : String → String) (app : App) (blogId newId : Nat)
    (hb : (app.blogs.find? (fun b => b.id == blogId)).isSome = true)
    (hs : selectLike app.post_likes blogId app.currentUser = []) :
    (handleLike toLowerCase app blogId newId).post_likes
      = app.post_likes ++ [⟨newId, blogId, app.currentUser⟩] ∧
    (handleLike toLowerCase app blogId newId).blogs = adjustLikes app.blogs blogId 1 ∧
    (handleLike toLowerCase app blogId newId).currentUser = app.currentUser := by
  unfold handleLike
  cases hf : app.blogs.find? (fun b => b.id == blogId) with
  | none => rw [hf] at hb; cases hb
  | some blog =>
    simp only [hs, maybeSingle]
    exact ⟨rfl, rfl, rfl⟩

theorem handleLike_delete (toLowerCase : String → String) (app : App) (blogId newId : Nat)
    (r : LikeRecord)
    (hb : (app.blogs.find? (fun b => b.id == blogId)).isSome = true)
    (hs : selectLike app.post_likes blogId app.currentUser = [r]) :
    (handleLike toLowerCase app blogId newId).post_likes
      = app.post_likes.filter (fun x => !(x.id == r.id)) ∧
    (handleLike toLowerCase app blogId newId).blogs = adjustLikes app.blogs blogId (-1) ∧
    (handleLike toLowerCase app blogId newId).currentUser = app.currentUser := by
  unfold handleLike
  cases hf : app.blogs.find? (fun b => b.id == blogId) with
  | none => rw [hf] at hb; cases hb
  | some blog =>
    simp only [hs, maybeSingle]
    exact ⟨rfl, rfl, rfl⟩

theorem selectLike_append (l m : List LikeRecord) (blogId : Nat) (user : String) :
    selectLike (l ++ m) blogId user = selectLike l blogId user ++ selectLike m blogId user := by
  unfold selectLike
  rw [List.filter_append]

theorem selectLike_filter (l : List LikeRecord) (p : LikeRecord → Bool) (blogId : Nat)
    (user : String) :
    selectLike (l.filter p) blogId user = (selectLike l blogId user).filter p := by
  unfold selectLike
  rw [List.filter_filter, List.filter_filter]
  apply List.filter_congr
  intro x _
  rw [Bool.and_comm]

theorem selectLike_single_self (newId blogId : Nat) (user : String) :
    selectLike [⟨newId, blogId, user⟩] blogId user = [⟨newId, blogId, user⟩] := by
  simp [selectLike]

theorem selectLike_single_other (newId blogId : Nat) (user : String) (b : Nat) (u : String)
    (h : (b, u) ≠ (blogId, user)) :
    selectLike [⟨newId, blogId, user⟩] b u = [] := by
  simp only [selectLike, List.filter_cons, List.filter_nil]
  split
  · next hm =>
    simp only [Bool.and_eq_true, beq_iff_eq] at hm
    exact absurd (by rw [hm.1, hm.2]) h
  · rfl

theorem list_length_le_one {α : Type} (l : List α) (h : l.length ≤ 1) :
    l = [] ∨ ∃ r, l = [r] := by
  match l, h with
  | [], _ => exact Or.inl rfl
  | [r], _ => exact Or.inr ⟨r, rfl⟩
  | _ :: _ :: _, h => simp at h

theorem maybeSingle_eq_none {α : Type} (l : List α) (h : 1 < l.length) :
    maybeSingle l = none := by
  match l, h with
  | [], h => simp at h
  | [_], h => simp at h
  | _ :: _ :: _, _ => rfl

/-- One toggle keeps the invariant "at most one record per pair". -/
theorem handleLike_atMostOne (toLowerCase : String → String) (app : App) (blogId newId : Nat)
    (h : AtMostOnePerPair app.post_likes) :
    AtMostOnePerPair (handleLike toLowerCase app blogId newId).post_likes := by
  cases hf : app.blogs.find? (fun b => b.id == blogId) with
  | none => rw [handleLike_absent _ _ _ _ hf]; exact h
  | some blog =>
    have hb : (app.blogs.find? (fun b => b.id == blogId)).isSome = true := by rw [hf]; rfl
    rcases list_length_le_one _ (h blogId app.currentUser) with hs | ⟨r, hs⟩
    · rw [(handleLike_insert toLowerCase app blogId newId hb hs).1]
      intro b u
      rw [selectLike_append]
      by_cases hbu : (b, u) = (blogId, app.currentUser)
      · cases hbu
        rw [hs, selectLike_single_self]
        simp
      · rw [selectLike_single_other _ _ _ _ _ hbu, List.append_nil]
        exact h b u
    · rw [(handleLike_delete toLowerCase app blogId newId r hb hs).1]
      intro b u
      rw [selectLike_filter]
      exact Nat.le_trans (List.length_filter_le _ _) (h b u)

theorem handleLikes_atMostOne (toLowerCase : String → String) (calls : List (Nat × Nat)) :
    ∀ app : App, AtMostOnePerPair app.post_likes →
      AtMostOnePerPair (handleLikes toLowerCase app calls).post_likes := by
  induction calls with
  | nil => intro app h; exact h
  | cons c cs ih =>
    intro app h
    exact ih _ (handleLike_atMostOne toLowerCase app c.1 c.2 h)

/-! ## Claims on stable sorting and the like toggle -/

/-- C14: sorting is stable on every sort path: two posts with equal sort key
that occur in the input in the order `a`, `b` occur in that order in the
result of `sortBlogsArray` for `newest`, `oldest` and `popular`, and, when both
are kept by the filters, in the result of `filterBlogsArray` under filter
`popular`. -/
theorem C14_sorting_is_stable (toLowerCase : String → String) :
    (∀ (arr : List Blog) (a b : Blog), List.Sublist [a, b] arr → a.date = b.date →
      List.Sublist [a, b] (sortBlogsArray arr "newest") ∧
      List.Sublist [a, b] (sortBlogsArray arr "oldest")) ∧
    (∀ (arr : List Blog) (a b : Blog), List.Sublist [a, b] arr → a.likes = b.likes →
      List.Sublist [a, b] (sortBlogsArray arr "popular")) ∧
    (∀ (st : FeedState) (posts : List Blog) (a b : Blog), st.currentFilter = "popular" →
      List.Sublist [a, b] posts → a.likes = b.likes →
      a ∈ filterBlogsArray toLowerCase st posts → b ∈ filterBlogsArray toLowerCase st posts →
      List.Sublist [a, b] (filterBlogsArray toLowerCase st posts)) := by
  refine ⟨?_, ?_, ?_⟩
  · intro arr a b hsub hkey
    constructor
    · exact jsSort_pair (fun x y => y.date - x.date) a b arr
        (show b.date - a.date ≤ 0 by omega) hsub
    · exact jsSort_pair (fun x y => x.date - y.date) a b arr
        (show a.date - b.date ≤ 0 by omega) hsub
  · intro arr a b hsub hkey
    exact jsSort_pair (fun x y => likesOrZero y - likesOrZero x) a b arr
      (show likesOrZero b - likesOrZero a ≤ 0 by
        rw [likesOrZero_eq, likesOrZero_eq]; omega) hsub
  · intro st posts a b hpop hsub hkey ha hb
    have hperm := filterBlogsArray_perm toLowerCase st posts
    have ha2 := (List.mem_filter.1 (hperm.mem_iff.1 ha)).2
    have hb2 := (List.mem_filter.1 (hperm.mem_iff.1 hb)).2
    have hsub2 : List.Sublist [a, b] (posts.filter (keptBy toLowerCase st)) := by
      have := hsub.filter (keptBy toLowerCase st)
      simpa [List.filter_cons, ha2, hb2] using this
    rw [filterBlogsArray_eq, if_pos (by simp [hpop])]
    exact jsSort_pair (fun x y => likesOrZero y - likesOrZero x) a b _
      (show likesOrZero b - likesOrZero a ≤ 0 by
        rw [likesOrZero_eq, likesOrZero_eq]; omega) hsub2

/-- C14 witness: posts 1 and 3 have the same date and the same like count;
they keep their order around post 2 on every sort path. -/
theorem C14_sorting_is_stable_witness :
    (List.Sublist [samplePost 1 "article" 4 10 [], samplePost 3 "docs" 4 10 []]
        (sortBlogsArray [samplePost 1 "article" 4 10 [], samplePost 2 "vlog" 9 20 [],
          samplePost 3 "docs" 4 10 []] "newest") ∧
      List.Sublist [samplePost 1 "article" 4 10 [], samplePost 3 "docs" 4 10 []]
        (sortBlogsArray [samplePost 1 "article" 4 10 [], samplePost 2 "vlog" 9 20 [],
          samplePost 3 "docs" 4 10 []] "oldest")) ∧
    List.Sublist [samplePost 1 "article" 4 10 [], samplePost 3 "docs" 4 10 []]
      (sortBlogsArray [samplePost 1 "article" 4 10 [], samplePost 2 "vlog" 9 20 [],
        samplePost 3 "docs" 4 10 []] "popular") ∧
    List.Sublist [samplePost 1 "article" 4 10 [], samplePost 3 "docs" 4 10 []]
      (filterBlogsArray asciiLower ⟨"popular", "", 1, some "oldest"⟩
        [samplePost 1 "article" 4 10 [], samplePost 2 "vlog" 9 20 [],
          samplePost 3 "docs" 4 10 []]) ∧
    (filterBlogsArray asciiLower ⟨"popular", "", 1, some "oldest"⟩
        [samplePost 1 "article" 4 10 [], samplePost 2 "vlog" 9 20 [],
          samplePost 3 "docs" 4 10 []]).map (fun b => b.id) = [2, 1, 3] :=
  ⟨(C14_sorting_is_stable asciiLower).1 _ _ _ (by decide) rfl,
   (C14_sorting_is_stable asciiLower).2.1 _ _ _ (by decide) rfl,
   (C14_sorting_is_stable asciiLower).2.2 ⟨"popular", "", 1, some "oldest"⟩
      [samplePost 1 "article" 4 10 [], samplePost 2 "vlog" 9 20 [],
        samplePost 3 "docs" 4 10 []]
      (samplePost 1 "article" 4 10 []) (samplePost 3 "docs" 4 10 [])
      rfl (by decide) rfl (by decide) (by decide),
   by decide⟩

/-- C15: against a sequential like-record collection whose calls succeed and
in which the (post, user) pair has at most one record, two `handleLike` calls
in a row for the same post bring the pair back to its liked or not-liked state
(the same number of records, 0 or 1) and the posts, with their in-memory like
counts, back to what they were. -/
theorem C15_like_toggle_twice_restores (toLowerCase : String → String) (app : App)
    (blogId n1 n2 : Nat)
    (h : (selectLike app.post_likes blogId app.currentUser).length ≤ 1) :
    (selectLike (handleLike toLowerCase (handleLike toLowerCase app blogId n1) blogId
        n2).post_likes blogId app.currentUser).length
      = (selectLike app.post_likes blogId app.currentUser).length ∧
    (handleLike toLowerCase (handleLike toLowerCase app blogId n1) blogId n2).blogs
      = app.blogs ∧
    likesOf (handleLike toLowerCase (handleLike toLowerCase app blogId n1) blogId n2).blogs
        blogId
      = likesOf app.blogs blogId := by
  cases hf : app.blogs.find? (fun b => b.id == blogId) with
  | none =>
    rw [handleLike_absent _ _ _ _ hf, handleLike_absent _ _ _ _ hf]
    exact ⟨rfl, rfl, rfl⟩
  | some blog =>
    have hb : (app.blogs.find? (fun b => b.id == blogId)).isSome = true := by rw [hf]; rfl
    rcases list_length_le_one _ h with hs | ⟨r, hs⟩
    · obtain ⟨h1, h2, h3⟩ := handleLike_insert toLowerCase app blogId n1 hb hs
      have hb1 : ((handleLike toLowerCase app blogId n1).blogs.find?
          (fun b => b.id == blogId)).isSome = true := by
        rw [h2, adjustLikes_find_isSome]; exact hb
      have hs1 : selectLike (handleLike toLowerCase app blogId n1).post_likes blogId
          (handleLike toLowerCase app blogId n1).currentUser
          = [⟨n1, blogId, app.currentUser⟩] := by
        rw [h1, h3, selectLike_append, hs, selectLike_single_self]
        rfl
      obtain ⟨k1, k2, -⟩ := handleLike_delete toLowerCase _ blogId n2 _ hb1 hs1
      have hblogs : (handleLike toLowerCase (handleLike toLowerCase app blogId n1) blogId
          n2).blogs = app.blogs := by
        rw [k2, h2]; exact adjustLikes_twice _ _ _ _ (by decide)
      refine ⟨?_, hblogs, by rw [hblogs]⟩
      rw [k1, selectLike_filter, h1, selectLike_append, hs, selectLike_single_self]
      simp
    · obtain ⟨h1, h2, h3⟩ := handleLike_delete toLowerCase app blogId n1 r hb hs
      have hb1 : ((handleLike toLowerCase app blogId n1).blogs.find?
          (fun b => b.id == blogId)).isSome = true := by
        rw [h2, adjustLikes_find_isSome]; exact hb
      have hs1 : selectLike (handleLike toLowerCase app blogId n1).post_likes blogId
          (handleLike toLowerCase app blogId n1).currentUser = [] := by
        rw [h1, h3, selectLike_filter, hs]
        simp
      obtain ⟨k1, k2, -⟩ := handleLike_insert toLowerCase _ blogId n2 hb1 hs1
      have hblogs : (handleLike toLowerCase (handleLike toLowerCase app blogId n1) blogId
          n2).blogs = app.blogs := by
        rw [k2, h2]; exact adjustLikes_twice _ _ _ _ (by decide)
      refine ⟨?_, hblogs, by rw [hblogs]⟩
      rw [k1, selectLike_append, h3] at *
      rw [h3] at hs1
      rw [hs1, selectLike_single_self, hs]
      rfl

/-- C15 witness: user `ann` has not liked post 7 (3 likes in memory); after
like and unlike the pair has no record and the count is 3 again. -/
theorem C15_like_toggle_twice_restores_witness :
    (selectLike (handleLike asciiLower (handleLike asciiLower
        (sampleApp "all" "" 1 [samplePost 7 "article" 3 10 []] [⟨1, 7, "bob"⟩, ⟨2, 8, "ann"⟩])
        7 3) 7 4).post_likes 7 "ann").length
      = (selectLike [⟨1, 7, "bob"⟩, ⟨2, 8, "ann"⟩] 7 "ann").length ∧
    (handleLike asciiLower (handleLike asciiLower
        (sampleApp "all" "" 1 [samplePost 7 "article" 3 10 []] [⟨1, 7, "bob"⟩, ⟨2, 8, "ann"⟩])
        7 3) 7 4).blogs = [samplePost 7 "article" 3 10 []] ∧
    likesOf (handleLike asciiLower (handleLike asciiLower
        (sampleApp "all" "" 1 [samplePost 7 "article" 3 10 []] [⟨1, 7, "bob"⟩, ⟨2, 8, "ann"⟩])
        7 3) 7 4).blogs 7 = likesOf [samplePost 7 "article" 3 10 []] 7 :=
  C15_like_toggle_twice_restores asciiLower
    (sampleApp "all" "" 1 [samplePost 7 "article" 3 10 []] [⟨1, 7, "bob"⟩, ⟨2, 8, "ann"⟩])
    7 3 4 (by decide)

theorem selectLike_mem (l : List LikeRecord) (blogId : Nat) (user : String) (x : LikeRecord) :
    x ∈ selectLike l blogId user ↔ x ∈ l ∧ x.blog_id = blogId ∧ x.user_identifier = user := by
  simp [selectLike, List.mem_filter]

theorem atMostOne_of_nodup_pairs (l : List LikeRecord)
    (h : (l.map (fun r => (r.blog_id, r.user_identifier))).Nodup) : AtMostOnePerPair l := by
  intro b u
  induction l with
  | nil => simp [selectLike]
  | cons x xs ih =>
    rw [List.map_cons, List.nodup_cons] at h
    have hxs := ih h.2
    by_cases hm : x.blog_id = b ∧ x.user_identifier = u
    · have hempty : selectLike xs b u = [] := by
        apply List.eq_nil_iff_forall_not_mem.2
        intro y hy
        obtain ⟨hyl, hyb, hyu⟩ := (selectLike_mem xs b u y).1 hy
        apply h.1
        rw [List.mem_map]
        exact ⟨y, hyl, by rw [hyb, hyu, hm.1, hm.2]⟩
      have : selectLike (x :: xs) b u = x :: selectLike xs b u := by
        simp [selectLike, hm.1, hm.2]
      rw [this, hempty]
      simp
    · have : selectLike (x :: xs) b u = selectLike xs b u := by
        unfold selectLike
        rw [List.filter_cons]
        have hf : (x.blog_id == b && x.user_identifier == u) = false := by
          rw [Bool.and_eq_false_iff]
          by_cases h1 : x.blog_id = b
          · right
            simpa using fun h2 => hm ⟨h1, h2⟩
          · left
            simpa using h1
        rw [hf]
        rfl
      rw [this]
      exact hxs

/-- Deleting by the key of a record of one pair leaves the records of every
other pair alone when keys are unique. -/
theorem selectLike_delete_other (l : List LikeRecord) (r : LikeRecord) (blogId : Nat)
    (user : String) (hnd : (l.map (fun x => x.id)).Nodup)
    (hr : r ∈ selectLike l blogId user) (b : Nat) (u : String)
    (hbu : (b, u) ≠ (blogId, user)) :
    selectLike (l.filter (fun x => !(x.id == r.id))) b u = selectLike l b u := by
  rw [selectLike_filter]
  apply List.filter_eq_self.2
  intro x hx
  obtain ⟨hxl, hxb, hxu⟩ := (selectLike_mem l b u x).1 hx
  obtain ⟨hrl, hrb, hru⟩ := (selectLike_mem l blogId user r).1 hr
  have hne : x.id ≠ r.id := by
    intro hid
    have hxr : x = r := List.inj_on_of_nodup_map hnd hxl hrl hid
    subst hxr
    exact hbu (by rw [← hxb, ← hxu, hrb, hru])
  simpa using hne

/-- C16: `handleLike` keeps the invariant "at most one like record per
(post, user) pair" along every run of toggles; on a post of the feed, a toggle
that finds the pair's record removes it and lowers the in-memory count by 1
(leaving every other pair's records as they are when record keys are unique),
and a toggle that finds none creates exactly one record and raises the count
by 1, leaving every other pair's records as they are. -/
theorem C16_like_toggle_keeps_one_record_per_pair (toLowerCase : String → String) :
    (∀ (app : App) (calls : List (Nat × Nat)), AtMostOnePerPair app.post_likes →
      AtMostOnePerPair (handleLikes toLowerCase app calls).post_likes) ∧
    (∀ (app : App) (blogId newId : Nat) (r : LikeRecord),
      (app.blogs.find? (fun b => b.id == blogId)).isSome = true →
      selectLike app.post_likes blogId app.currentUser = [r] →
      (app.post_likes.map (fun x => x.id)).Nodup →
      selectLike (handleLike toLowerCase app blogId newId).post_likes blogId
          app.currentUser = [] ∧
      (∀ x, x ∈ (handleLike toLowerCase app blogId newId).post_likes ↔
        x ∈ app.post_likes ∧ x ≠ r) ∧
      likesOf (handleLike toLowerCase app blogId newId).blogs blogId
        = (likesOf app.blogs blogId).map (fun n => n - 1) ∧
      ∀ b u, (b, u) ≠ (blogId, app.currentUser) →
        selectLike (handleLike toLowerCase app blogId newId).post_likes b u
          = selectLike app.post_likes b u) ∧
    (∀ (app : App) (blogId newId : Nat),
      (app.blogs.find? (fun b => b.id == blogId)).isSome = true →
      selectLike app.post_likes blogId app.currentUser = [] →
      selectLike (handleLike toLowerCase app blogId newId).post_likes blogId
          app.currentUser = [⟨newId, blogId, app.currentUser⟩] ∧
      (handleLike toLowerCase app blogId newId).post_likes
        = app.post_likes ++ [⟨newId, blogId, app.currentUser⟩] ∧
      likesOf (handleLike toLowerCase app blogId newId).blogs blogId
        = (likesOf app.blogs blogId).map (fun n => n + 1) ∧
      ∀ b u, (b, u) ≠ (blogId, app.currentUser) →
        selectLike (handleLike toLowerCase app blogId newId).post_likes b u
          = selectLike app.post_likes b u) := by
  refine ⟨fun app calls h => handleLikes_atMostOne toLowerCase calls app h, ?_, ?_⟩
  · intro app blogId newId r hb hs hnd
    obtain ⟨h1, h2, -⟩ := handleLike_delete toLowerCase app blogId newId r hb hs
    have hr : r ∈ selectLike app.post_likes blogId app.currentUser := by rw [hs]; simp
    have hrl := ((selectLike_mem _ _ _ r).1 hr).1
    refine ⟨?_, ?_, ?_, ?_⟩
    · rw [h1, selectLike_filter, hs]; simp
    · intro x
      rw [h1, List.mem_filter]
      constructor
      · rintro ⟨hx, hne⟩
        refine ⟨hx, fun e => ?_⟩
        subst e
        simp at hne
      · rintro ⟨hx, hne⟩
        refine ⟨hx, ?_⟩
        have : x.id ≠ r.id := fun hid => hne (List.inj_on_of_nodup_map hnd hx hrl hid)
        simpa using this
    · rw [h2, likesOf_adjustLikes]
      rfl
    · intro b u hbu
      rw [h1]
      exact selectLike_delete_other _ r blogId app.currentUser hnd hr b u hbu
  · intro app blogId newId hb hs
    obtain ⟨h1, h2, -⟩ := handleLike_insert toLowerCase app blogId newId hb hs
    refine ⟨?_, h1, ?_, ?_⟩
    · rw [h1, selectLike_append, hs, selectLike_single_self]; rfl
    · rw [h2, likesOf_adjustLikes]
    · intro b u hbu
      rw [h1, selectLike_append, selectLike_single_other _ _ _ _ _ hbu, List.append_nil]

/-- C16 witness: `ann` unlikes post 7 (her record 2 goes, `bob` keeps his,
the count drops from 3 to 2) and likes post 8 (one record is created). -/
theorem C16_like_toggle_keeps_one_record_per_pair_witness :
    AtMostOnePerPair (handleLikes asciiLower
      (sampleApp "all" "" 1 [samplePost 7 "article" 3 10 [], samplePost 8 "vlog" 0 20 []]
        [⟨1, 7, "bob"⟩, ⟨2, 7, "ann"⟩]) [(7, 3), (8, 4), (7, 5)]).post_likes ∧
    (handleLike asciiLower
      (sampleApp "all" "" 1 [samplePost 7 "article" 3 10 [], samplePost 8 "vlog" 0 20 []]
        [⟨1, 7, "bob"⟩, ⟨2, 7, "ann"⟩]) 7 3).post_likes = [⟨1, 7, "bob"⟩] ∧
    likesOf (handleLike asciiLower
      (sampleApp "all" "" 1 [samplePost 7 "article" 3 10 [], samplePost 8 "vlog" 0 20 []]
        [⟨1, 7, "bob"⟩, ⟨2, 7, "ann"⟩]) 7 3).blogs 7 = some 2 ∧
    (selectLike (handleLike asciiLower
      (sampleApp "all" "" 1 [samplePost 7 "article" 3 10 [], samplePost 8 "vlog" 0 20 []]
        [⟨1, 7, "bob"⟩, ⟨2, 7, "ann"⟩]) 7 3).post_likes 7 "ann" = [] ∧
     (∀ x, x ∈ (handleLike asciiLower
      (sampleApp "all" "" 1 [samplePost 7 "article" 3 10 [], samplePost 8 "vlog" 0 20 []]
        [⟨1, 7, "bob"⟩, ⟨2, 7, "ann"⟩]) 7 3).post_likes ↔
        x ∈ [(⟨1, 7, "bob"⟩ : LikeRecord), ⟨2, 7, "ann"⟩] ∧ x ≠ ⟨2, 7, "ann"⟩) ∧
     likesOf (handleLike asciiLower
      (sampleApp "all" "" 1 [samplePost 7 "article" 3 10 [], samplePost 8 "vlog" 0 20 []]
        [⟨1, 7, "bob"⟩, ⟨2, 7, "ann"⟩]) 7 3).blogs 7
        = (likesOf [samplePost 7 "article" 3 10 [], samplePost 8 "vlog" 0 20 []] 7).map
            (fun n => n - 1) ∧
     ∀ b u, (b, u) ≠ (7, "ann") →
      selectLike (handleLike asciiLower
        (sampleApp "all" "" 1 [samplePost 7 "article" 3 10 [], samplePost 8 "vlog" 0 20 []]
          [⟨1, 7, "bob"⟩, ⟨2, 7, "ann"⟩]) 7 3).post_likes b u
        = selectLike [⟨1, 7, "bob"⟩, ⟨2, 7, "ann"⟩] b u) ∧
    selectLike (handleLike asciiLower
      (sampleApp "all" "" 1 [samplePost 7 "article" 3 10 [], samplePost 8 "vlog" 0 20 []]
        [⟨1, 7, "bob"⟩, ⟨2, 7, "ann"⟩]) 8 4).post_likes 8 "ann" = [⟨4, 8, "ann"⟩] :=
  ⟨(C16_like_toggle_keeps_one_record_per_pair asciiLower).1 _ _
      (atMostOne_of_nodup_pairs _ (by decide)),
   by decide, by decide,
   (C16_like_toggle_keeps_one_record_per_pair asciiLower).2.1
     (sampleApp "all" "" 1 [samplePost 7 "article" 3 10 [], samplePost 8 "vlog" 0 20 []]
        [⟨1, 7, "bob"⟩, ⟨2, 7, "ann"⟩]) 7 3 ⟨2, 7, "ann"⟩ (by decide) (by decide) (by decide),
   ((C16_like_toggle_keeps_one_record_per_pair asciiLower).2.2
     (sampleApp "all" "" 1 [samplePost 7 "article" 3 10 [], samplePost 8 "vlog" 0 20 []]
        [⟨1, 7, "bob"⟩, ⟨2, 7, "ann"⟩]) 8 4 (by decide) (by decide)).1⟩

/-! ## Claim on the derived like count -/

theorem countLike_foldl (rows : List LikeRow) (init : LikeCounts) (blogId : Nat) :
    ((rows.foldl countLike init) blogId).getD 0
      = (init blogId).getD 0 + (rows.filter (fun l => l.blog_id == blogId)).length := by
  induction rows generalizing init with
  | nil => simp
  | cons r rs ih =>
    rw [List.foldl_cons, ih]
    by_cases h : blogId = r.blog_id
    · subst h
      simp [countLike]
      omega
    · have h2 : ¬ r.blog_id = blogId := fun e => h e.symm
      simp [countLike, h, h2]

theorem buildLikeCounts_getD (likesData : Option (List LikeRow)) (blogId : Nat) :
    ((buildLikeCounts likesData) blogId).getD 0
      = ((likesData.getD []).filter (fun l => l.blog_id == blogId)).length := by
  cases likesData with
  | none => rfl
  | some rows =>
    unfold buildLikeCounts
    rw [countLike_foldl]
    simp

/-- C17: after a successful load the in-memory like count of every post is
the number of fetched like records whose `blog_id` is the post's id (0 when
there are none), whatever `likes` value is stored on the post rows: replacing
the stored values by anything gives the same posts. -/
theorem C17_like_count_is_derived (blogsData : List BlogRow) (likesData : List LikeRow) :
    loadBlogs (some blogsData) (some likesData)
      = blogsData.map (fun row =>
          { toBlog (fun _ => none) row with
            likes := Int.ofNat (likesData.filter (fun l => l.blog_id == row.id)).length }) ∧
    (∀ b ∈ loadBlogs (some blogsData) (some likesData),
      b.likes = Int.ofNat (likesData.filter (fun l => l.blog_id == b.id)).length) ∧
    ∀ stored : BlogRow → Option Int,
      loadBlogs (some (blogsData.map (fun row => { row with likes := stored row })))
          (some likesData)
        = loadBlogs (some blogsData) (some likesData) := by
  have hlikes : ∀ row : BlogRow, (toBlog (buildLikeCounts (some likesData)) row).likes
      = Int.ofNat (likesData.filter (fun l => l.blog_id == row.id)).length := by
    intro row
    show Int.ofNat (((buildLikeCounts (some likesData)) row.id).getD 0) = _
    rw [buildLikeCounts_getD]
    rfl
  refine ⟨?_, ?_, ?_⟩
  · unfold loadBlogs
    apply List.map_congr_left
    intro row _
    have := hlikes row
    unfold toBlog at this ⊢
    simp only at this ⊢
    rw [this]
  · intro b hb
    unfold loadBlogs at hb
    obtain ⟨row, -, rfl⟩ := List.mem_map.1 hb
    exact hlikes row
  · intro stored
    unfold loadBlogs
    simp only [Option.getD_some, List.map_map]
    rfl

/-- C17 witness: post 7 carries a stored counter of 40 but has two fetched
like records, post 8 has none; the loaded counts are 2 and 0. -/
theorem C17_like_count_is_derived_witness :
    (toBlog (buildLikeCounts (some [⟨7⟩, ⟨9⟩, ⟨7⟩]))
        ⟨7, some "A", some "ann", some "article", none, none, some "text", none, none,
          none, some 3, some 40, 100⟩).likes
      = Int.ofNat (List.filter (fun l => l.blog_id ==
          (toBlog (buildLikeCounts (some [⟨7⟩, ⟨9⟩, ⟨7⟩]))
            ⟨7, some "A", some "ann", some "article", none, none, some "text", none, none,
              none, some 3, some 40, 100⟩).id) [(⟨7⟩ : LikeRow), ⟨9⟩, ⟨7⟩]).length ∧
    (loadBlogs
      (some [⟨7, some "A", some "ann", some "article", none, none, some "text", none, none,
          none, some 3, some 40, 100⟩,
        ⟨8, some "B", some "bob", some "vlog", none, none, none, some "u", none, none,
          none, none, 200⟩])
      (some [⟨7⟩, ⟨9⟩, ⟨7⟩])).map (fun b => (b.id, b.likes)) = [(7, 2), (8, 0)] :=
  ⟨(C17_like_count_is_derived
      [⟨7, some "A", some "ann", some "article", none, none, some "text", none, none,
          none, some 3, some 40, 100⟩,
        ⟨8, some "B", some "bob", some "vlog", none, none, none, some "u", none, none,
          none, none, 200⟩] [⟨7⟩, ⟨9⟩, ⟨7⟩]).2.1 _ (by decide),
   by decide⟩

/-! ## Claims on publishing -/

theorem insert_mem_save (env : AdminEnv) (blogData data : BlogData) :
    Effect.insert data ∈ saveBlogToSupabase env blogData ↔ data = blogData := by
  unfold saveBlogToSupabase
  split <;> simp

/-- C18 (evaluation at the failing input): with a title, an author, a
selected cover file and a missing kind content, `createBlog` uploads the cover
to the `covers` bucket before it reports the missing content, for an article
without body, a vlog without URL or file, and a document post without file; no
record is inserted. -/
theorem C18_cover_upload_precedes_content_validation :
    createBlog sampleEnv ⟨none, some ⟨"cover.png", 2048⟩, none⟩
        ⟨some "article", "Title", "Ann", "", "", "", ""⟩
      = [.upload "covers" ⟨"cover.png", 2048⟩,
         .toast "Content is required for articles!" "error"] ∧
    createBlog sampleEnv ⟨none, some ⟨"cover.png", 2048⟩, none⟩
        ⟨some "vlog", "Title", "Ann", "", "", "", ""⟩
      = [.upload "covers" ⟨"cover.png", 2048⟩,
         .toast "Either a video URL or a video file is required for vlogs!" "error"] ∧
    createBlog sampleEnv ⟨none, some ⟨"cover.png", 2048⟩, none⟩
        ⟨some "docs", "Title", "Ann", "", "", "", ""⟩
      = [.upload "covers" ⟨"cover.png", 2048⟩,
         .toast "Please select a file to upload!" "error"] ∧
    createBlog sampleEnv ⟨none, some ⟨"cover.png", 2048⟩, none⟩
        ⟨some "article", "", "Ann", "", "", "", ""⟩
      = [.toast "Title and Author are required!" "error"] := by
  refine ⟨by decide, by decide, by decide, by decide⟩

/-- C19: every record `createBlog` passes to `saveBlogToSupabase` has the
content fields of its kind populated and the others null: an article has a
non-empty `content` and null `video_url`, `file_name`, `file_data`; a vlog has a
non-empty `video_url` and null `content`, `file_name`, `file_data`; a document
post has `file_name` and `file_data` and null `content` and `video_url`. -/
theorem C19_kind_determines_content_field (env : AdminEnv) (adm : AdminState)
    (form : BlogForm) (data : BlogData)
    (h : Effect.insert data ∈ createBlog env adm form) :
    data.type = form.blogType ∧
    (data.type = some "article" →
      (∃ c, data.content = some c ∧ c ≠ "") ∧
      data.video_url = none ∧ data.file_name = none ∧ data.file_data = none) ∧
    (data.type = some "vlog" →
      (∃ u, data.video_url = some u ∧ u ≠ "") ∧
      data.content = none ∧ data.file_name = none ∧ data.file_data = none) ∧
    (data.type = some "docs" →
      data.file_name.isSome = true ∧ data.file_data.isSome = true ∧
      data.content = none ∧ data.video_url = none) := by
  unfold createBlog at h
  simp only at h
  split at h
  · simp at h
  · split at h
    · next hcov =>
      split at hcov
      · cases hcov
      · split at hcov
        · cases hcov
        · cases hcov
          simp at h
    · next done coverImage hcov =>
      have hdone : Effect.insert data ∉ done := by
        split at hcov
        · cases hcov; simp
        · split at hcov
          · cases hcov; simp
          · cases hcov
      split at h
      · next hty =>
        have hty2 : form.blogType = some "article" := by simpa using hty
        split at h
        · simp [hdone] at h
        · next hcont =>
          have hd : data = _ := (insert_mem_save env _ data).1
            ((List.mem_append.1 h).resolve_left hdone)
          subst hd
          refine ⟨rfl, fun _ => ⟨⟨form.blogContent, rfl, by simpa using hcont⟩, rfl, rfl, rfl⟩,
            fun hv => ?_, fun hv => ?_⟩
          · simp [hty2] at hv
          · simp [hty2] at hv
      · next hnart =>
        split at h
        · next hty =>
          have hty2 : form.blogType = some "vlog" := by simpa using hty
          split at h
          · next hvid =>
            rcases List.mem_append.1 h with h1 | h1
            · exact absurd h1 hdone
            · split at hvid
              · cases hvid
              · split at hvid
                · cases hvid
                · cases hvid
                  simp at h1
          · next done2 videoUrl hvid =>
            have hdone2 : Effect.insert data ∉ done2 := by
              split at hvid
              · cases hvid; simp
              · split at hvid
                · cases hvid; simp
                · cases hvid
            split at h
            · simp [hdone, hdone2] at h
            · next hurl =>
              have hd : data = _ := (insert_mem_save env _ data).1
                ((List.mem_append.1 h).resolve_left (fun hm =>
                  (List.mem_append.1 hm).elim hdone hdone2))
              subst hd
              refine ⟨rfl, fun ha => ?_,
                fun _ => ⟨⟨videoUrl, rfl, by simpa using hurl⟩, rfl, rfl, rfl⟩, fun hv => ?_⟩
              · simp [hty2] at ha
              · simp [hty2] at hv
        · next hnvlog =>
          split at h
          · next hty =>
            have hty2 : form.blogType = some "docs" := by simpa using hty
            split at h
            · simp [hdone] at h
            · split at h
              · next file result _ _ =>
                have hd : data = _ := (insert_mem_save env _ data).1
                  ((List.mem_append.1 h).resolve_left hdone)
                subst hd
                refine ⟨rfl, fun ha => ?_, fun hv => ?_, fun _ => ⟨rfl, rfl, rfl, rfl⟩⟩
                · simp [hty2] at ha
                · simp [hty2] at hv
              · simp [hdone] at h
          · next hndocs =>
            have hd : data = _ := (insert_mem_save env _ data).1
              ((List.mem_append.1 h).resolve_left hdone)
            subst hd
            refine ⟨rfl, fun ha => ?_, fun hv => ?_, fun hd => ?_⟩
            · simp only at ha; simp [ha] at hnart
            · simp only at hv; simp [hv] at hnvlog
            · simp only at hd; simp [hd] at hndocs

/-- C19 witness: a vlog published with an uploaded video file and a cover
URL typed into the form. -/
theorem C19_kind_determines_content_field_witness :
    Effect.insert
        ⟨"Title", "Ann", some "vlog", "https://img/c.png", ["a", "b"], none,
          some "https://cdn/clip.mp4", none, none, 0, 0, "2024-01-01T00:00:00.000Z"⟩ ∈
      createBlog sampleEnv ⟨none, none, some ⟨"clip.mp4", 4096⟩⟩
        ⟨some "vlog", "Title", "Ann", "https://img/c.png", "a, b", "", ""⟩ ∧
    ((some "vlog" : Option String) = some "vlog" ∧
    ((some "vlog" : Option String) = some "article" →
      (∃ c, (none : Option String) = some c ∧ c ≠ "") ∧
      some "https://cdn/clip.mp4" = (none : Option String) ∧
      (none : Option String) = none ∧ (none : Option String) = none) ∧
    ((some "vlog" : Option String) = some "vlog" →
      (∃ u, some "https://cdn/clip.mp4" = some u ∧ u ≠ "") ∧
      (none : Option String) = none ∧ (none : Option String) = none ∧
      (none : Option String) = none) ∧
    ((some "vlog" : Option String) = some "docs" →
      (none : Option String).isSome = true ∧ (none : Option String).isSome = true ∧
      (none : Option String) = none ∧ some "https://cdn/clip.mp4" = (none : Option String))) :=
  ⟨by decide,
   C19_kind_determines_content_field sampleEnv ⟨none, none, some ⟨"clip.mp4", 4096⟩⟩
     ⟨some "vlog", "Title", "Ann", "https://img/c.png", "a, b", "", ""⟩
     ⟨"Title", "Ann", some "vlog", "https://img/c.png", ["a", "b"], none,
       some "https://cdn/clip.mp4", none, none, 0, 0, "2024-01-01T00:00:00.000Z"⟩
     (by decide)⟩

/-! ## Claim on the input arrays -/

theorem alloc_fresh (base : Nat) (h : Heap) (a : List Blog) (hb : base ≤ h.length) :
    FreshResult base h (h.alloc a) a := by
  refine ⟨hb, ?_, ?_, ?_, ?_⟩
  · simp [Heap.alloc]
  · simp [Heap.alloc, Heap.read]
  · simp [Heap.alloc]
  · intro i hi
    have : i < h.length := Nat.lt_of_lt_of_le hi hb
    simp [Heap.alloc, Heap.read, List.getElem?_append_left this]

theorem sort_fresh (base : Nat) (h : Heap) (r : Nat) (cmp : Blog → Blog → Int)
    (hbr : base ≤ r) (hr : r < h.length) :
    FreshResult base h (arraySort h r cmp) (jsSort cmp (h.read r)) := by
  refine ⟨hbr, ?_, ?_, ?_, ?_⟩
  · simp [arraySort, Heap.write, hr]
  · simp [arraySort, Heap.write, Heap.read, hr]
  · simp [arraySort, Heap.write]
  · intro i hi
    have : r ≠ i := by omega
    simp [arraySort, Heap.write, Heap.read, List.getElem?_set_ne this]

/-- Chaining: a fresh result computed on the heap of an earlier fresh result
is fresh for the first heap. -/
theorem fresh_trans (base : Nat) (h : Heap) (r1 r2 : Heap × Nat) (c1 c2 : List Blog)
    (h1 : FreshResult base h r1 c1) (h2 : FreshResult base r1.1 r2 c2) :
    FreshResult base h r2 c2 := by
  obtain ⟨_, _, _, hl1, hf1⟩ := h1
  obtain ⟨a2, b2, c2, hl2, hf2⟩ := h2
  exact ⟨a2, b2, c2, Nat.le_trans hl1 hl2, fun i hi => (hf2 i hi).trans (hf1 i hi)⟩

theorem sortBlogsArrayHeap_fresh (h : Heap) (arr : Nat) (sortBy : String) :
    FreshResult h.length h (sortBlogsArrayHeap h arr sortBy)
      (sortBlogsArray (h.read arr) sortBy) := by
  have h0 : FreshResult h.length h (arraySpread h arr) (h.read arr) :=
    alloc_fresh h.length h _ (Nat.le_refl _)
  have hsort : ∀ cmp, FreshResult h.length h
      (arraySort (arraySpread h arr).1 (arraySpread h arr).2 cmp)
      (jsSort cmp (h.read arr)) := by
    intro cmp
    have := sort_fresh h.length (arraySpread h arr).1 (arraySpread h arr).2 cmp h0.1 h0.2.1
    rw [h0.2.2.1] at this
    exact fresh_trans _ _ _ _ _ _ h0 this
  unfold sortBlogsArrayHeap sortBlogsArray
  simp only
  split
  · exact hsort _
  · split
    · exact hsort _
    · split
      · exact hsort _
      · exact h0

theorem filterBlogsArrayHeap_fresh (toLowerCase : String → String) (st : FeedState)
    (h : Heap) (arr : Nat) :
    FreshResult h.length h (filterBlogsArrayHeap toLowerCase st h arr)
      (filterBlogsArray toLowerCase st (h.read arr)) := by
  have h0 : FreshResult h.length h (arraySpread h arr) (h.read arr) :=
    alloc_fresh h.length h _ (Nat.le_refl _)
  have hfilter : ∀ (res : Heap × Nat) (c : List Blog) (p : Blog → Bool),
      FreshResult h.length h res c →
      FreshResult h.length h (arrayFilter res.1 res.2 p) (c.filter p) := by
    intro res c p hres
    have : FreshResult h.length res.1 (arrayFilter res.1 res.2 p)
        ((res.1.read res.2).filter p) :=
      alloc_fresh h.length res.1 ((res.1.read res.2).filter p) hres.2.2.2.1
    rw [hres.2.2.1] at this
    exact fresh_trans _ _ _ _ _ _ hres this
  unfold filterBlogsArrayHeap filterBlogsArray
  simp only
  generalize hs1 : (if (st.currentFilter != "all" && st.currentFilter != "popular") = true then
      arrayFilter (arraySpread h arr).1 (arraySpread h arr).2
        (fun b => b.type == st.currentFilter)
    else arraySpread h arr) = s1
  generalize hc1 : (if (st.currentFilter != "all" && st.currentFilter != "popular") = true then
      List.filter (fun b => b.type == st.currentFilter) (h.read arr)
    else h.read arr) = c1
  have f1 : FreshResult h.length h s1 c1 := by
    rw [← hs1, ← hc1]
    split
    · exact hfilter _ _ _ h0
    · exact h0
  generalize hs2 : (if (st.searchTerm != "") = true then
      arrayFilter s1.1 s1.2 (matchesSearch toLowerCase (toLowerCase st.searchTerm))
    else s1) = s2
  generalize hc2 : (if (st.searchTerm != "") = true then
      List.filter (matchesSearch toLowerCase (toLowerCase st.searchTerm)) c1
    else c1) = c2
  have f2 : FreshResult h.length h s2 c2 := by
    rw [← hs2, ← hc2]
    split
    · exact hfilter _ _ _ f1
    · exact f1
  split
  · have := sort_fresh h.length s2.1 s2.2 (fun a b => likesOrZero b - likesOrZero a)
      f2.1 f2.2.1
    rw [f2.2.2.1] at this
    exact fresh_trans _ _ _ _ _ _ f2 this
  · have := sortBlogsArrayHeap_fresh s2.1 s2.2 (sortControl st)
    rw [f2.2.2.1] at this
    obtain ⟨a, b, c, d, e⟩ := this
    exact ⟨Nat.le_trans f2.2.2.2.1 a, b, c, Nat.le_trans f2.2.2.2.1 d,
      fun i hi => (e i (Nat.lt_of_lt_of_le hi f2.2.2.2.1)).trans (f2.2.2.2.2 i hi)⟩

/-- C20: `filterBlogsArray` and `sortBlogsArray`, run on array objects,
leave their input array (and every other array that existed before the call)
with the same posts in the same order, in every branch including the in-place
sort under `popular`; the sorted result is a different, new array, and it
holds what the functions compute. -/
theorem C20_pipeline_leaves_input_array_unchanged (toLowerCase : String → String)
    (st : FeedState) (h : Heap) (arr : Nat) (sortBy : String) (harr : arr < h.length) :
    ((filterBlogsArrayHeap toLowerCase st h arr).1.read arr = h.read arr ∧
      (∀ i, i < h.length → (filterBlogsArrayHeap toLowerCase st h arr).1.read i = h.read i) ∧
      (filterBlogsArrayHeap toLowerCase st h arr).2 ≠ arr ∧
      (filterBlogsArrayHeap toLowerCase st h arr).1.read
          (filterBlogsArrayHeap toLowerCase st h arr).2
        = filterBlogsArray toLowerCase st (h.read arr)) ∧
    ((sortBlogsArrayHeap h arr sortBy).1.read arr = h.read arr ∧
      (∀ i, i < h.length → (sortBlogsArrayHeap h arr sortBy).1.read i = h.read i) ∧
      (sortBlogsArrayHeap h arr sortBy).2 ≠ arr ∧
      (sortBlogsArrayHeap h arr sortBy).1.read (sortBlogsArrayHeap h arr sortBy).2
        = sortBlogsArray (h.read arr) sortBy) := by
  obtain ⟨a1, _, c1, _, e1⟩ := filterBlogsArrayHeap_fresh toLowerCase st h arr
  obtain ⟨a2, _, c2, _, e2⟩ := sortBlogsArrayHeap_fresh h arr sortBy
  exact ⟨⟨e1 arr harr, e1, by omega, c1⟩, ⟨e2 arr harr, e2, by omega, c2⟩⟩

/-- C20 witness: the global posts array (address 0) holds posts with 2 and
5 likes; after the `popular` pipeline it still reads `[1, 2]` while the result
array reads `[2, 1]`. -/
theorem C20_pipeline_leaves_input_array_unchanged_witness :
    ((filterBlogsArrayHeap asciiLower ⟨"popular", "", 1, none⟩
        [[samplePost 1 "article" 2 10 [], samplePost 2 "vlog" 5 20 []]] 0).1.read 0).map
        (fun b => b.id) = [1, 2] ∧
    ((filterBlogsArrayHeap asciiLower ⟨"popular", "", 1, none⟩
        [[samplePost 1 "article" 2 10 [], samplePost 2 "vlog" 5 20 []]] 0).1.read
      (filterBlogsArrayHeap asciiLower ⟨"popular", "", 1, none⟩
        [[samplePost 1 "article" 2 10 [], samplePost 2 "vlog" 5 20 []]] 0).2).map
        (fun b => b.id) = [2, 1] ∧
    (filterBlogsArrayHeap asciiLower ⟨"popular", "", 1, none⟩
        [[samplePost 1 "article" 2 10 [], samplePost 2 "vlog" 5 20 []]] 0).1.read 0
      = Heap.read [[samplePost 1 "article" 2 10 [], samplePost 2 "vlog" 5 20 []]] 0 ∧
    (sortBlogsArrayHeap [[samplePost 1 "article" 2 10 [], samplePost 2 "vlog" 5 20 []]] 0
        "newest").1.read 0
      = Heap.read [[samplePost 1 "article" 2 10 [], samplePost 2 "vlog" 5 20 []]] 0 :=
  ⟨by decide, by decide,
   (C20_pipeline_leaves_input_array_unchanged asciiLower ⟨"popular", "", 1, none⟩
      [[samplePost 1 "article" 2 10 [], samplePost 2 "vlog" 5 20 []]] 0 "newest"
      (by decide)).1.1,
   (C20_pipeline_leaves_input_array_unchanged asciiLower ⟨"popular", "", 1, none⟩
      [[samplePost 1 "article" 2 10 [], samplePost 2 "vlog" 5 20 []]] 0 "newest"
      (by decide)).2.1⟩

/-! ## Claims on the visible window -/

theorem pairwise_take_drop {α : Type} (r : α → α → Prop) (l : List α) (k : Nat)
    (h : l.Pairwise r) : ∀ a ∈ l.take k, ∀ b ∈ l.drop k, r a b := by
  rw [← List.take_append_drop k l, List.pairwise_append] at h
  exact h.2.2

theorem filterBlogsArray_popular_sorted (toLowerCase : String → String) (st : FeedState)
    (posts : List Blog) (hpop : st.currentFilter = "popular") :
    (filterBlogsArray toLowerCase st posts).Pairwise (fun a b => b.likes ≤ a.likes) := by
  rw [filterBlogsArray_eq, if_pos (by simp [hpop])]
  have h := jsSort_desc likesOrZero (posts.filter (keptBy toLowerCase st))
  exact h.imp (fun {a b} hab => by rwa [likesOrZero_eq, likesOrZero_eq] at hab)

/-- C21: under filter `popular`, when the feed grid exists, every post shown
in the window has at least as many likes as every matching post that is not
shown: as every post of the filtered sequence behind the window, and hence as
every post of the list that matches the search and is not among the cards. -/
theorem C21_popular_window_holds_most_liked (toLowerCase : String → String)
    (st : FeedState) (blogs : List Blog) (dom : FeedDom)
    (hpop : st.currentFilter = "popular") (hgrid : dom.blogGrid.isSome = true) :
    ∃ cards, (renderBlogs toLowerCase st blogs dom).blogGrid = some cards ∧
      cards ++ (filterBlogsArray toLowerCase st blogs).drop (5 * st.currentPage)
        = filterBlogsArray toLowerCase st blogs ∧
      (∀ a ∈ cards, ∀ b ∈ (filterBlogsArray toLowerCase st blogs).drop (5 * st.currentPage),
        b.likes ≤ a.likes) ∧
      ∀ a ∈ cards, ∀ b ∈ blogs,
        (st.searchTerm = "" ∨ matchesSearch toLowerCase (toLowerCase st.searchTerm) b = true) →
        b ∉ cards → b.likes ≤ a.likes := by
  have hk : st.currentPage * POSTS_PER_PAGE = 5 * st.currentPage := by
    rw [Nat.mul_comm]; rfl
  have hsplit : (filterBlogsArray toLowerCase st blogs).take (st.currentPage * POSTS_PER_PAGE)
      ++ (filterBlogsArray toLowerCase st blogs).drop (5 * st.currentPage)
      = filterBlogsArray toLowerCase st blogs := by
    rw [hk, List.take_append_drop]
  have hord : ∀ a ∈ (filterBlogsArray toLowerCase st blogs).take
      (st.currentPage * POSTS_PER_PAGE),
      ∀ b ∈ (filterBlogsArray toLowerCase st blogs).drop (5 * st.currentPage),
      b.likes ≤ a.likes := by
    rw [hk]
    exact pairwise_take_drop _ _ _ (filterBlogsArray_popular_sorted toLowerCase st blogs hpop)
  refine ⟨_, renderBlogs_grid toLowerCase st blogs dom hgrid, hsplit, hord, ?_⟩
  intro a ha b hb hmatch hnot
  have hkept : keptBy toLowerCase st b = true := by
    rcases hmatch with h | h
    · simp [keptBy, hpop, h]
    · simp [keptBy, hpop, h]
  have hbF : b ∈ filterBlogsArray toLowerCase st blogs :=
    (filterBlogsArray_perm toLowerCase st blogs).mem_iff.2 (List.mem_filter.2 ⟨hb, hkept⟩)
  rw [← hsplit] at hbF
  rcases List.mem_append.1 hbF with h | h
  · exact absurd h hnot
  · exact hord a ha b h

/-- C21 witness: seven posts with likes 1 to 7 under `popular` on page 1: the
window shows the posts with 7, 6, 5, 4, 3 likes, and the two posts left out
have no more likes than any shown post. -/
theorem C21_popular_window_holds_most_liked_witness :
    (∃ cards,
      (renderBlogs asciiLower ⟨"popular", "", 1, none⟩ sampleLikedPosts
        ⟨some [], some true, none, none⟩).blogGrid = some cards ∧
      ∀ a ∈ cards, ∀ b ∈ sampleLikedPosts,
        (("" : String) = "" ∨ matchesSearch asciiLower (asciiLower "") b = true) →
        b ∉ cards → b.likes ≤ a.likes) ∧
    ((renderBlogs asciiLower ⟨"popular", "", 1, none⟩ sampleLikedPosts
        ⟨some [], some true, none, none⟩).blogGrid.map
          (fun cards => cards.map (fun b => b.likes))) = some [7, 6, 5, 4, 3] :=
  ⟨(C21_popular_window_holds_most_liked asciiLower ⟨"popular", "", 1, none⟩
      sampleLikedPosts ⟨some [], some true, none, none⟩ rfl rfl).elim
      (fun cards h => ⟨cards, h.1, h.2.2.2⟩),
   by decide⟩

/-- C22: in `renderBlogs` with a non-empty filtered sequence (and an
existing feed grid), the "Load more" control is shown exactly when the
filtered sequence is longer than `currentPage * POSTS_PER_PAGE`, that is
exactly when the window is shorter than the filtered sequence, and it is hidden
exactly when the window is the whole filtered sequence. -/
theorem C22_load_more_shown_iff_posts_remain (toLowerCase : String → String)
    (st : FeedState) (blogs : List Blog) (dom : FeedDom)
    (hgrid : dom.blogGrid.isSome = true)
    (hne : filterBlogsArray toLowerCase st blogs ≠ []) :
    ∃ cards shown,
      (renderBlogs toLowerCase st blogs dom).blogGrid = some cards ∧
      (renderBlogs toLowerCase st blogs dom).loadMoreShown = some shown ∧
      (shown = true ↔
        st.currentPage * 5 < (filterBlogsArray toLowerCase st blogs).length) ∧
      (shown = true ↔ cards.length < (filterBlogsArray toLowerCase st blogs).length) ∧
      (shown = true ↔ (filterBlogsArray toLowerCase st blogs).drop cards.length ≠ []) ∧
      (shown = false ↔ cards = filterBlogsArray toLowerCase st blogs) := by
  have hgridEq := renderBlogs_grid toLowerCase st blogs dom hgrid
  have hlen : (filterBlogsArray toLowerCase st blogs).length ≠ 0 :=
    fun h => hne (List.length_eq_zero.1 h)
  have hshown : (renderBlogs toLowerCase st blogs dom).loadMoreShown
      = some (decide ((filterBlogsArray toLowerCase st blogs).length
          > st.currentPage * POSTS_PER_PAGE)) := by
    unfold renderBlogs
    cases hg : dom.blogGrid with
    | none => rw [hg] at hgrid; cases hgrid
    | some w =>
      have hb : ((filterBlogsArray toLowerCase st blogs).length == 0) = false := by
        simpa using hlen
      simp [hb]
  have hP : POSTS_PER_PAGE = 5 := rfl
  refine ⟨_, _, hgridEq, hshown, ?_, ?_, ?_, ?_⟩
  · rw [hP]; simp
  · rw [hP, List.length_take]; simp
  · rw [hP, List.length_take]
    simp only [decide_eq_true_eq, ne_eq, List.drop_eq_nil_iff, not_le]
    omega
  · rw [hP]
    simp only [decide_eq_false_iff_not, not_lt, gt_iff_lt]
    constructor
    · intro h
      exact List.take_of_length_le h
    · intro h
      have := congrArg List.length h
      rw [List.length_take] at this
      omega

/-- C22 witness: 12 matching posts; on page 2 the control is shown (10 of
12 cards), on page 3 it is hidden (all 12 cards). -/
theorem C22_load_more_shown_iff_posts_remain_witness :
    (∃ cards shown,
      (renderBlogs asciiLower ⟨"all", "", 2, some "newest"⟩ (samplePosts 12)
        ⟨some [], some true, none, none⟩).blogGrid = some cards ∧
      (renderBlogs asciiLower ⟨"all", "", 2, some "newest"⟩ (samplePosts 12)
        ⟨some [], some true, none, none⟩).loadMoreShown = some shown ∧
      (shown = true ↔ 2 * 5 < (filterBlogsArray asciiLower ⟨"all", "", 2, some "newest"⟩
          (samplePosts 12)).length) ∧
      (shown = true ↔ cards.length < (filterBlogsArray asciiLower
          ⟨"all", "", 2, some "newest"⟩ (samplePosts 12)).length) ∧
      (shown = true ↔ (filterBlogsArray asciiLower ⟨"all", "", 2, some "newest"⟩
          (samplePosts 12)).drop cards.length ≠ []) ∧
      (shown = false ↔ cards = filterBlogsArray asciiLower ⟨"all", "", 2, some "newest"⟩
          (samplePosts 12))) ∧
    (renderBlogs asciiLower ⟨"all", "", 2, some "newest"⟩ (samplePosts 12)
        ⟨some [], some true, none, none⟩).loadMoreShown = some true ∧
    (renderBlogs asciiLower ⟨"all", "", 3, some "newest"⟩ (samplePosts 12)
        ⟨some [], some true, none, none⟩).loadMoreShown = some false :=
  ⟨C22_load_more_shown_iff_posts_remain asciiLower ⟨"all", "", 2, some "newest"⟩
      (samplePosts 12) ⟨some [], some true, none, none⟩ rfl (by decide),
   by decide, by decide⟩

/-! ## Claims on the document limit and the tag list -/

/-- C23: `handleFile` enforces the 10 MB limit: a file larger than
`10 * 1024 * 1024` bytes leaves the file globals, `currentFile` included, as
they were, and a file of at most that size becomes `currentFile` (the cover
and video selections are kept). -/
theorem C23_handleFile_enforces_size_limit (adm : AdminState) (dom : AdminDom)
    (file : File) :
    (file.size > 10 * 1024 * 1024 →
      (handleFile adm dom file).1 = adm ∧
      (handleFile adm dom file).1.currentFile = adm.currentFile) ∧
    (file.size ≤ 10 * 1024 * 1024 →
      (handleFile adm dom file).1.currentFile = some file ∧
      (handleFile adm dom file).1.currentCoverFile = adm.currentCoverFile ∧
      (handleFile adm dom file).1.currentVideoFile = adm.currentVideoFile) := by
  unfold handleFile
  constructor
  · intro h
    rw [if_pos h]
    exact ⟨rfl, rfl⟩
  · intro h
    rw [if_neg (by omega)]
    exact ⟨rfl, rfl, rfl⟩

/-- C23 witness: a file of 10485761 bytes is refused and the earlier
selection stays; a file of exactly 10485760 bytes is taken. -/
theorem C23_handleFile_enforces_size_limit_witness :
    ((handleFile ⟨some ⟨"old.pdf", 100⟩, none, none⟩ ⟨none, none, none⟩
        ⟨"big.pdf", 10485761⟩).1 = ⟨some ⟨"old.pdf", 100⟩, none, none⟩ ∧
      (handleFile ⟨some ⟨"old.pdf", 100⟩, none, none⟩ ⟨none, none, none⟩
        ⟨"big.pdf", 10485761⟩).1.currentFile = some ⟨"old.pdf", 100⟩) ∧
    ((handleFile ⟨some ⟨"old.pdf", 100⟩, none, none⟩ ⟨none, none, none⟩
        ⟨"fits.pdf", 10485760⟩).1.currentFile = some ⟨"fits.pdf", 10485760⟩ ∧
      (handleFile ⟨some ⟨"old.pdf", 100⟩, none, none⟩ ⟨none, none, none⟩
        ⟨"fits.pdf", 10485760⟩).1.currentCoverFile = none ∧
      (handleFile ⟨some ⟨"old.pdf", 100⟩, none, none⟩ ⟨none, none, none⟩
        ⟨"fits.pdf", 10485760⟩).1.currentVideoFile = none) :=
  ⟨(C23_handleFile_enforces_size_limit ⟨some ⟨"old.pdf", 100⟩, none, none⟩
      ⟨none, none, none⟩ ⟨"big.pdf", 10485761⟩).1 (by decide),
   (C23_handleFile_enforces_size_limit ⟨some ⟨"old.pdf", 100⟩, none, none⟩
      ⟨none, none, none⟩ ⟨"fits.pdf", 10485760⟩).2 (by decide)⟩

theorem splitComma_ne_nil (s : List Char) : splitComma s ≠ [] := by
  induction s with
  | nil => simp [splitComma]
  | cons c cs ih =>
    unfold splitComma
    split
    · simp
    · split
      · simp
      · simp

theorem splitComma_no_comma (s : List Char) : ∀ seg ∈ splitComma s, ',' ∉ seg := by
  induction s with
  | nil => intro seg h; simp [splitComma] at h; subst h; simp
  | cons c cs ih =>
    intro seg h
    unfold splitComma at h
    split at h
    · rcases List.mem_cons.1 h with rfl | h2
      · simp
      · exact ih seg h2
    · next hc =>
      split at h
      · next hnil => exact absurd hnil (splitComma_ne_nil cs)
      · next first rest heq =>
        rcases List.mem_cons.1 h with rfl | h2
        · intro hmem
          rcases List.mem_cons.1 hmem with h3 | h3
          · exact hc h3.symm
          · exact ih first (by rw [heq]; simp) h3
        · exact ih seg (by rw [heq]; exact List.mem_cons_of_mem _ h2)

theorem intercalate_cons_cons {α : Type} (sep a b : List α) (l : List (List α)) :
    List.intercalate sep (a :: b :: l) = a ++ sep ++ List.intercalate sep (b :: l) := by
  simp [List.intercalate, List.intersperse]

theorem intercalate_single {α : Type} (sep a : List α) :
    List.intercalate sep [a] = a := by
  simp [List.intercalate, List.intersperse]

theorem intercalate_cons_head {α : Type} (sep : List α) (c : α) (a : List α)
    (l : List (List α)) :
    List.intercalate sep ((c :: a) :: l) = c :: List.intercalate sep (a :: l) := by
  cases l with
  | nil => rw [intercalate_single, intercalate_single]
  | cons b l => rw [intercalate_cons_cons, intercalate_cons_cons]; rfl

/-- Joining the segments with commas gives back the input. -/
theorem splitComma_intercalate (s : List Char) :
    List.intercalate [','] (splitComma s) = s := by
  induction s with
  | nil => simp [splitComma, intercalate_single]
  | cons c cs ih =>
    unfold splitComma
    split
    · next hc =>
      cases hs : splitComma cs with
      | nil => exact absurd hs (splitComma_ne_nil cs)
      | cons b l =>
        rw [intercalate_cons_cons, ← hs, ih, hc]
        rfl
    · split
      · next hnil => exact absurd hnil (splitComma_ne_nil cs)
      · next first rest heq =>
        rw [intercalate_cons_head, ← heq, ih]

theorem dropWhile_head_not {α : Type} (p : α → Bool) (l : List α) (c : α)
    (h : (l.dropWhile p).head? = some c) : p c = false := by
  induction l with
  | nil => simp at h
  | cons a as ih =>
    rw [List.dropWhile_cons] at h
    split at h
    · exact ih h
    · next hp =>
      simp only [List.head?_cons, Option.some.injEq] at h
      subst h
      simpa using hp

theorem jsTrim_last (s : List Char) (c : Char) (h : (jsTrim s).getLast? = some c) :
    isJsSpace c = false := by
  unfold jsTrim at h
  rw [List.getLast?_reverse] at h
  exact dropWhile_head_not _ _ c h

/-- The trimmed text sits between two runs of white space in the input. -/
theorem jsTrim_decomp (s : List Char) :
    s = s.takeWhile isJsSpace ++ jsTrim s
      ++ (((s.dropWhile isJsSpace).reverse).takeWhile isJsSpace).reverse := by
  have h1 := List.takeWhile_append_dropWhile isJsSpace s
  have h2 := List.takeWhile_append_dropWhile isJsSpace (s.dropWhile isJsSpace).reverse
  have h3 : s.dropWhile isJsSpace
      = jsTrim s ++ (((s.dropWhile isJsSpace).reverse).takeWhile isJsSpace).reverse := by
    have := congrArg List.reverse h2
    rw [List.reverse_append, List.reverse_reverse] at this
    exact this.symm
  rw [List.append_assoc, ← h3, h1]

theorem jsTrim_head (s : List Char) (c : Char) (h : (jsTrim s).head? = some c) :
    isJsSpace c = false := by
  have hpre : jsTrim s <+: s.dropWhile isJsSpace :=
    List.rdropWhile_prefix isJsSpace (s.dropWhile isJsSpace)
  obtain ⟨t, ht⟩ := hpre
  cases hj : jsTrim s with
  | nil => rw [hj] at h; simp at h
  | cons a as =>
    rw [hj] at h ht
    simp only [List.head?_cons, Option.some.injEq] at h
    subst h
    apply dropWhile_head_not isJsSpace s a
    rw [← ht]
    rfl

theorem jsTrim_isTrimOf (s : List Char) : IsTrimOf s (jsTrim s) :=
  ⟨_, _, jsTrim_decomp s, fun _ hc => List.mem_takeWhile_imp hc,
    fun _ hc => List.mem_takeWhile_imp (List.mem_reverse.1 hc),
    jsTrim_head s, jsTrim_last s⟩

theorem jsTrim_subset (s : List Char) : ∀ c ∈ jsTrim s, c ∈ s := by
  intro c hc
  rw [jsTrim_decomp s]
  simp [hc]

theorem parseTags_eq (value : String) :
    parseTags value
      = (((splitComma value.data).map jsTrim).filter (fun t => !t.isEmpty)).map String.mk := by
  unfold parseTags
  split
  · next h =>
    have : value = "" := by simpa using h
    subst this
    decide
  · rfl

/-- C24: for every tags input, the stored tag list is the list of the
comma-separated segments of the input (joined by commas they give the input,
and none contains a comma), each trimmed of surrounding white space, with the
empty ones removed, in order; no stored tag is empty, contains a comma, or
starts or ends with white space; the empty input gives the empty list. -/
theorem C24_tags_are_trimmed_segments (value : String) :
    parseTags "" = [] ∧
    (∃ segs : List (List Char),
      List.intercalate [','] segs = value.data ∧
      (∀ seg ∈ segs, ',' ∉ seg) ∧
      (∀ seg ∈ segs, IsTrimOf seg (jsTrim seg)) ∧
      parseTags value
        = ((segs.map jsTrim).filter (fun t => !t.isEmpty)).map String.mk) ∧
    ∀ tag ∈ parseTags value,
      tag ≠ "" ∧ ',' ∉ tag.data ∧
      (∀ c, tag.data.head? = some c → isJsSpace c = false) ∧
      (∀ c, tag.data.getLast? = some c → isJsSpace c = false) := by
  refine ⟨by decide, ⟨splitComma value.data, splitComma_intercalate _,
    splitComma_no_comma _, fun seg _ => jsTrim_isTrimOf seg, parseTags_eq value⟩, ?_⟩
  intro tag htag
  rw [parseTags_eq] at htag
  obtain ⟨t, ht, rfl⟩ := List.mem_map.1 htag
  obtain ⟨ht1, ht2⟩ := List.mem_filter.1 ht
  obtain ⟨seg, hseg, rfl⟩ := List.mem_map.1 ht1
  refine ⟨?_, ?_, jsTrim_head seg, jsTrim_last seg⟩
  · intro h
    have hd : (String.mk (jsTrim seg)).data = ("" : String).data := by rw [h]
    have : jsTrim seg = [] := hd
    rw [this] at ht2
    simp at ht2
  · intro hc
    exact splitComma_no_comma _ seg hseg (jsTrim_subset seg _ hc)

/-- C24 witness: the input " a, b ,,c d , " gives the tags "a", "b" and
"c d". -/
theorem C24_tags_are_trimmed_segments_witness :
    parseTags " a, b ,,c d , " = ["a", "b", "c d"] ∧
    (("a" : String) ≠ "" ∧ ',' ∉ ("a" : String).data ∧
      (∀ c, ("a" : String).data.head? = some c → isJsSpace c = false) ∧
      (∀ c, ("a" : String).data.getLast? = some c → isJsSpace c = false)) :=
  ⟨by decide, (C24_tags_are_trimmed_segments " a, b ,,c d , ").2.2 "a" (by decide)⟩

end GlassBlog
